import Mathlib

/-!
# Virtual memory of the NachOS user-program kernel

A shallow embedding of `code/userprog/addrspace.cc`: creation of an address
space from an executable, duplication for a forked process, extension by a
shared region, the page-fault handler, the page-replacement routine, the swap
store and the teardown.

Conventions of the embedding.

* The process-wide variables (`machine`, `stats`, `currentThread`,
  `threadArray`, `fileSystem`, `usedPages`, `numPagesAllocated`,
  `LRU_Clock_ptr`) are the fields of `SystemState`.  Address-space objects
  live in `SystemState.spaces`; the position of an object in that list plays
  the role of its pointer (`this`, `parentSpace`, `threadArray[pid]->space`).
* C arrays are lists.  A store through an index outside the array is dropped
  (it is taken not to hit any variable of the model) and a load from outside
  yields the default value.  The source has undefined behaviour there; the
  theorems on memory contents carry the bounds under which no such access
  happens, and no example below states what such an access would leave (the
  examples of a fault on the page just past the table and of the teardown of
  an address space without resident pages run through such accesses and state
  only what does not depend on them).
* Values the source reads without having set them (the local `i` of
  `GetNextPageToWrite` on some paths, the results of `Random()`, the contents
  of freshly allocated arrays) are explicit arguments.
* `ASSERT`, a division by zero and a null dereference end the run with a
  `Fault`.
* `unsigned` arithmetic is taken modulo `2^32` where the source computes
  addresses and sizes.
* Output on the console, debugging output and the scheduling delay
  (`SortedInsertInWaitQueue`) are not part of the state.
-/

set_option linter.unusedVariables false

namespace NachOS

/-- Ways in which a run stops without returning. -/
inductive Fault where
  /-- An `ASSERT` failed and the system aborted. -/
  | assertion
  /-- Remainder by zero. -/
  | divByZero
  /-- A null or dangling object pointer was dereferenced. -/
  | nullPointer
  /-- The bounded clock scan used up its bound of steps. -/
  | spin
  deriving DecidableEq, Repr

/-- Values of the global `replacementAlgo`. -/
inductive ReplacementAlgo where
  | NO_REPL
  | RANDOM_REPL
  | LRU_CLOCK_REPL
  deriving DecidableEq, Repr

/-- Compile-time constants and the configuration chosen at start-up.  Their
declarations (`machine.h`, `noff.h`, `addrspace.h`) are taken as parameters. -/
structure Config where
  /-- Size of a page and of a frame in bytes. -/
  PageSize : Nat
  /-- Number of physical frames. -/
  NumPhysPages : Nat
  /-- Bytes reserved for the user stack. -/
  UserStackSize : Nat
  /-- Magic number of a NOFF executable. -/
  NOFFMAGIC : Nat
  /-- Page replacement policy. -/
  replacementAlgo : ReplacementAlgo
  deriving DecidableEq, Repr

/-- One entry of a page table (class `TranslationEntry`). -/
structure TranslationEntry where
  virtualPage : Int
  physicalPage : Int
  valid : Bool
  use : Bool
  dirty : Bool
  shared : Bool
  ifUsed : Bool
  readOnly : Bool
  deriving DecidableEq, Repr

instance : Inhabited TranslationEntry :=
  ⟨{ virtualPage := 0, physicalPage := 0, valid := false, use := false,
     dirty := false, shared := false, ifUsed := false, readOnly := false }⟩

/-- One segment descriptor of the executable header. -/
structure Segment where
  virtualAddr : Nat
  inFileAddr : Nat
  size : Nat
  deriving DecidableEq, Repr

/-- Header of a NOFF executable. -/
structure NoffHeader where
  noffMagic : Nat
  code : Segment
  initData : Segment
  uninitData : Segment
  deriving DecidableEq, Repr

/-- Data members of a `ProcessAddrSpace` object. -/
structure ProcessAddrSpace where
  NachOSpageTable : List TranslationEntry
  numPagesInVM : Nat
  noffH : NoffHeader
  swapMemory : List Nat
  fileName : String
  deriving DecidableEq, Repr

/-- The global state the address-space routines read and write. -/
structure SystemState where
  /-- Bytes of `machine->mainMemory`. -/
  mainMemory : List Nat
  /-- Owner of each frame (`machine->memoryUsedBy`), `-1` when free. -/
  memoryUsedBy : List Int
  /-- Virtual page held by each frame (`machine->virtualPageNo`). -/
  virtualPageNo : List Int
  /-- Reference bit of each frame (`machine->referenceBit`). -/
  referenceBit : List Bool
  /-- Hand of the clock policy. -/
  LRU_Clock_ptr : Nat
  /-- Number of frames in use. -/
  usedPages : Int
  /-- Number of frames handed out so far under `NO_REPL`. -/
  numPagesAllocated : Nat
  /-- Counter `stats->numPageFaults`. -/
  numPageFaults : Nat
  /-- Result of `currentThread->GetPID()`. -/
  currentPID : Int
  /-- For each process identifier the object `threadArray[pid]->space` points to. -/
  threadSpace : List (Option Nat)
  /-- The address-space objects. -/
  spaces : List ProcessAddrSpace
  /-- Files by name, as seen by `fileSystem->Open`. -/
  fileSystem : List (String × List Nat)
  deriving DecidableEq, Repr

/-- Values that one call of the allocator reads without the program having
determined them. -/
structure Indet where
  /-- Initial content of the local variable `i` of `GetNextPageToWrite`. -/
  i0 : Int
  /-- Result of the first call of `Random()`. -/
  r1 : Nat
  /-- Result of the second call of `Random()`. -/
  r2 : Nat
  deriving DecidableEq, Repr

/-- Reduction of an `unsigned` value. -/
def u32 (n : Nat) : Nat := n % 4294967296

/-- Load from an array through an `int` index. -/
def getAt {α : Type} [Inhabited α] (l : List α) (i : Int) : α :=
  if 0 ≤ i then l.getD i.toNat default else default

/-- Store into an array through an `int` index. -/
def setAt {α : Type} (l : List α) (i : Int) (v : α) : List α :=
  if 0 ≤ i then l.set i.toNat v else l

/-- Byte address of the start of frame `p`, computed in `unsigned`. -/
def frameAddr (c : Config) (p : Int) : Nat :=
  Int.toNat ((p * (c.PageSize : Int)) % 4294967296)

/-- The `len` bytes of `m` from offset `off` on. -/
def readBytes (m : List Nat) (off len : Nat) : List Nat :=
  (List.range len).map (fun j => m.getD (off + j) 0)

/-- The buffer `m` with the bytes `bs` stored from offset `off` on. -/
def writeBytes (m : List Nat) (off : Nat) (bs : List Nat) : List Nat :=
  (List.range m.length).map
    (fun a => if off ≤ a ∧ a < off + bs.length then bs.getD (a - off) 0 else m.getD a 0)

/-- C `memcpy(&dst[d], &src[s], n)`. -/
def memcpy (dst : List Nat) (d : Nat) (src : List Nat) (s n : Nat) : List Nat :=
  writeBytes dst d (readBytes src s n)

/-- C `bzero(&m[off], n)`. -/
def bzero (m : List Nat) (off n : Nat) : List Nat :=
  writeBytes m off (List.replicate n 0)

/-- Modelled from the spec: `OpenFile::ReadAt` is not under src/; read-at-offset
copies up to `numBytes` bytes of the file, starting at `position`, into the
buffer at `into`, and stops early at the end of the file. -/
def ReadAt (file : List Nat) (buf : List Nat) (into numBytes position : Nat) : List Nat :=
  writeBytes buf into ((file.drop position).take numBytes)

/-- Modelled from the spec: the macro `divRoundUp` of `utility.h` is not under
src/; it is the quotient rounded up. -/
def divRoundUp (n s : Nat) : Nat :=
  n / s + (if n % s > 0 then 1 else 0)

/-- The frame bytes: `PageSize` bytes of main memory that make up frame `p`. -/
def frameBytes (c : Config) (k : SystemState) (p : Int) : List Nat :=
  readBytes k.mainMemory (frameAddr c p) c.PageSize

/-- Page table of the object `self`, empty when there is no such object. -/
def pageTableOf (k : SystemState) (self : Nat) : List TranslationEntry :=
  match k.spaces[self]? with
  | some sp => sp.NachOSpageTable
  | none => []

/-- `SwapHeader`: byte order conversion of every word of the header. -/
def SwapHeader (WordToHost : Nat → Nat) (h : NoffHeader) : NoffHeader :=
  { noffMagic := WordToHost h.noffMagic,
    code := { size := WordToHost h.code.size,
              virtualAddr := WordToHost h.code.virtualAddr,
              inFileAddr := WordToHost h.code.inFileAddr },
    initData := { size := WordToHost h.initData.size,
                  virtualAddr := WordToHost h.initData.virtualAddr,
                  inFileAddr := WordToHost h.initData.inFileAddr },
    uninitData := { size := WordToHost h.uninitData.size,
                    virtualAddr := WordToHost h.uninitData.virtualAddr,
                    inFileAddr := WordToHost h.uninitData.inFileAddr } }

/-- The header kept by the constructor: the header read from the file, with
its byte order converted when the magic number matches only after conversion. -/
def readHeader (c : Config) (WordToHost : Nat → Nat) (raw : NoffHeader) : NoffHeader :=
  if raw.noffMagic ≠ c.NOFFMAGIC ∧ WordToHost raw.noffMagic = c.NOFFMAGIC then
    SwapHeader WordToHost raw
  else raw

/-- The entry written for page `i` by the constructor from an executable. -/
def freshEntry (i : Nat) : TranslationEntry :=
  { virtualPage := (i : Int), physicalPage := -1, valid := false, use := false,
    dirty := false, shared := false, ifUsed := false, readOnly := false }

/-- `ProcessAddrSpace::ProcessAddrSpace(OpenFile*, char*)`.  `raw` is the header
as read from the file, `swapInit` the indeterminate content of the new swap
array.  Returns the new state and the position of the new object. -/
def ProcessAddrSpace_exec (c : Config) (WordToHost : Nat → Nat) (k : SystemState)
    (raw : NoffHeader) (programname : String) (swapInit : Nat → Nat) :
    Except Fault (SystemState × Nat) :=
  let noffH := readHeader c WordToHost raw
  if noffH.noffMagic ≠ c.NOFFMAGIC then .error .assertion
  else if c.PageSize = 0 then .error .divByZero
  else
    let size := u32 (noffH.code.size + noffH.initData.size + noffH.uninitData.size
                  + c.UserStackSize)
    let numPagesInVM := divRoundUp size c.PageSize
    let size2 := u32 (numPagesInVM * c.PageSize)
    let sp : ProcessAddrSpace :=
      { NachOSpageTable := (List.range numPagesInVM).map freshEntry,
        numPagesInVM := numPagesInVM,
        noffH := noffH,
        swapMemory := (List.range size2).map swapInit,
        fileName := programname }
    .ok ({ k with spaces := k.spaces ++ [sp] }, k.spaces.length)

/-- The stores of `SaveToSwap(vpn)` on the data of one object: the copy of the
frame into the swap array when the entry is dirty, and the new entry. -/
def swapOut (c : Config) (mainMemory : List Nat) (sp : ProcessAddrSpace) (vpn : Int) :
    ProcessAddrSpace :=
  let e := getAt sp.NachOSpageTable vpn
  let swap1 :=
    if e.dirty then
      memcpy sp.swapMemory (Int.toNat (vpn * (c.PageSize : Int))) mainMemory
        (frameAddr c e.physicalPage) c.PageSize
    else sp.swapMemory
  let e1 : TranslationEntry := if e.dirty then { e with dirty := false } else e
  let e2 : TranslationEntry := { e1 with physicalPage := -1, valid := false }
  { sp with swapMemory := swap1, NachOSpageTable := setAt sp.NachOSpageTable vpn e2 }

/-- `ProcessAddrSpace::SaveToSwap(int vpn)` on the object `self`. -/
def SaveToSwap (c : Config) (k : SystemState) (self : Nat) (vpn : Int) :
    Except Fault SystemState :=
  match k.spaces[self]? with
  | none => .error .nullPointer
  | some sp =>
    if (getAt sp.NachOSpageTable vpn).valid = false then .error .assertion
    else .ok { k with spaces := k.spaces.set self (swapOut c k.mainMemory sp vpn) }

/-- The `while` loop of the clock policy: the reference bits and the hand when
the loop exits.  The first argument bounds the number of tests of the loop
condition. -/
def clockScan (N : Nat) (notToReplace : Int) :
    Nat → List Bool → Nat → Except Fault (List Bool × Nat)
  | 0, _, _ => .error .spin
  | fuel + 1, rb, ptr =>
    if rb.getD ptr false then
      if N = 0 then .error .divByZero
      else
        let p1 := (ptr + 1) % N
        let p2 := if (p1 : Int) = notToReplace then (p1 + 1) % N else p1
        clockScan N notToReplace fuel (rb.set ptr false) p2
    else .ok (rb, ptr)

/-- The `for` loop that looks for a free frame: the values of `i` and of
`foundPage` when it exits. -/
def findFree (memoryUsedBy : List Int) (N : Nat) : Int × Int :=
  match (List.range N).find? (fun i => memoryUsedBy.getD i 0 == -1) with
  | some i => ((i : Int), (i : Int))
  | none => ((N : Int), -1)

/-- The last two stores of `GetNextPageToWrite`, `NachOSpageTable[i].valid = TRUE`
and `NachOSpageTable[i].physicalPage = foundPage`, on the data of one object. -/
def markValid (sp : ProcessAddrSpace) (i foundPage : Int) : ProcessAddrSpace :=
  let e := getAt sp.NachOSpageTable i
  { sp with NachOSpageTable :=
              setAt sp.NachOSpageTable i { e with valid := true, physicalPage := foundPage } }

/-- The tail of `GetNextPageToWrite`, from the stores into the frame pool to
the `return`; `i` and `foundPage` are the values of the two locals. -/
def recordFrame (k : SystemState) (self : Nat) (vpn i foundPage : Int) :
    Except Fault (SystemState × Int) :=
  if foundPage = -1 then .error .assertion
  else
    match k.spaces[self]? with
    | none => .error .nullPointer
    | some sp =>
      .ok ({ k with memoryUsedBy := setAt k.memoryUsedBy foundPage k.currentPID,
                    virtualPageNo := setAt k.virtualPageNo foundPage vpn,
                    spaces := k.spaces.set self (markValid sp i foundPage) },
           foundPage)

/-- The block "Swap out the replaced page" of the clock policy: when the frame
`foundPage` has an owner, `SaveToSwap` runs on the address space of the owner
for the page recorded for the frame. -/
def evictOwner (c : Config) (k : SystemState) (foundPage : Int) : Except Fault SystemState :=
  let owner := getAt k.memoryUsedBy foundPage
  if owner ≠ -1 then
    if owner < 0 then .error .nullPointer
    else
      match k.threadSpace.getD owner.toNat none with
      | none => .error .nullPointer
      | some victim => SaveToSwap c k victim (getAt k.virtualPageNo foundPage)
  else .ok k

/-- `ProcessAddrSpace::GetNextPageToWrite(int vpn, int notToReplace)` on the
object `self`. -/
def GetNextPageToWrite (c : Config) (k : SystemState) (self : Nat)
    (vpn notToReplace : Int) (nd : Indet) : Except Fault (SystemState × Int) :=
  if c.replacementAlgo = .NO_REPL ∧ ¬ (k.numPagesAllocated < c.NumPhysPages) then
    .error .assertion
  else if k.usedPages = (c.NumPhysPages : Int) then
    match c.replacementAlgo with
    | .RANDOM_REPL =>
      if c.NumPhysPages = 0 then .error .divByZero
      else
        let foundPage : Int := ((nd.r1 % c.NumPhysPages : Nat) : Int)
        if foundPage = notToReplace then
          if c.NumPhysPages - 1 = 0 then .error .divByZero
          else
            recordFrame k self vpn nd.i0
              (((nd.r1 % c.NumPhysPages + nd.r2 % (c.NumPhysPages - 1) + 1)
                  % c.NumPhysPages : Nat) : Int)
        else recordFrame k self vpn nd.i0 foundPage
    | .LRU_CLOCK_REPL =>
      match clockScan c.NumPhysPages notToReplace (k.referenceBit.length + 1)
              k.referenceBit k.LRU_Clock_ptr with
      | .error f => .error f
      | .ok (rb, ptr) =>
        match evictOwner c { k with referenceBit := rb.set ptr true, LRU_Clock_ptr := ptr }
                (ptr : Int) with
        | .error f => .error f
        | .ok k2 =>
          if c.NumPhysPages = 0 then .error .divByZero
          else
            recordFrame { k2 with LRU_Clock_ptr := (ptr + 1) % c.NumPhysPages }
              self vpn nd.i0 (ptr : Int)
    | .NO_REPL => recordFrame k self vpn nd.i0 (-1)
  else
    match c.replacementAlgo with
    | .NO_REPL =>
      recordFrame
        { k with numPagesAllocated := k.numPagesAllocated + 1, usedPages := k.usedPages + 1 }
        self vpn nd.i0 (k.numPagesAllocated : Int)
    | _ =>
      let r := findFree k.memoryUsedBy c.NumPhysPages
      recordFrame { k with usedPages := k.usedPages + 1 } self vpn r.1 r.2

/-- Replace entry `vpn` of a page table by its image under `f`. -/
def setEntry (sp : ProcessAddrSpace) (vpn : Nat) (f : TranslationEntry → TranslationEntry) :
    ProcessAddrSpace :=
  { sp with NachOSpageTable :=
              sp.NachOSpageTable.set vpn (f (sp.NachOSpageTable.getD vpn default)) }

/-- Replace entry `vpn` of the page table of the object `self`. -/
def updateEntry (k : SystemState) (self vpn : Nat)
    (f : TranslationEntry → TranslationEntry) : SystemState :=
  match k.spaces[self]? with
  | none => k
  | some sp => { k with spaces := k.spaces.set self (setEntry sp vpn f) }

/-- One of the two blocks of `PageFaultHandler` that read a segment: the
overlap of page `vpn` with the segment `seg` is read from the executable into
the frame `newPhysPage`.  The executable is dereferenced only when the overlap
is not empty. -/
def readSegment (c : Config) (seg : Segment) (executable : Option (List Nat))
    (mem : List Nat) (vpn : Nat) (newPhysPage : Int) : Except Fault (List Nat) :=
  let startVirtAddr := u32 (c.PageSize * vpn)
  let endVirtAddr := u32 (startVirtAddr + c.PageSize)
  let start := max startVirtAddr seg.virtualAddr
  let end1 := min endVirtAddr (u32 (seg.virtualAddr + seg.size))
  if start < end1 then
    match executable with
    | none => .error .nullPointer
    | some file =>
      .ok (ReadAt file mem (u32 (frameAddr c newPhysPage + u32 (start - startVirtAddr)))
            (end1 - start) (u32 (seg.inFileAddr + u32 (start - seg.virtualAddr))))
  else .ok mem

/-- `ProcessAddrSpace::PageFaultHandler(unsigned virtAddr)` on the object
`self`. -/
def PageFaultHandler (c : Config) (k : SystemState) (self : Nat) (virtAddr : Nat)
    (nd : Indet) : Except Fault SystemState :=
  match k.spaces[self]? with
  | none => .error .nullPointer
  | some sp0 =>
    let k0 : SystemState := { k with numPageFaults := k.numPageFaults + 1 }
    if c.PageSize = 0 then .error .divByZero
    else
      let vpn := virtAddr / c.PageSize
      if ¬ (vpn ≤ sp0.numPagesInVM) then .error .assertion
      else
        match GetNextPageToWrite c k0 self (vpn : Int) (-1) nd with
        | .error f => .error f
        | .ok (k1, newPhysPage) =>
          let k2 := updateEntry k1 self vpn
            (fun e => { e with physicalPage := newPhysPage, valid := true })
          let mem0 := bzero k2.mainMemory (frameAddr c newPhysPage) c.PageSize
          match k2.spaces[self]? with
          | none => .error .nullPointer
          | some sp =>
            let executable := k2.fileSystem.lookup sp.fileName
            if (sp.NachOSpageTable.getD vpn default).ifUsed = false then
              match readSegment c sp.noffH.code executable mem0 vpn newPhysPage with
              | .error f => .error f
              | .ok mem1 =>
                match readSegment c sp.noffH.initData executable mem1 vpn newPhysPage with
                | .error f => .error f
                | .ok mem2 =>
                  .ok (updateEntry { k2 with mainMemory := mem2 } self vpn
                        (fun e => { e with ifUsed := true }))
            else
              let mem3 := memcpy mem0 (frameAddr c newPhysPage) sp.swapMemory
                (u32 (vpn * c.PageSize)) c.PageSize
              .ok { k2 with mainMemory := mem3 }

/-- Copy constructor, page `i`, lines 138-140: the parent takes a page fault
when its entry is used before and not resident.  The page number `i` is what
the source passes as the virtual address. -/
def forkFault (c : Config) (parent : Nat) (ndFault : Indet) (i : Nat) (k : SystemState) :
    Except Fault SystemState :=
  let p := (pageTableOf k parent).getD i default
  if p.ifUsed ∧ p.valid = false then PageFaultHandler c k parent i ndFault
  else .ok k

/-- Copy constructor, page `i`, lines 142-160: when the entry of the parent is
resident the child obtains a frame, the parent's frame being excluded, and the
bytes of the parent's frame are copied into it. -/
def forkCopy (c : Config) (parent child : Nat) (ndAlloc : Indet) (i : Nat) (k : SystemState) :
    Except Fault SystemState :=
  if ((pageTableOf k parent).getD i default).valid then
    match GetNextPageToWrite c k child (i : Int)
            ((pageTableOf k parent).getD i default).physicalPage ndAlloc with
    | .error f => .error f
    | .ok (kc, newPhysPage) =>
      let kd := updateEntry kc child i (fun e => { e with physicalPage := newPhysPage })
      let startAddrParent := frameAddr c ((pageTableOf kd parent).getD i default).physicalPage
      let startAddrChild := frameAddr c newPhysPage
      let mem := memcpy kd.mainMemory startAddrChild kd.mainMemory startAddrParent c.PageSize
      .ok { kd with mainMemory := mem, numPageFaults := kd.numPageFaults + 1 }
  else .ok k

/-- Copy constructor, page `i`, lines 162-163: the child takes over the frame
of a shared page. -/
def forkShare (parent child : Nat) (i : Nat) (k : SystemState) : SystemState :=
  let p := (pageTableOf k parent).getD i default
  let kf := updateEntry k child i (fun e => { e with physicalPage := p.physicalPage })
  { kf with numPageFaults := kf.numPageFaults + 1 }

/-- Copy constructor, page `i`, lines 166-171: the flags of the parent's entry
are copied into the child's entry. -/
def forkFlags (parent child : Nat) (i : Nat) (k : SystemState) : SystemState :=
  let p := (pageTableOf k parent).getD i default
  updateEntry k child i
    (fun e => { e with shared := p.shared, ifUsed := p.ifUsed, valid := p.valid,
                       use := p.use, dirty := p.dirty, readOnly := p.readOnly })

/-- One iteration of the second loop of the copy constructor, for page `i`:
`parent` is `parentSpace`, `child` is `this`; `ndFault` feeds the page fault
taken in the parent, `ndAlloc` the allocation for the child. -/
def forkPage (c : Config) (parent child : Nat) (ndFault ndAlloc : Indet) (i : Nat)
    (k : SystemState) : Except Fault SystemState :=
  let ka := updateEntry k child i (fun e => { e with virtualPage := (i : Int) })
  if ((pageTableOf ka parent).getD i default).shared = false then
    match forkFault c parent ndFault i ka with
    | .error f => .error f
    | .ok kb =>
      match forkCopy c parent child ndAlloc i kb with
      | .error f => .error f
      | .ok ke => .ok (forkFlags parent child i ke)
  else .ok (forkFlags parent child i (forkShare parent child i ka))

/-- The second loop of the copy constructor over the page numbers `pages`. -/
def forkPages (c : Config) (parent child : Nat) (nd : Nat → Indet × Indet) :
    List Nat → SystemState → Except Fault SystemState
  | [], k => .ok k
  | i :: rest, k =>
    match forkPage c parent child (nd i).1 (nd i).2 i k with
    | .error f => .error f
    | .ok k1 => forkPages c parent child nd rest k1

/-- `ProcessAddrSpace::ProcessAddrSpace(ProcessAddrSpace*)`.  `fresh` is the
indeterminate content of the new page table array, `nd` the indeterminate
values read while page `i` is handled.  Returns the new state and the position
of the child. -/
def ProcessAddrSpace_fork (c : Config) (k : SystemState) (parentSpace : Nat)
    (fresh : Nat → TranslationEntry) (nd : Nat → Indet × Indet) :
    Except Fault (SystemState × Nat) :=
  match k.spaces[parentSpace]? with
  | none => .error .nullPointer
  | some ps =>
    let numPagesInVM := ps.numPagesInVM
    let numSharedPages := (ps.NachOSpageTable.take numPagesInVM).countP (fun e => e.shared)
    let size := u32 ((numPagesInVM - numSharedPages) * c.PageSize)
    let child : ProcessAddrSpace :=
      { NachOSpageTable := (List.range numPagesInVM).map fresh,
        numPagesInVM := numPagesInVM,
        noffH := ps.noffH,
        swapMemory := List.replicate size 0,
        fileName := ps.fileName }
    let me := k.spaces.length
    match forkPages c parentSpace me nd (List.range numPagesInVM)
            { k with spaces := k.spaces ++ [child] } with
    | .error f => .error f
    | .ok k1 => .ok (k1, me)

/-- The entry `AddSharedSpace` writes for the new page `i` once it has the
frame `f`. -/
def sharedEntry (i : Nat) (f : Int) : TranslationEntry :=
  { virtualPage := (i : Int), physicalPage := f, valid := true, use := false, dirty := false,
    shared := true, ifUsed := true, readOnly := false }

/-- The second loop of `AddSharedSpace` over the new page numbers: each new
page obtains a frame, the frame is zeroed and the entry of the new table is
written.  The state is paired with the array `NewTranslation`; the object
`self` still holds the old page table while the loop runs. -/
def addSharedPages (c : Config) (self : Nat) (nd : Nat → Indet) :
    List Nat → SystemState × List TranslationEntry →
      Except Fault (SystemState × List TranslationEntry)
  | [], st => .ok st
  | i :: rest, st =>
    match GetNextPageToWrite c st.1 self (i : Int) (-1) (nd i) with
    | .error f => .error f
    | .ok (k1, f) =>
      let k2 : SystemState :=
        { k1 with mainMemory := bzero k1.mainMemory (frameAddr c f) c.PageSize }
      addSharedPages c self nd rest (k2, st.2.set i (sharedEntry i f))

/-- `ProcessAddrSpace::AddSharedSpace(int SharedSpaceSize)` on the object `self`.
`fresh` is the indeterminate content of the new array, `nd` the indeterminate
values read by the allocation for page `i`.  Returns the new state and the
value returned by the routine.  The pointer that `RestoreStateOnSwitch`
publishes to the machine is not part of the state. -/
def AddSharedSpace (c : Config) (k : SystemState) (self : Nat) (SharedSpaceSize : Nat)
    (fresh : Nat → TranslationEntry) (nd : Nat → Indet) : Except Fault (SystemState × Nat) :=
  match k.spaces[self]? with
  | none => .error .nullPointer
  | some sp =>
    if c.PageSize = 0 then .error .divByZero
    else
      let numSharedPages := divRoundUp SharedSpaceSize c.PageSize
      let NewTranslation : List TranslationEntry :=
        (List.range (sp.numPagesInVM + numSharedPages)).map
          (fun i => if i < sp.numPagesInVM then sp.NachOSpageTable.getD i default else fresh i)
      match addSharedPages c self nd (List.range' sp.numPagesInVM numSharedPages)
              (k, NewTranslation) with
      | .error f => .error f
      | .ok (k1, table) =>
        match k1.spaces[self]? with
        | none => .error .nullPointer
        | some sp1 =>
          let sp2 : ProcessAddrSpace :=
            { sp1 with NachOSpageTable := table,
                       numPagesInVM := sp1.numPagesInVM + numSharedPages }
          .ok ({ k1 with spaces := k1.spaces.set self sp2 },
               u32 ((sp2.numPagesInVM - numSharedPages) * c.PageSize))

/-- The loop of the destructor over the entries of the page table: for every
entry that is not shared the frame pool entry `physicalPage` is cleared and
`usedPages` is decremented. -/
def releaseFrames : List TranslationEntry → SystemState → SystemState
  | [], k => k
  | e :: rest, k =>
    if e.shared = false then
      releaseFrames rest
        { k with memoryUsedBy := setAt k.memoryUsedBy e.physicalPage (-1),
                 virtualPageNo := setAt k.virtualPageNo e.physicalPage (-1),
                 usedPages := k.usedPages - 1 }
    else releaseFrames rest k

/-- `ProcessAddrSpace::~ProcessAddrSpace()` on the object `self`: the effect on
the process-wide variables.  The object itself is freed by the source; its
entry in `spaces` is left as it was. -/
def ProcessAddrSpace_destroy (k : SystemState) (self : Nat) : Except Fault SystemState :=
  match k.spaces[self]? with
  | none => .error .nullPointer
  | some sp => .ok (releaseFrames (sp.NachOSpageTable.take sp.numPagesInVM) k)

/-- Every process-wide variable other than the address-space objects has the
same value in `k2` as in `k`. -/
def sameGlobals (k k2 : SystemState) : Prop :=
  k2.mainMemory = k.mainMemory ∧ k2.memoryUsedBy = k.memoryUsedBy
    ∧ k2.virtualPageNo = k.virtualPageNo ∧ k2.referenceBit = k.referenceBit
    ∧ k2.LRU_Clock_ptr = k.LRU_Clock_ptr ∧ k2.usedPages = k.usedPages
    ∧ k2.numPagesAllocated = k.numPagesAllocated ∧ k2.numPageFaults = k.numPageFaults
    ∧ k2.currentPID = k.currentPID ∧ k2.threadSpace = k.threadSpace
    ∧ k2.fileSystem = k.fileSystem

/-- What an allocation leaves alone in an address-space object: its size, its
header, its file name, the lengths of its arrays, every field of every entry
other than `valid`, `physicalPage` and `dirty`, and the swap slot of every
page that was not resident. -/
def spaceStable (c : Config) (sp sp1 : ProcessAddrSpace) : Prop :=
  sp1.numPagesInVM = sp.numPagesInVM ∧ sp1.noffH = sp.noffH ∧ sp1.fileName = sp.fileName
    ∧ sp1.NachOSpageTable.length = sp.NachOSpageTable.length
    ∧ sp1.swapMemory.length = sp.swapMemory.length
    ∧ (∀ j, (sp1.NachOSpageTable.getD j default).ifUsed
              = (sp.NachOSpageTable.getD j default).ifUsed
          ∧ (sp1.NachOSpageTable.getD j default).shared
              = (sp.NachOSpageTable.getD j default).shared
          ∧ (sp1.NachOSpageTable.getD j default).use
              = (sp.NachOSpageTable.getD j default).use
          ∧ (sp1.NachOSpageTable.getD j default).readOnly
              = (sp.NachOSpageTable.getD j default).readOnly
          ∧ (sp1.NachOSpageTable.getD j default).virtualPage
              = (sp.NachOSpageTable.getD j default).virtualPage)
    ∧ (∀ j, (sp.NachOSpageTable.getD j default).valid = false →
          ∀ b, b < c.PageSize →
            sp1.swapMemory.getD (j * c.PageSize + b) 0
              = sp.swapMemory.getD (j * c.PageSize + b) 0)

/-- The pages that the copy constructor gives a frame of their own: not shared
and resident. -/
def privateResident (e : TranslationEntry) : Bool := !e.shared && e.valid

/-- The states in which a call `GetNextPageToWrite(vpn, -1)` obtains a frame
without the clock scan: under `NO_REPL` the pool is not used up; under
`RANDOM_REPL` the pool is full, or the search for a free frame finds one; under
`LRU_CLOCK_REPL` the pool is not full and the search finds a free frame. -/
def canAllocate (c : Config) (k : SystemState) : Prop :=
  match c.replacementAlgo with
  | .NO_REPL => k.numPagesAllocated < c.NumPhysPages ∧ k.usedPages ≠ (c.NumPhysPages : Int)
  | .RANDOM_REPL =>
    if k.usedPages = (c.NumPhysPages : Int) then 0 < c.NumPhysPages
    else (findFree k.memoryUsedBy c.NumPhysPages).2 ≠ -1
  | .LRU_CLOCK_REPL =>
    k.usedPages ≠ (c.NumPhysPages : Int) ∧ (findFree k.memoryUsedBy c.NumPhysPages).2 ≠ -1

/-- A sequence of calls of `GetNextPageToWrite`, each given by the object it is
called on, its two arguments and the indeterminate values it reads.  Returns
the final state and the frames returned, in the order of the calls. -/
def allocMany (c : Config) :
    List (Nat × Int × Int × Indet) → SystemState → Except Fault (SystemState × List Int)
  | [], k => .ok (k, [])
  | call :: rest, k =>
    match GetNextPageToWrite c k call.1 call.2.1 call.2.2.1 call.2.2.2 with
    | .error f => .error f
    | .ok (k1, frame) =>
      match allocMany c rest k1 with
      | .error f => .error f
      | .ok (k2, frames) => .ok (k2, frame :: frames)

/-- The frames on which the body of the `while` loop of the clock policy runs,
in the order in which the hand passes over them; the arguments are those of
`clockScan`. -/
def clockPassed (N : Nat) (notToReplace : Int) : Nat → List Bool → Nat → List Nat
  | 0, _, _ => []
  | fuel + 1, rb, ptr =>
    if rb.getD ptr false then
      if N = 0 then []
      else
        let p1 := (ptr + 1) % N
        let p2 := if (p1 : Int) = notToReplace then (p1 + 1) % N else p1
        ptr :: clockPassed N notToReplace fuel (rb.set ptr false) p2
    else []

/-- The number of pages of an address space that are marked shared, counted as
the first loop of the copy constructor counts them. -/
def sharedPages (sp : ProcessAddrSpace) : Nat :=
  (sp.NachOSpageTable.take sp.numPagesInVM).countP (fun e => e.shared)

/-- What no routine other than `AddSharedSpace` changes in an address-space
object: the number of pages, the lengths of the page table and of the swap
array, and the `shared` flag of every entry. -/
def shapeStable (sp sp1 : ProcessAddrSpace) : Prop :=
  sp1.numPagesInVM = sp.numPagesInVM
    ∧ sp1.NachOSpageTable.length = sp.NachOSpageTable.length
    ∧ sp1.swapMemory.length = sp.swapMemory.length
    ∧ ∀ j, (sp1.NachOSpageTable.getD j default).shared
            = (sp.NachOSpageTable.getD j default).shared

/-- Every address-space object of `k` is an object of `k1` with the same
shape. -/
@[reducible] def shapeKept (k k1 : SystemState) : Prop :=
  ∀ (s : Nat) (sp : ProcessAddrSpace),
    k.spaces[s]? = some sp → ∃ sp1, k1.spaces[s]? = some sp1 ∧ shapeStable sp sp1

/-- The swap array of an address space has one slot of `PageSize` bytes for
each page that is not marked shared. -/
def swapSized (c : Config) (sp : ProcessAddrSpace) : Prop :=
  sp.swapMemory.length = (sp.numPagesInVM - sharedPages sp) * c.PageSize

/-- The number of frames that have an owner: the frames `f` with
`memoryUsedBy[f] != -1`. -/
def framesInUse (k : SystemState) : Nat :=
  k.memoryUsedBy.countP (fun owner => owner != -1)

/-! ## Concrete systems used in the examples -/

/-- A machine of four frames of four bytes under the given policy. -/
def cfgSmall (a : ReplacementAlgo) : Config :=
  { PageSize := 4, NumPhysPages := 4, UserStackSize := 4, NOFFMAGIC := 12246957,
    replacementAlgo := a }

/-- Header of a program with six bytes of code and two bytes of initialised
data, stored from offset 40 of its file. -/
def hdrSmall : NoffHeader :=
  { noffMagic := 12246957,
    code := { virtualAddr := 0, inFileAddr := 40, size := 6 },
    initData := { virtualAddr := 6, inFileAddr := 46, size := 2 },
    uninitData := { virtualAddr := 8, inFileAddr := 0, size := 0 } }

/-- The state at start-up: every frame free, no address space, one file
`prog` whose byte at offset `p` is `100 + p`. -/
def bootState : SystemState :=
  { mainMemory := List.replicate 16 7,
    memoryUsedBy := [-1, -1, -1, -1],
    virtualPageNo := [-1, -1, -1, -1],
    referenceBit := [false, false, false, false],
    LRU_Clock_ptr := 0,
    usedPages := 0,
    numPagesAllocated := 0,
    numPageFaults := 0,
    currentPID := 0,
    threadSpace := [some 0],
    spaces := [],
    fileSystem := [("prog", (List.range 60).map (fun p => 100 + p))] }

/-- The address space that creation from `prog` yields: three pages, none of
them resident. -/
def spaceSmall : ProcessAddrSpace :=
  { NachOSpageTable := [freshEntry 0, freshEntry 1, freshEntry 2],
    numPagesInVM := 3,
    noffH := hdrSmall,
    swapMemory := List.replicate 12 9,
    fileName := "prog" }

/-- The state after process 0 has been created from `prog`. -/
def loadedState : SystemState :=
  { bootState with spaces := [spaceSmall] }

/-- Four allocations on behalf of the address space 0, for the pages 0, 1, 2
and 2 again; the uninitialised local holds the number of the page each time. -/
def fourCalls : List (Nat × Int × Int × Indet) :=
  [(0, 0, -1, ⟨0, 0, 0⟩), (0, 1, -1, ⟨1, 0, 0⟩), (0, 2, -1, ⟨2, 0, 0⟩), (0, 2, -1, ⟨2, 0, 0⟩)]

/-- An address space of three pages whose page 1 is resident in frame 2, used
before and dirty. -/
def spaceResident : ProcessAddrSpace :=
  { NachOSpageTable :=
      [freshEntry 0,
       { virtualPage := 1, physicalPage := 2, valid := true, use := true, dirty := true,
         shared := false, ifUsed := true, readOnly := false },
       freshEntry 2],
    numPagesInVM := 3,
    noffH := hdrSmall,
    swapMemory := List.replicate 12 9,
    fileName := "prog" }

/-- A state in which process 0 owns frame 2, which holds the bytes 21, 22, 23,
24 of its page 1; the other frames are free. -/
def residentState : SystemState :=
  { bootState with
      mainMemory := [7, 7, 7, 7, 7, 7, 7, 7, 21, 22, 23, 24, 7, 7, 7, 7],
      memoryUsedBy := [-1, -1, 0, -1],
      virtualPageNo := [-1, -1, 1, -1],
      referenceBit := [false, false, true, false],
      usedPages := 1,
      spaces := [spaceResident] }

/-- A private entry with the given page, frame, residency, used-before and
dirty flags. -/
def mkEntry (vp pp : Int) (valid used dirty : Bool) : TranslationEntry :=
  { virtualPage := vp, physicalPage := pp, valid := valid, use := false, dirty := dirty,
    shared := false, ifUsed := used, readOnly := false }

/-- Six frames of four bytes. -/
def cfgSix (a : ReplacementAlgo) : Config :=
  { PageSize := 4, NumPhysPages := 6, UserStackSize := 4, NOFFMAGIC := 12246957,
    replacementAlgo := a }

/-- Three frames of four bytes. -/
def cfgThree (a : ReplacementAlgo) : Config :=
  { PageSize := 4, NumPhysPages := 3, UserStackSize := 4, NOFFMAGIC := 12246957,
    replacementAlgo := a }

/-- A parent of three pages: page 0 never used, page 1 resident in frame 2,
page 2 resident in frame 3. -/
def parentTwoResident : ProcessAddrSpace :=
  { NachOSpageTable := [freshEntry 0, mkEntry 1 2 true true false, mkEntry 2 3 true true false],
    numPagesInVM := 3,
    noffH := hdrSmall,
    swapMemory := List.replicate 12 0,
    fileName := "prog" }

/-- Four frames; frames 0 and 1 are free, frames 2 and 3 hold the pages 1 and 2
of process 0, with the bytes 21..24 and 31..34. -/
def stateTwoResident : SystemState :=
  { bootState with
      mainMemory := [7, 7, 7, 7, 7, 7, 7, 7, 21, 22, 23, 24, 31, 32, 33, 34],
      memoryUsedBy := [-1, -1, 0, 0],
      virtualPageNo := [-1, -1, 1, 2],
      usedPages := 2,
      spaces := [parentTwoResident] }

/-- A parent of five pages: page 0 resident in frame 0, page 1 used before and
evicted (its bytes 31..34 are in the swap array), pages 2, 3, 4 never used. -/
def parentEvicted : ProcessAddrSpace :=
  { NachOSpageTable :=
      [mkEntry 0 0 true true false, mkEntry 1 (-1) false true false,
       freshEntry 2, freshEntry 3, freshEntry 4],
    numPagesInVM := 5,
    noffH := hdrSmall,
    swapMemory := [1, 2, 3, 4, 31, 32, 33, 34, 0, 0, 0, 0, 0, 0, 0, 0, 0, 0, 0, 0],
    fileName := "prog" }

/-- The address space of a second process: one page, resident in frame 1. -/
def spaceOther : ProcessAddrSpace :=
  { NachOSpageTable := [mkEntry 0 1 true true false],
    numPagesInVM := 1,
    noffH := hdrSmall,
    swapMemory := List.replicate 4 0,
    fileName := "prog" }

/-- Six frames; frame 0 holds page 0 of process 0, frame 1 holds page 0 of
process 1, frames 2 to 5 are free. -/
def stateEvicted : SystemState :=
  { bootState with
      mainMemory := [11, 12, 13, 14, 7, 7, 7, 7, 7, 7, 7, 7, 7, 7, 7, 7, 7, 7, 7, 7, 7, 7, 7, 7],
      memoryUsedBy := [0, 1, -1, -1, -1, -1],
      virtualPageNo := [0, 0, -1, -1, -1, -1],
      referenceBit := [true, true, false, false, false, false],
      usedPages := 2,
      threadSpace := [some 0, some 1],
      spaces := [parentEvicted, spaceOther] }

/-- A parent of three pages: pages 0 and 1 resident in frames 0 and 1, page 2
never used. -/
def parentFull : ProcessAddrSpace :=
  { NachOSpageTable := [mkEntry 0 0 true true false, mkEntry 1 1 true true false, freshEntry 2],
    numPagesInVM := 3,
    noffH := hdrSmall,
    swapMemory := List.replicate 12 0,
    fileName := "prog" }

/-- Three frames; frames 0 and 1 hold the pages 0 and 1 of process 0, frame 2
is free. -/
def stateFull : SystemState :=
  { bootState with
      mainMemory := [11, 12, 13, 14, 21, 22, 23, 24, 7, 7, 7, 7],
      memoryUsedBy := [0, 0, -1],
      virtualPageNo := [0, 1, -1],
      referenceBit := [false, false, false],
      usedPages := 2,
      spaces := [parentFull] }

/-- Content of a new page table array in the examples. -/
def freshZero : Nat → TranslationEntry := fun _ => default

/-- Indeterminate values in the examples in which every allocation finds a
free frame, so that none of them is read. -/
def ndZero : Nat → Indet × Indet := fun _ => (⟨0, 0, 0⟩, ⟨0, 0, 0⟩)

/-- Indeterminate values under which the uninitialised local of the allocator
holds the number of the page the frame is requested for. -/
def ndPage : Nat → Indet × Indet := fun i => (⟨0, 0, 0⟩, ⟨(i : Int), 0, 0⟩)

/-- The `valid` flag and the frame of every entry of a page table. -/
def mapping (pt : List TranslationEntry) : List (Bool × Int) :=
  pt.map (fun e => (e.valid, e.physicalPage))

/-- A parent of three pages, resident in the frames 0, 1 and 2. -/
def parentThree : ProcessAddrSpace :=
  { NachOSpageTable :=
      [mkEntry 0 0 true true false, mkEntry 1 1 true true false, mkEntry 2 2 true true false],
    numPagesInVM := 3,
    noffH := hdrSmall,
    swapMemory := List.replicate 12 0,
    fileName := "prog" }

/-- The object of a child of `parentThree` when the second loop of the copy
constructor starts: no entry of its page table has been written. -/
def childBlank : ProcessAddrSpace :=
  { NachOSpageTable := [freshEntry 0, freshEntry 1, freshEntry 2],
    numPagesInVM := 3,
    noffH := hdrSmall,
    swapMemory := List.replicate 12 0,
    fileName := "prog" }

/-- Three frames, all of them in use by the pages of `parentThree`, with the
given reference bits and the given position of the clock hand; the second
object is the child that is being built. -/
def stateForking (rb : List Bool) (hand : Nat) : SystemState :=
  { bootState with
      mainMemory := [11, 12, 13, 14, 21, 22, 23, 24, 31, 32, 33, 34],
      memoryUsedBy := [0, 0, 0],
      virtualPageNo := [0, 1, 2],
      referenceBit := rb,
      LRU_Clock_ptr := hand,
      usedPages := 3,
      numPagesAllocated := 3,
      spaces := [parentThree, childBlank] }

/-- A parent of two pages: page 0 resident in frame 0, page 1 never used. -/
def parentOneResident : ProcessAddrSpace :=
  { NachOSpageTable := [mkEntry 0 0 true true false, freshEntry 1],
    numPagesInVM := 2,
    noffH := hdrSmall,
    swapMemory := List.replicate 8 0,
    fileName := "prog" }

/-- Four frames; frame 0 holds page 0 of process 0, handed out as the first
frame; the frames 1, 2 and 3 are free. -/
def stateOneResident : SystemState :=
  { bootState with
      mainMemory := [11, 12, 13, 14, 7, 7, 7, 7, 7, 7, 7, 7, 7, 7, 7, 7],
      memoryUsedBy := [0, -1, -1, -1],
      virtualPageNo := [0, -1, -1, -1],
      usedPages := 1,
      numPagesAllocated := 1,
      spaces := [parentOneResident] }

/-- The state `stateOneResident` after process 0 has forked under `NO_REPL`
and the new page table array was zero-filled memory: the child (object 1) has
obtained frame 1 for its page 0; its entry 1 is not resident and its
`physicalPage`, which the copy constructor never assigns, reads 0. -/
def stateForked : SystemState :=
  { stateOneResident with
      mainMemory := [11, 12, 13, 14, 11, 12, 13, 14, 7, 7, 7, 7, 7, 7, 7, 7],
      memoryUsedBy := [0, 0, -1, -1],
      virtualPageNo := [0, 0, -1, -1],
      usedPages := 2,
      numPagesAllocated := 2,
      numPageFaults := 1,
      spaces := [parentOneResident,
                 { NachOSpageTable := [mkEntry 0 1 true true false, mkEntry 1 0 false false false],
                   numPagesInVM := 2,
                   noffH := hdrSmall,
                   swapMemory := List.replicate 8 0,
                   fileName := "prog" }] }

/-- The `valid` flag, the frame and the `shared` flag of every entry of a page
table. -/
def residency (pt : List TranslationEntry) : List (Bool × Int × Bool) :=
  pt.map (fun e => (e.valid, e.physicalPage, e.shared))

/-- Header of a program of four bytes of code and no data, stored from offset
40 of its file; with the stack it has two pages of four bytes. -/
def hdrTwo : NoffHeader :=
  { noffMagic := 12246957,
    code := { virtualAddr := 0, inFileAddr := 40, size := 4 },
    initData := { virtualAddr := 4, inFileAddr := 44, size := 0 },
    uninitData := { virtualAddr := 4, inFileAddr := 0, size := 0 } }

/-- An address space of three pages whose page 1 is resident in frame 2, used
before and not dirty; its swap array holds 9 in every byte. -/
def spaceClean : ProcessAddrSpace :=
  { NachOSpageTable := [freshEntry 0, mkEntry 1 2 true true false, freshEntry 2],
    numPagesInVM := 3,
    noffH := hdrSmall,
    swapMemory := List.replicate 12 9,
    fileName := "prog" }

/-- The state `residentState` with page 1 of process 0 clean. -/
def cleanState : SystemState :=
  { residentState with spaces := [spaceClean] }

/-! ## Creation from an executable -/

theorem divRoundUp_eq (n s : Nat) (hs : 0 < s) : divRoundUp n s = (n + s - 1) / s := by
  unfold divRoundUp
  have h1 := Nat.div_add_mod n s
  have h2 := Nat.mod_lt n hs
  have e1 : (n / s + 1) * s = s * (n / s) + s := by ring
  have e2 : (n / s + 1 + 1) * s = s * (n / s) + s + s := by ring
  have e3 : (n / s) * s = s * (n / s) := by ring
  symm
  by_cases h : n % s > 0
  · simp only [h, if_true]
    apply Nat.div_eq_of_lt_le
    · rw [e1]; omega
    · rw [e2]; omega
  · simp only [h, if_false]
    apply Nat.div_eq_of_lt_le
    · rw [Nat.add_zero, e3]; omega
    · rw [Nat.add_zero, e1]; omega

/-- C1.  Creation from an executable whose magic number is valid (as read, or
after byte order conversion) and whose size fits a machine word returns an
address space whose page table has exactly
`ceil((code + initData + uninitData + UserStackSize) / PageSize)` entries;
entry `i` has `virtualPage = i`, `physicalPage = -1` and every flag clear; the
frame pool, main memory, the reference bits, the clock hand, all counters and
the existing address spaces are as before. -/
theorem exec_builds_invalid_page_table (c : Config) (WordToHost : Nat → Nat)
    (k : SystemState) (raw : NoffHeader) (programname : String) (swapInit : Nat → Nat)
    (hmagic : (readHeader c WordToHost raw).noffMagic = c.NOFFMAGIC)
    (hps : 0 < c.PageSize)
    (hfit : (readHeader c WordToHost raw).code.size
              + (readHeader c WordToHost raw).initData.size
              + (readHeader c WordToHost raw).uninitData.size
              + c.UserStackSize < 4294967296) :
    ∃ k1 me, ProcessAddrSpace_exec c WordToHost k raw programname swapInit = .ok (k1, me)
      ∧ (pageTableOf k1 me).length
          = ((readHeader c WordToHost raw).code.size
              + (readHeader c WordToHost raw).initData.size
              + (readHeader c WordToHost raw).uninitData.size
              + c.UserStackSize + c.PageSize - 1) / c.PageSize
      ∧ (∀ i, i < (pageTableOf k1 me).length →
          (pageTableOf k1 me)[i]? = some
            { virtualPage := (i : Int), physicalPage := -1, valid := false, use := false,
              dirty := false, shared := false, ifUsed := false, readOnly := false })
      ∧ k1.memoryUsedBy = k.memoryUsedBy ∧ k1.virtualPageNo = k.virtualPageNo
      ∧ k1.usedPages = k.usedPages ∧ k1.numPagesAllocated = k.numPagesAllocated
      ∧ k1.mainMemory = k.mainMemory ∧ k1.referenceBit = k.referenceBit
      ∧ k1.LRU_Clock_ptr = k.LRU_Clock_ptr ∧ k1.numPageFaults = k.numPageFaults
      ∧ (∀ j, j < k.spaces.length → k1.spaces[j]? = k.spaces[j]?) := by
  have hps0 : c.PageSize ≠ 0 := by omega
  have hrun : ProcessAddrSpace_exec c WordToHost k raw programname swapInit
      = .ok ({ k with spaces := k.spaces ++ [
                { NachOSpageTable := (List.range (divRoundUp (u32
                    ((readHeader c WordToHost raw).code.size
                      + (readHeader c WordToHost raw).initData.size
                      + (readHeader c WordToHost raw).uninitData.size
                      + c.UserStackSize)) c.PageSize)).map freshEntry,
                  numPagesInVM := divRoundUp (u32
                    ((readHeader c WordToHost raw).code.size
                      + (readHeader c WordToHost raw).initData.size
                      + (readHeader c WordToHost raw).uninitData.size
                      + c.UserStackSize)) c.PageSize,
                  noffH := readHeader c WordToHost raw,
                  swapMemory := (List.range (u32 (divRoundUp (u32
                    ((readHeader c WordToHost raw).code.size
                      + (readHeader c WordToHost raw).initData.size
                      + (readHeader c WordToHost raw).uninitData.size
                      + c.UserStackSize)) c.PageSize * c.PageSize))).map swapInit,
                  fileName := programname }] }, k.spaces.length) := by
    simp only [ProcessAddrSpace_exec, hmagic, hps0, ne_eq, not_true_eq_false, if_false]
  refine ⟨_, _, hrun, ?_, ?_, rfl, rfl, rfl, rfl, rfl, rfl, rfl, rfl, ?_⟩
  · simp [pageTableOf, u32, Nat.mod_eq_of_lt hfit, divRoundUp_eq _ _ hps]
  · intro i hi
    simp only [pageTableOf, List.getElem?_append_right (Nat.le_refl _), Nat.sub_self,
      List.length_map, List.length_range, List.getElem?_cons_zero] at hi ⊢
    simp [List.getElem?_map, List.getElem?_range, hi, freshEntry]
  · intro j hj
    simp [List.getElem?_append_left hj]

/-- An instance: creation from `prog` on the small machine yields three pages. -/
theorem exec_builds_invalid_page_table_witness :
    (readHeader (cfgSmall .NO_REPL) id hdrSmall).noffMagic = (cfgSmall .NO_REPL).NOFFMAGIC
    ∧ 0 < (cfgSmall .NO_REPL).PageSize
    ∧ (readHeader (cfgSmall .NO_REPL) id hdrSmall).code.size
        + (readHeader (cfgSmall .NO_REPL) id hdrSmall).initData.size
        + (readHeader (cfgSmall .NO_REPL) id hdrSmall).uninitData.size
        + (cfgSmall .NO_REPL).UserStackSize < 4294967296
    ∧ ∃ k1 me,
        ProcessAddrSpace_exec (cfgSmall .NO_REPL) id bootState hdrSmall "prog" (fun _ => 0)
          = .ok (k1, me)
        ∧ (pageTableOf k1 me).length = 3 :=
  ⟨by decide, by decide, by decide,
    match exec_builds_invalid_page_table (cfgSmall .NO_REPL) id bootState hdrSmall "prog"
        (fun _ => 0) (by decide) (by decide) (by decide) with
    | ⟨k1, me, h1, h2, _⟩ => ⟨k1, me, h1, h2⟩⟩

/-! ## The allocator -/

theorem getAt_setAt_self {α : Type} [Inhabited α] (l : List α) (i : Int) (v : α)
    (h0 : 0 ≤ i) (h1 : i.toNat < l.length) : getAt (setAt l i v) i = v := by
  simp [getAt, setAt, h0, List.getD_eq_getElem?_getD, List.getElem?_set, h1]

theorem length_setAt {α : Type} (l : List α) (i : Int) (v : α) :
    (setAt l i v).length = l.length := by
  unfold setAt
  split <;> simp

theorem recordFrame_ok {k : SystemState} {self : Nat} {vpn i foundPage : Int}
    {k1 : SystemState} {r : Int}
    (h : recordFrame k self vpn i foundPage = .ok (k1, r)) :
    r = foundPage ∧ foundPage ≠ -1 ∧ ∃ sp, k.spaces[self]? = some sp ∧
      k1 = { k with memoryUsedBy := setAt k.memoryUsedBy foundPage k.currentPID,
                    virtualPageNo := setAt k.virtualPageNo foundPage vpn,
                    spaces := k.spaces.set self (markValid sp i foundPage) } := by
  unfold recordFrame at h
  split at h
  · cases h
  · rename_i hne
    split at h
    · cases h
    · rename_i sp hsp
      simp only [Except.ok.injEq, Prod.mk.injEq] at h
      exact ⟨h.2.symm, hne, sp, hsp, h.1.symm⟩

theorem SaveToSwap_ok {c : Config} {k : SystemState} {self : Nat} {vpn : Int}
    {k1 : SystemState} (h : SaveToSwap c k self vpn = .ok k1) :
    ∃ sp, k.spaces[self]? = some sp ∧ (getAt sp.NachOSpageTable vpn).valid = true ∧
      k1 = { k with spaces := k.spaces.set self (swapOut c k.mainMemory sp vpn) } := by
  unfold SaveToSwap at h
  split at h
  · cases h
  · rename_i sp hsp
    split at h
    · cases h
    · rename_i hv
      simp only [Except.ok.injEq] at h
      exact ⟨sp, hsp, by simpa using hv, h.symm⟩

theorem clockScan_lt (N : Nat) (ntr : Int) :
    ∀ (fuel : Nat) (rb : List Bool) (ptr : Nat) (rb1 : List Bool) (ptr1 : Nat),
      clockScan N ntr fuel rb ptr = .ok (rb1, ptr1) → ptr < N → ptr1 < N := by
  intro fuel
  induction fuel with
  | zero => intro rb ptr rb1 ptr1 h; simp [clockScan] at h
  | succ n ih =>
    intro rb ptr rb1 ptr1 h hlt
    unfold clockScan at h
    split at h
    · split at h
      · cases h
      · rename_i hN
        have hpos : 0 < N := Nat.pos_of_ne_zero hN
        refine ih _ _ _ _ h ?_
        split
        · exact Nat.mod_lt _ hpos
        · exact Nat.mod_lt _ hpos
    · simp only [Except.ok.injEq, Prod.mk.injEq] at h
      omega

theorem count_clear (rb : List Bool) (ptr : Nat) (h : rb.getD ptr false = true) :
    (rb.set ptr false).count true + 1 = rb.count true := by
  have hlt : ptr < rb.length := by
    by_contra hcon
    rw [List.getD_eq_getElem?_getD, List.getElem?_eq_none (Nat.le_of_not_lt hcon)] at h
    exact absurd h (by decide)
  have hget : rb[ptr] = true := by
    rw [List.getD_eq_getElem?_getD, List.getElem?_eq_getElem hlt] at h
    exact h
  have hpos : 0 < rb.count true := by
    apply List.count_pos_iff.mpr
    rw [← hget]
    exact List.getElem_mem hlt
  rw [List.count_set _ _ _ _ hlt, hget]
  simp only [beq_self_eq_true, if_true]
  have : (false == true) = false := rfl
  rw [this]
  simp only [Bool.false_eq_true, if_false]
  omega

theorem clockScan_no_spin (N : Nat) (ntr : Int) :
    ∀ (fuel : Nat) (rb : List Bool) (ptr : Nat),
      rb.count true < fuel → clockScan N ntr fuel rb ptr ≠ .error .spin := by
  intro fuel
  induction fuel with
  | zero => intro rb ptr h; omega
  | succ n ih =>
    intro rb ptr h
    unfold clockScan
    split_ifs with hbit hN
    · intro hcon; cases hcon
    · apply ih
      have := count_clear rb ptr hbit
      omega
    · intro hcon; cases hcon

theorem findFree_spec (mu : List Int) (N : Nat) :
    ((findFree mu N).2 = -1 ∧ (findFree mu N).1 = (N : Int)) ∨
      (0 ≤ (findFree mu N).2 ∧ (findFree mu N).2 < (N : Int)
        ∧ (findFree mu N).1 = (findFree mu N).2
        ∧ mu.getD (findFree mu N).2.toNat 0 = -1) := by
  unfold findFree
  split
  · rename_i i hi
    right
    have hmem := List.mem_of_find?_eq_some hi
    have hp := List.find?_some hi
    simp only [List.mem_range] at hmem
    simp only [beq_iff_eq] at hp
    refine ⟨Int.ofNat_nonneg _, ?_, rfl, ?_⟩
    · show ((i : Nat) : Int) < (N : Int)
      exact_mod_cast hmem
    · simpa using hp
  · left
    exact ⟨rfl, rfl⟩

theorem recordFrame_contract {N : Nat} {k : SystemState} {self : Nat} {vpn i fp : Int}
    {k1 : SystemState} {r : Int}
    (h : recordFrame k self vpn i fp = .ok (k1, r))
    (h0 : 0 ≤ fp) (h1 : fp < (N : Int))
    (hmu : k.memoryUsedBy.length = N) (hvp : k.virtualPageNo.length = N) :
    0 ≤ r ∧ r < (N : Int) ∧ getAt k1.memoryUsedBy r = k.currentPID
      ∧ getAt k1.virtualPageNo r = vpn ∧ k1.currentPID = k.currentPID := by
  obtain ⟨hr, _, sp, _, hk1⟩ := recordFrame_ok h
  subst hr
  subst hk1
  have hlt : r.toNat < N := by omega
  refine ⟨h0, h1, ?_, ?_, rfl⟩
  · exact getAt_setAt_self _ _ _ h0 (by rw [hmu]; exact hlt)
  · exact getAt_setAt_self _ _ _ h0 (by rw [hvp]; exact hlt)

theorem GetNextPageToWrite_NO_REPL {c : Config} (h : c.replacementAlgo = .NO_REPL)
    (k : SystemState) (self : Nat) (vpn ntr : Int) (nd : Indet) :
    GetNextPageToWrite c k self vpn ntr nd =
      if ¬ (k.numPagesAllocated < c.NumPhysPages) then .error .assertion
      else if k.usedPages = (c.NumPhysPages : Int) then recordFrame k self vpn nd.i0 (-1)
      else recordFrame
        { k with numPagesAllocated := k.numPagesAllocated + 1, usedPages := k.usedPages + 1 }
        self vpn nd.i0 (k.numPagesAllocated : Int) := by
  unfold GetNextPageToWrite
  simp only [h, true_and]

theorem GetNextPageToWrite_RANDOM_REPL {c : Config} (h : c.replacementAlgo = .RANDOM_REPL)
    (k : SystemState) (self : Nat) (vpn ntr : Int) (nd : Indet) :
    GetNextPageToWrite c k self vpn ntr nd =
      if k.usedPages = (c.NumPhysPages : Int) then
        if c.NumPhysPages = 0 then .error .divByZero
        else if ((nd.r1 % c.NumPhysPages : Nat) : Int) = ntr then
          if c.NumPhysPages - 1 = 0 then .error .divByZero
          else recordFrame k self vpn nd.i0
            (((nd.r1 % c.NumPhysPages + nd.r2 % (c.NumPhysPages - 1) + 1)
                % c.NumPhysPages : Nat) : Int)
        else recordFrame k self vpn nd.i0 ((nd.r1 % c.NumPhysPages : Nat) : Int)
      else recordFrame { k with usedPages := k.usedPages + 1 } self vpn
        (findFree k.memoryUsedBy c.NumPhysPages).1 (findFree k.memoryUsedBy c.NumPhysPages).2 := by
  unfold GetNextPageToWrite
  simp only [h, false_and, if_false, reduceCtorEq]

theorem GetNextPageToWrite_LRU_free {c : Config} (h : c.replacementAlgo = .LRU_CLOCK_REPL)
    (k : SystemState) (self : Nat) (vpn ntr : Int) (nd : Indet)
    (hfree : k.usedPages ≠ (c.NumPhysPages : Int)) :
    GetNextPageToWrite c k self vpn ntr nd =
      recordFrame { k with usedPages := k.usedPages + 1 } self vpn
        (findFree k.memoryUsedBy c.NumPhysPages).1 (findFree k.memoryUsedBy c.NumPhysPages).2 := by
  unfold GetNextPageToWrite
  simp only [h, false_and, if_false, reduceCtorEq, hfree]

theorem GetNextPageToWrite_LRU_full {c : Config} (h : c.replacementAlgo = .LRU_CLOCK_REPL)
    (k : SystemState) (self : Nat) (vpn ntr : Int) (nd : Indet)
    (hfull : k.usedPages = (c.NumPhysPages : Int)) :
    GetNextPageToWrite c k self vpn ntr nd =
      match clockScan c.NumPhysPages ntr (k.referenceBit.length + 1)
              k.referenceBit k.LRU_Clock_ptr with
      | .error f => .error f
      | .ok (rb, ptr) =>
        match evictOwner c { k with referenceBit := rb.set ptr true, LRU_Clock_ptr := ptr }
                (ptr : Int) with
        | .error f => .error f
        | .ok k2 =>
          if c.NumPhysPages = 0 then .error .divByZero
          else
            recordFrame { k2 with LRU_Clock_ptr := (ptr + 1) % c.NumPhysPages }
              self vpn nd.i0 (ptr : Int) := by
  unfold GetNextPageToWrite
  simp only [h, false_and, if_false, reduceCtorEq, hfull, if_true]

theorem evictOwner_ok {c : Config} {k : SystemState} {fp : Int} {k2 : SystemState}
    (h : evictOwner c k fp = .ok k2) :
    sameGlobals k k2 ∧ k2.spaces.length = k.spaces.length := by
  unfold evictOwner at h
  simp only at h
  split_ifs at h with h1 h2
  · split at h
    · cases h
    · obtain ⟨sp, _, _, hk2⟩ := SaveToSwap_ok h
      subst hk2
      exact ⟨⟨rfl, rfl, rfl, rfl, rfl, rfl, rfl, rfl, rfl, rfl, rfl⟩, by simp⟩
  · simp only [Except.ok.injEq] at h
    subst h
    exact ⟨⟨rfl, rfl, rfl, rfl, rfl, rfl, rfl, rfl, rfl, rfl, rfl⟩, rfl⟩

theorem GetNextPageToWrite_frame (c : Config) (k : SystemState) (self : Nat)
    (vpn notToReplace : Int) (nd : Indet) (k1 : SystemState) (f : Int)
    (hmu : k.memoryUsedBy.length = c.NumPhysPages)
    (hvp : k.virtualPageNo.length = c.NumPhysPages)
    (hptr : k.LRU_Clock_ptr < c.NumPhysPages)
    (hrun : GetNextPageToWrite c k self vpn notToReplace nd = .ok (k1, f)) :
    ∃ kin i, recordFrame kin self vpn i f = .ok (k1, f)
      ∧ 0 ≤ f ∧ f < (c.NumPhysPages : Int)
      ∧ kin.memoryUsedBy.length = c.NumPhysPages
      ∧ kin.virtualPageNo.length = c.NumPhysPages
      ∧ kin.currentPID = k.currentPID := by
  cases halgo : c.replacementAlgo with
  | NO_REPL =>
    rw [GetNextPageToWrite_NO_REPL halgo] at hrun
    split_ifs at hrun with h1 h2
    · obtain ⟨_, hne, _⟩ := recordFrame_ok hrun
      exact absurd rfl hne
    · have h3 : k.numPagesAllocated < c.NumPhysPages := by omega
      have hr := (recordFrame_ok hrun).1
      subst hr
      exact ⟨_, _, hrun, Int.ofNat_nonneg _, Int.ofNat_lt.mpr h3, hmu, hvp, rfl⟩
  | RANDOM_REPL =>
    rw [GetNextPageToWrite_RANDOM_REPL halgo] at hrun
    split_ifs at hrun with h1 h2 h3 h4
    · have hr := (recordFrame_ok hrun).1
      subst hr
      exact ⟨_, _, hrun, Int.ofNat_nonneg _,
        Int.ofNat_lt.mpr (Nat.mod_lt _ (Nat.pos_of_ne_zero h2)), hmu, hvp, rfl⟩
    · have hr := (recordFrame_ok hrun).1
      subst hr
      exact ⟨_, _, hrun, Int.ofNat_nonneg _,
        Int.ofNat_lt.mpr (Nat.mod_lt _ (Nat.pos_of_ne_zero h2)), hmu, hvp, rfl⟩
    · rcases findFree_spec k.memoryUsedBy c.NumPhysPages with hf | hf
      · obtain ⟨_, hne, _⟩ := recordFrame_ok hrun
        exact absurd hf.1 hne
      · have hr := (recordFrame_ok hrun).1
        rw [← hr] at hf
        rw [← hr] at hrun
        exact ⟨_, _, hrun, hf.1, hf.2.1, hmu, hvp, rfl⟩
  | LRU_CLOCK_REPL =>
    by_cases hfull : k.usedPages = (c.NumPhysPages : Int)
    · rw [GetNextPageToWrite_LRU_full halgo _ _ _ _ _ hfull] at hrun
      split at hrun
      · cases hrun
      · rename_i rb ptr hcs
        have hlt := clockScan_lt _ _ _ _ _ _ _ hcs hptr
        split at hrun
        · cases hrun
        · rename_i k2 hev
          obtain ⟨hk2, _⟩ := evictOwner_ok hev
          obtain ⟨_, hmu2, hvp2, _, _, _, _, _, hpid2, _, _⟩ := hk2
          simp only at hmu2 hvp2 hpid2
          split_ifs at hrun with hN
          have hr := (recordFrame_ok hrun).1
          subst hr
          exact ⟨_, _, hrun, Int.ofNat_nonneg _, Int.ofNat_lt.mpr hlt,
            by rw [hmu2]; exact hmu, by rw [hvp2]; exact hvp, hpid2⟩
    · rw [GetNextPageToWrite_LRU_free halgo _ _ _ _ _ hfull] at hrun
      rcases findFree_spec k.memoryUsedBy c.NumPhysPages with hf | hf
      · obtain ⟨_, hne, _⟩ := recordFrame_ok hrun
        exact absurd hf.1 hne
      · have hr := (recordFrame_ok hrun).1
        rw [← hr] at hf
        rw [← hr] at hrun
        exact ⟨_, _, hrun, hf.1, hf.2.1, hmu, hvp, rfl⟩

/-- C9.  Allocation contract: under each policy, for every requested page and
every excluded index, a call of `GetNextPageToWrite` that returns a frame `f`
returns one with `0 ≤ f < NumPhysPages`, and on return `memoryUsedBy[f]` is
the identifier of the current process and `virtualPageNo[f]` is the requested
page.  The frame pool arrays have `NumPhysPages` entries and the clock hand
points into the pool. -/
theorem GetNextPageToWrite_contract (c : Config) (k : SystemState) (self : Nat)
    (vpn notToReplace : Int) (nd : Indet) (k1 : SystemState) (f : Int)
    (hmu : k.memoryUsedBy.length = c.NumPhysPages)
    (hvp : k.virtualPageNo.length = c.NumPhysPages)
    (hptr : k.LRU_Clock_ptr < c.NumPhysPages)
    (hrun : GetNextPageToWrite c k self vpn notToReplace nd = .ok (k1, f)) :
    0 ≤ f ∧ f < (c.NumPhysPages : Int)
      ∧ getAt k1.memoryUsedBy f = k1.currentPID
      ∧ getAt k1.virtualPageNo f = vpn
      ∧ k1.currentPID = k.currentPID := by
  obtain ⟨kin, i, hrec, h0, h1, hmu1, hvp1, hpid⟩ :=
    GetNextPageToWrite_frame c k self vpn notToReplace nd k1 f hmu hvp hptr hrun
  obtain ⟨t1, t2, t3, t4, t5⟩ := recordFrame_contract hrec h0 h1 hmu1 hvp1
  exact ⟨t1, t2, t3.trans t5.symm, t4, t5.trans hpid⟩

theorem recordFrame_eq_ok (k : SystemState) (self : Nat) (vpn i fp : Int)
    (sp : ProcessAddrSpace) (hfp : fp ≠ -1) (hsp : k.spaces[self]? = some sp) :
    recordFrame k self vpn i fp =
      .ok ({ k with memoryUsedBy := setAt k.memoryUsedBy fp k.currentPID,
                    virtualPageNo := setAt k.virtualPageNo fp vpn,
                    spaces := k.spaces.set self (markValid sp i fp) }, fp) := by
  unfold recordFrame
  simp only [hfp, if_false, hsp]

theorem GetNextPageToWrite_NO_REPL_step (c : Config) (hc : c.replacementAlgo = .NO_REPL)
    (k : SystemState) (self : Nat) (vpn ntr : Int) (nd : Indet)
    (hself : self < k.spaces.length)
    (hlt : k.numPagesAllocated < c.NumPhysPages)
    (hu : k.usedPages = (k.numPagesAllocated : Int)) :
    ∃ k1, GetNextPageToWrite c k self vpn ntr nd = .ok (k1, (k.numPagesAllocated : Int))
      ∧ k1.numPagesAllocated = k.numPagesAllocated + 1
      ∧ k1.usedPages = k.usedPages + 1
      ∧ k1.spaces.length = k.spaces.length := by
  obtain ⟨sp, hspe⟩ : ∃ sp, k.spaces[self]? = some sp :=
    ⟨k.spaces[self], List.getElem?_eq_getElem hself⟩
  have hne : k.usedPages ≠ (c.NumPhysPages : Int) := by omega
  have hfp : ((k.numPagesAllocated : Nat) : Int) ≠ -1 := by omega
  have hstep := GetNextPageToWrite_NO_REPL hc k self vpn ntr nd
  simp only [hlt, not_true_eq_false, if_false, hne] at hstep
  rw [recordFrame_eq_ok _ _ _ _ _ sp hfp (by simpa using hspe)] at hstep
  exact ⟨_, hstep, rfl, rfl, by simp⟩

theorem allocMany_NO_REPL (c : Config) (hc : c.replacementAlgo = .NO_REPL) :
    ∀ (calls : List (Nat × Int × Int × Indet)) (k : SystemState) (a : Nat),
      k.numPagesAllocated = a → k.usedPages = (a : Int) →
      a + calls.length ≤ c.NumPhysPages →
      (∀ call ∈ calls, call.1 < k.spaces.length) →
      ∃ k1, allocMany c calls k
              = .ok (k1, (List.range' a calls.length).map Int.ofNat)
        ∧ k1.numPagesAllocated = a + calls.length
        ∧ k1.usedPages = ((a + calls.length : Nat) : Int)
        ∧ k1.spaces.length = k.spaces.length := by
  intro calls
  induction calls with
  | nil =>
    intro k a ha hu _ _
    exact ⟨k, by simp [allocMany], by simpa using ha, by simpa using hu, rfl⟩
  | cons call rest ih =>
    intro k a ha hu hlen hsp
    simp only [List.length_cons] at hlen
    obtain ⟨k0, hk0, hn0, hu0, hs0⟩ :=
      GetNextPageToWrite_NO_REPL_step c hc k call.1 call.2.1 call.2.2.1 call.2.2.2
        (hsp call (List.mem_cons_self _ _)) (by omega) (by rw [hu, ha])
    obtain ⟨k1, hk1, hn1, hu1, hs1⟩ := ih k0 (a + 1)
      (by rw [hn0, ha]) (by rw [hu0, hu]; push_cast; rfl) (by omega)
      (by intro call1 hmem; rw [hs0]; exact hsp call1 (List.mem_cons_of_mem _ hmem))
    refine ⟨k1, ?_, by rw [hn1, List.length_cons]; omega,
      by rw [hu1, List.length_cons]; congr 1; omega, by rw [hs1, hs0]⟩
    simp only [allocMany, hk0, hk1, List.length_cons, List.range'_succ, List.map_cons, ha]
    rfl

/-- C8.  Under `NO_REPL`, from a state in which no frame has been handed out
(`numPagesAllocated = 0`, `usedPages = 0`), any sequence of at most
`NumPhysPages` calls of `GetNextPageToWrite` succeeds and call number `j`
(counted from 0) returns frame `j`, so the frames returned are pairwise
distinct and lie in `[0, NumPhysPages)`; after `NumPhysPages` calls every
further call stops at the assertion. -/
theorem NO_REPL_hands_out_frames_in_order (c : Config) (k : SystemState)
    (calls : List (Nat × Int × Int × Indet))
    (hc : c.replacementAlgo = .NO_REPL)
    (h0 : k.numPagesAllocated = 0) (hu : k.usedPages = 0)
    (hsp : ∀ call ∈ calls, call.1 < k.spaces.length)
    (hlen : calls.length ≤ c.NumPhysPages) :
    ∃ k1 frames, allocMany c calls k = .ok (k1, frames)
      ∧ frames = (List.range calls.length).map Int.ofNat
      ∧ frames.Nodup
      ∧ (∀ f ∈ frames, 0 ≤ f ∧ f < (c.NumPhysPages : Int))
      ∧ (calls.length = c.NumPhysPages →
          ∀ self vpn notToReplace nd,
            GetNextPageToWrite c k1 self vpn notToReplace nd = .error .assertion) := by
  obtain ⟨k1, hk1, hn1, _, _⟩ := allocMany_NO_REPL c hc calls k 0 h0 (by simpa using hu)
    (by omega) hsp
  refine ⟨k1, _, hk1, by rw [List.range_eq_range'], ?_, ?_, ?_⟩
  · rw [List.nodup_map_iff Int.ofNat_injective]
    exact List.nodup_range' _ _
  · intro f hf
    simp only [List.mem_map, List.mem_range'_1] at hf
    obtain ⟨j, hj, rfl⟩ := hf
    have hj2 : j < c.NumPhysPages := by omega
    exact ⟨Int.ofNat_nonneg _, Int.ofNat_lt.mpr hj2⟩
  · intro hfull self vpn ntr nd
    rw [GetNextPageToWrite_NO_REPL hc]
    have : ¬ (k1.numPagesAllocated < c.NumPhysPages) := by omega
    simp only [this, not_false_eq_true, if_true]

/-- An instance: four allocations on the machine of four frames return the
frames 0, 1, 2, 3, and a fifth allocation stops at the assertion. -/
theorem NO_REPL_hands_out_frames_in_order_witness :
    (cfgSmall .NO_REPL).replacementAlgo = .NO_REPL
    ∧ loadedState.numPagesAllocated = 0 ∧ loadedState.usedPages = 0
    ∧ (∀ call ∈ fourCalls, call.1 < loadedState.spaces.length)
    ∧ fourCalls.length ≤ (cfgSmall .NO_REPL).NumPhysPages
    ∧ ∃ k1 frames, allocMany (cfgSmall .NO_REPL) fourCalls loadedState = .ok (k1, frames)
        ∧ frames = [0, 1, 2, 3]
        ∧ GetNextPageToWrite (cfgSmall .NO_REPL) k1 0 1 (-1) ⟨1, 0, 0⟩ = .error .assertion :=
  ⟨rfl, rfl, rfl, by decide, by decide,
    match NO_REPL_hands_out_frames_in_order (cfgSmall .NO_REPL) loadedState fourCalls rfl rfl rfl
        (by decide) (by decide) with
    | ⟨k1, frames, h1, h2, _, _, h5⟩ => ⟨k1, frames, h1, h2, h5 rfl 0 1 (-1) ⟨1, 0, 0⟩⟩⟩

/-- An instance: an allocation for page 2 under the clock policy with every
frame free. -/
theorem GetNextPageToWrite_contract_witness :
    ∃ k1 f,
      loadedState.memoryUsedBy.length = (cfgSmall .LRU_CLOCK_REPL).NumPhysPages
      ∧ loadedState.virtualPageNo.length = (cfgSmall .LRU_CLOCK_REPL).NumPhysPages
      ∧ loadedState.LRU_Clock_ptr < (cfgSmall .LRU_CLOCK_REPL).NumPhysPages
      ∧ GetNextPageToWrite (cfgSmall .LRU_CLOCK_REPL) loadedState 0 2 (-1) ⟨0, 0, 0⟩ = .ok (k1, f)
      ∧ f = 0 ∧ getAt k1.memoryUsedBy f = k1.currentPID ∧ getAt k1.virtualPageNo f = 2 :=
  ⟨_, _, rfl, rfl, by decide, rfl, rfl,
    (GetNextPageToWrite_contract (cfgSmall .LRU_CLOCK_REPL) loadedState 0 2 (-1) ⟨0, 0, 0⟩ _ _
      rfl rfl (by decide) rfl).2.2.1,
    (GetNextPageToWrite_contract (cfgSmall .LRU_CLOCK_REPL) loadedState 0 2 (-1) ⟨0, 0, 0⟩ _ _
      rfl rfl (by decide) rfl).2.2.2.1⟩

/-- C10 (evaluation).  Under `RANDOM_REPL` with every frame free, an allocation
for page 2 of a three-page address space returns frame 0 and marks entry 0 of
the page table valid with frame 0; entry 2 stays invalid with no frame. -/
theorem GetNextPageToWrite_marks_entry_of_frame_index :
    (GetNextPageToWrite (cfgSmall .RANDOM_REPL) loadedState 0 2 (-1) ⟨0, 0, 0⟩).toOption.map
        (fun r => (r.2, (pageTableOf r.1 0).map (fun e => (e.valid, e.physicalPage))))
      = some (0, [(true, 0), (false, -1), (false, -1)]) := by
  decide

/-! ### The bound of the clock scan is never the reason for a failure -/

theorem recordFrame_no_spin (k : SystemState) (self : Nat) (vpn i fp : Int) :
    recordFrame k self vpn i fp ≠ .error .spin := by
  unfold recordFrame
  split_ifs
  · intro h; cases h
  · split <;> intro h <;> cases h

theorem SaveToSwap_no_spin (c : Config) (k : SystemState) (self : Nat) (vpn : Int) :
    SaveToSwap c k self vpn ≠ .error .spin := by
  unfold SaveToSwap
  split
  · intro h; cases h
  · split_ifs <;> intro h <;> cases h

theorem evictOwner_no_spin (c : Config) (k : SystemState) (fp : Int) :
    evictOwner c k fp ≠ .error .spin := by
  unfold evictOwner
  simp only
  split_ifs
  · intro h; cases h
  · split
    · intro h; cases h
    · exact SaveToSwap_no_spin _ _ _ _
  · intro h; cases h

theorem GetNextPageToWrite_no_spin (c : Config) (k : SystemState) (self : Nat)
    (vpn ntr : Int) (nd : Indet) :
    GetNextPageToWrite c k self vpn ntr nd ≠ .error .spin := by
  cases halgo : c.replacementAlgo with
  | NO_REPL =>
    rw [GetNextPageToWrite_NO_REPL halgo]
    split_ifs
    all_goals first
      | exact recordFrame_no_spin _ _ _ _ _
      | (intro h; cases h)
  | RANDOM_REPL =>
    rw [GetNextPageToWrite_RANDOM_REPL halgo]
    split_ifs
    all_goals first
      | exact recordFrame_no_spin _ _ _ _ _
      | (intro h; cases h)
  | LRU_CLOCK_REPL =>
    by_cases hfull : k.usedPages = (c.NumPhysPages : Int)
    · rw [GetNextPageToWrite_LRU_full halgo _ _ _ _ _ hfull]
      have hscan := clockScan_no_spin c.NumPhysPages ntr (k.referenceBit.length + 1)
        k.referenceBit k.LRU_Clock_ptr
        (Nat.lt_succ_of_le (List.count_le_length _ _))
      split
      · rename_i f hcs
        intro h
        simp only [Except.error.injEq] at h
        subst h
        exact hscan hcs
      · split
        · rename_i f hev
          intro h
          simp only [Except.error.injEq] at h
          subst h
          exact evictOwner_no_spin _ _ _ hev
        · split_ifs
          · intro h; cases h
          · exact recordFrame_no_spin _ _ _ _ _
    · rw [GetNextPageToWrite_LRU_free halgo _ _ _ _ _ hfull]
      exact recordFrame_no_spin _ _ _ _ _

/-! ### When the allocator returns -/

theorem recordFrame_returns (k : SystemState) (self : Nat) (vpn i fp : Int)
    (sp : ProcessAddrSpace) (hfp : fp ≠ -1) (hsp : k.spaces[self]? = some sp) :
    ∃ k1 f, recordFrame k self vpn i fp = .ok (k1, f) :=
  ⟨_, _, recordFrame_eq_ok k self vpn i fp sp hfp hsp⟩

theorem GetNextPageToWrite_returns (c : Config) (k : SystemState) (self : Nat) (vpn : Int)
    (nd : Indet) (sp : ProcessAddrSpace)
    (hsp : k.spaces[self]? = some sp) (hcan : canAllocate c k) :
    ∃ k1 f, GetNextPageToWrite c k self vpn (-1) nd = .ok (k1, f) := by
  unfold canAllocate at hcan
  cases halgo : c.replacementAlgo with
  | NO_REPL =>
    rw [halgo] at hcan
    simp only at hcan
    rw [GetNextPageToWrite_NO_REPL halgo, if_neg (not_not.mpr hcan.1), if_neg hcan.2]
    exact recordFrame_returns _ _ _ _ _ sp (by omega) hsp
  | RANDOM_REPL =>
    rw [halgo] at hcan
    simp only at hcan
    rw [GetNextPageToWrite_RANDOM_REPL halgo]
    by_cases hfull : k.usedPages = (c.NumPhysPages : Int)
    · rw [if_pos hfull] at hcan
      rw [if_pos hfull, if_neg (Nat.ne_of_gt hcan), if_neg (by omega)]
      exact recordFrame_returns _ _ _ _ _ sp (by omega) hsp
    · rw [if_neg hfull] at hcan
      rw [if_neg hfull]
      exact recordFrame_returns _ _ _ _ _ sp hcan hsp
  | LRU_CLOCK_REPL =>
    rw [halgo] at hcan
    simp only at hcan
    rw [GetNextPageToWrite_LRU_free halgo _ _ _ _ _ hcan.1]
    exact recordFrame_returns _ _ _ _ _ sp hcan.2 hsp

/-! ## Bytes -/

theorem length_writeBytes (m : List Nat) (off : Nat) (bs : List Nat) :
    (writeBytes m off bs).length = m.length := by
  simp [writeBytes]

theorem getD_writeBytes (m : List Nat) (off : Nat) (bs : List Nat) (a : Nat)
    (ha : a < m.length) :
    (writeBytes m off bs).getD a 0 =
      if off ≤ a ∧ a < off + bs.length then bs.getD (a - off) 0 else m.getD a 0 := by
  simp [writeBytes, List.getD_eq_getElem?_getD, List.getElem?_map, List.getElem?_range, ha]

theorem getD_writeBytes_out (m : List Nat) (off : Nat) (bs : List Nat) (a : Nat)
    (ha : m.length ≤ a) : (writeBytes m off bs).getD a 0 = 0 := by
  rw [List.getD_eq_getElem?_getD, List.getElem?_eq_none (by rw [length_writeBytes]; exact ha)]
  rfl

theorem length_readBytes (m : List Nat) (off len : Nat) :
    (readBytes m off len).length = len := by
  simp [readBytes]

theorem getD_readBytes (m : List Nat) (off len j : Nat) (hj : j < len) :
    (readBytes m off len).getD j 0 = m.getD (off + j) 0 := by
  simp [readBytes, List.getD_eq_getElem?_getD, List.getElem?_map, List.getElem?_range, hj]

theorem readBytes_congr (m1 m2 : List Nat) (o1 o2 len : Nat)
    (h : ∀ j, j < len → m1.getD (o1 + j) 0 = m2.getD (o2 + j) 0) :
    readBytes m1 o1 len = readBytes m2 o2 len := by
  unfold readBytes
  apply List.map_congr_left
  intro j hj
  exact h j (List.mem_range.mp hj)

theorem frameAddr_eq (c : Config) (p : Int) (h0 : 0 ≤ p)
    (h1 : p.toNat * c.PageSize < 4294967296) : frameAddr c p = p.toNat * c.PageSize := by
  unfold frameAddr
  obtain ⟨n, rfl⟩ := Int.eq_ofNat_of_zero_le h0
  simp only [Int.toNat_ofNat] at h1 ⊢
  have : ((n : Int) * (c.PageSize : Int)) % 4294967296 = ((n * c.PageSize : Nat) : Int) := by
    rw [← Int.natCast_mul]
    exact Int.emod_eq_of_lt (Int.ofNat_nonneg _) (by exact_mod_cast h1)
  rw [this, Int.toNat_ofNat]

/-! ## What an allocation does to the address spaces -/

theorem getD_setAt {α : Type} (l : List α) (i : Int) (v d : α) (j : Nat) :
    (setAt l i v).getD j d
      = if 0 ≤ i ∧ i.toNat = j ∧ j < l.length then v else l.getD j d := by
  unfold setAt
  by_cases h0 : 0 ≤ i
  · simp only [h0, if_true, true_and, List.getD_eq_getElem?_getD, List.getElem?_set]
    by_cases h1 : i.toNat = j
    · subst h1
      by_cases h2 : i.toNat < l.length
      · simp [h2]
      · simp [h2, List.getElem?_eq_none (Nat.le_of_not_lt h2)]
    · simp [h1]
  · simp [h0]

theorem getAt_natCast {α : Type} [Inhabited α] (l : List α) (n : Nat) :
    getAt l (n : Int) = l.getD n default := by
  unfold getAt
  rw [if_pos (Int.ofNat_nonneg n), Int.toNat_ofNat]

theorem getAt_valid_bounds (pt : List TranslationEntry) (v : Int)
    (h : (getAt pt v).valid = true) :
    0 ≤ v ∧ v.toNat < pt.length ∧ getAt pt v = pt.getD v.toNat default := by
  unfold getAt at h ⊢
  by_cases h0 : 0 ≤ v
  · simp only [h0, if_true] at h
    refine ⟨h0, ?_, by simp only [h0, if_true]⟩
    by_contra hlt
    rw [List.getD_eq_getElem?_getD, List.getElem?_eq_none (Nat.le_of_not_lt hlt)] at h
    exact absurd h (by decide)
  · simp only [h0, if_false] at h
    exact absurd h (by decide)

theorem spaceStable_refl (c : Config) (sp : ProcessAddrSpace) : spaceStable c sp sp :=
  ⟨rfl, rfl, rfl, rfl, rfl, fun _ => ⟨rfl, rfl, rfl, rfl, rfl⟩, fun _ _ _ _ => rfl⟩

theorem spaceStable_markValid (c : Config) (sp sp1 : ProcessAddrSpace) (i fp : Int)
    (h : spaceStable c sp sp1) : spaceStable c sp (markValid sp1 i fp) := by
  obtain ⟨h1, h2, h3, h4, h5, h6, h7⟩ := h
  refine ⟨h1, h2, h3, ?_, h5, ?_, h7⟩
  · simp [markValid, length_setAt, h4]
  · intro j
    have := h6 j
    simp only [markValid, getD_setAt]
    split_ifs with hc
    · obtain ⟨hc0, hc1, _⟩ := hc
      have hg : getAt sp1.NachOSpageTable i = sp1.NachOSpageTable.getD j default := by
        simp [getAt, hc0, hc1]
      simpa [hg] using this
    · exact this

theorem slot_disjoint (PS j n b : Nat) (hjn : j ≠ n) (hb : b < PS) :
    ¬ (n * PS ≤ j * PS + b ∧ j * PS + b < n * PS + PS) := by
  rcases Nat.lt_or_gt_of_ne hjn with h | h
  · have h1 : (j + 1) * PS ≤ n * PS := Nat.mul_le_mul_right _ h
    rw [Nat.add_mul, Nat.one_mul] at h1
    omega
  · have h1 : (n + 1) * PS ≤ j * PS := Nat.mul_le_mul_right _ h
    rw [Nat.add_mul, Nat.one_mul] at h1
    omega

theorem toNat_mul_natCast (v : Int) (n : Nat) (h0 : 0 ≤ v) :
    Int.toNat (v * (n : Int)) = v.toNat * n := by
  obtain ⟨m, rfl⟩ := Int.eq_ofNat_of_zero_le h0
  rw [← Int.natCast_mul, Int.toNat_ofNat, Int.toNat_ofNat]

theorem spaceStable_swapOut (c : Config) (mem : List Nat) (sp : ProcessAddrSpace) (v : Int)
    (hv : (getAt sp.NachOSpageTable v).valid = true) :
    spaceStable c sp (swapOut c mem sp v) := by
  obtain ⟨h0, hlt, hg⟩ := getAt_valid_bounds _ _ hv
  refine ⟨rfl, rfl, rfl, ?_, ?_, ?_, ?_⟩
  · simp [swapOut, length_setAt]
  · simp only [swapOut]
    split_ifs
    · simp [memcpy, length_writeBytes]
    · rfl
  · intro j
    simp only [swapOut, getD_setAt]
    split_ifs with hc hd
    · obtain ⟨_, hc1, _⟩ := hc
      rw [hg, hc1]
      exact ⟨rfl, rfl, rfl, rfl, rfl⟩
    · obtain ⟨_, hc1, _⟩ := hc
      rw [hg, hc1]
      exact ⟨rfl, rfl, rfl, rfl, rfl⟩
    · exact ⟨rfl, rfl, rfl, rfl, rfl⟩
  · intro j hj b hb
    simp only [swapOut]
    split_ifs with hd
    · have hjn : j ≠ v.toNat := by
        intro e
        rw [hg, ← e, hj] at hv
        exact absurd hv (by decide)
      unfold memcpy
      by_cases ha : j * c.PageSize + b < sp.swapMemory.length
      · rw [getD_writeBytes _ _ _ _ ha, toNat_mul_natCast _ _ h0, length_readBytes,
          if_neg (slot_disjoint _ _ _ _ hjn hb)]
      · rw [getD_writeBytes_out _ _ _ _ (Nat.le_of_not_lt ha), List.getD_eq_getElem?_getD,
          List.getElem?_eq_none (Nat.le_of_not_lt ha)]
        rfl
    · rfl

theorem recordFrame_spaces {k : SystemState} {self : Nat} {vpn i fp : Int}
    {k1 : SystemState} {r : Int} (h : recordFrame k self vpn i fp = .ok (k1, r))
    (s : Nat) (sp : ProcessAddrSpace) (hs : k.spaces[s]? = some sp) :
    ∃ sp1, k1.spaces[s]? = some sp1 ∧
      ((s ≠ self ∧ sp1 = sp) ∨ (s = self ∧ sp1 = markValid sp i fp)) := by
  obtain ⟨_, _, sp0, hsp0, hk1⟩ := recordFrame_ok h
  subst hk1
  have hlen : s < k.spaces.length := by
    by_contra hcon
    rw [List.getElem?_eq_none (Nat.le_of_not_lt hcon)] at hs
    cases hs
  by_cases hss : s = self
  · subst hss
    rw [hs] at hsp0
    cases hsp0
    exact ⟨_, by simp [List.getElem?_set, hlen], Or.inr ⟨rfl, rfl⟩⟩
  · refine ⟨sp, ?_, Or.inl ⟨hss, rfl⟩⟩
    simp only [List.getElem?_set]
    rw [if_neg (fun e => hss e.symm)]
    exact hs

theorem evictOwner_spaces {c : Config} {k : SystemState} {fp : Int} {k2 : SystemState}
    (h : evictOwner c k fp = .ok k2)
    (s : Nat) (sp : ProcessAddrSpace) (hs : k.spaces[s]? = some sp) :
    ∃ sp1, k2.spaces[s]? = some sp1 ∧
      (sp1 = sp ∨ ∃ v, (getAt sp.NachOSpageTable v).valid = true
                        ∧ sp1 = swapOut c k.mainMemory sp v) := by
  unfold evictOwner at h
  simp only at h
  split_ifs at h with h1 h2
  · split at h
    · cases h
    · rename_i victim _
      obtain ⟨sp0, hsp0, hvalid, hk2⟩ := SaveToSwap_ok h
      subst hk2
      have hlen : s < k.spaces.length := by
        by_contra hcon
        rw [List.getElem?_eq_none (Nat.le_of_not_lt hcon)] at hs
        cases hs
      by_cases hss : s = victim
      · subst hss
        rw [hs] at hsp0
        cases hsp0
        exact ⟨_, by simp [List.getElem?_set, hlen], Or.inr ⟨_, hvalid, rfl⟩⟩
      · refine ⟨sp, ?_, Or.inl rfl⟩
        simp only [List.getElem?_set]
        rw [if_neg (fun e => hss e.symm)]
        exact hs
  · simp only [Except.ok.injEq] at h
    subst h
    exact ⟨sp, hs, Or.inl rfl⟩

theorem GetNextPageToWrite_decompose {c : Config} {k : SystemState} {self : Nat}
    {vpn ntr : Int} {nd : Indet} {k1 : SystemState} {f : Int}
    (hrun : GetNextPageToWrite c k self vpn ntr nd = .ok (k1, f)) :
    ∃ kmid kin i, recordFrame kin self vpn i f = .ok (k1, f)
      ∧ kin.spaces = kmid.spaces ∧ kin.mainMemory = k.mainMemory
      ∧ kin.currentPID = k.currentPID ∧ kin.threadSpace = k.threadSpace
      ∧ kin.fileSystem = k.fileSystem ∧ kin.numPageFaults = k.numPageFaults
      ∧ (kmid = k ∨
          (c.replacementAlgo = .LRU_CLOCK_REPL ∧ k.usedPages = (c.NumPhysPages : Int)
            ∧ ∃ kpre fp, kpre.spaces = k.spaces ∧ kpre.mainMemory = k.mainMemory
                ∧ evictOwner c kpre fp = .ok kmid)) := by
  cases halgo : c.replacementAlgo with
  | NO_REPL =>
    rw [GetNextPageToWrite_NO_REPL halgo] at hrun
    split_ifs at hrun with h1 h2
    · have hr := (recordFrame_ok hrun).1
      subst hr
      exact ⟨k, _, _, hrun, rfl, rfl, rfl, rfl, rfl, rfl, Or.inl rfl⟩
    · have hr := (recordFrame_ok hrun).1
      subst hr
      exact ⟨k, _, _, hrun, rfl, rfl, rfl, rfl, rfl, rfl, Or.inl rfl⟩
  | RANDOM_REPL =>
    rw [GetNextPageToWrite_RANDOM_REPL halgo] at hrun
    split_ifs at hrun with h1 h2 h3 h4
    · have hr := (recordFrame_ok hrun).1
      subst hr
      exact ⟨k, _, _, hrun, rfl, rfl, rfl, rfl, rfl, rfl, Or.inl rfl⟩
    · have hr := (recordFrame_ok hrun).1
      subst hr
      exact ⟨k, _, _, hrun, rfl, rfl, rfl, rfl, rfl, rfl, Or.inl rfl⟩
    · have hr := (recordFrame_ok hrun).1
      rw [← hr] at hrun
      exact ⟨k, _, _, hrun, rfl, rfl, rfl, rfl, rfl, rfl, Or.inl rfl⟩
  | LRU_CLOCK_REPL =>
    by_cases hfull : k.usedPages = (c.NumPhysPages : Int)
    · rw [GetNextPageToWrite_LRU_full halgo _ _ _ _ _ hfull] at hrun
      split at hrun
      · cases hrun
      · rename_i rb ptr hcs
        split at hrun
        · cases hrun
        · rename_i k2 hev
          obtain ⟨hk2, _⟩ := evictOwner_ok hev
          obtain ⟨hm, _, _, _, _, _, _, hpf, hpid, hts, hfs⟩ := hk2
          simp only at hm hpf hpid hts hfs
          split_ifs at hrun with hN
          have hr := (recordFrame_ok hrun).1
          subst hr
          exact ⟨k2, _, _, hrun, rfl, hm, hpid, hts, hfs, hpf,
            Or.inr ⟨rfl, hfull,
              { k with referenceBit := rb.set ptr true, LRU_Clock_ptr := ptr }, _,
              rfl, rfl, hev⟩⟩
    · rw [GetNextPageToWrite_LRU_free halgo _ _ _ _ _ hfull] at hrun
      have hr := (recordFrame_ok hrun).1
      rw [← hr] at hrun
      exact ⟨k, _, _, hrun, rfl, rfl, rfl, rfl, rfl, rfl, Or.inl rfl⟩

theorem GetNextPageToWrite_globals {c : Config} {k : SystemState} {self : Nat}
    {vpn ntr : Int} {nd : Indet} {k1 : SystemState} {f : Int}
    (hrun : GetNextPageToWrite c k self vpn ntr nd = .ok (k1, f)) :
    k1.mainMemory = k.mainMemory ∧ k1.currentPID = k.currentPID
      ∧ k1.threadSpace = k.threadSpace ∧ k1.fileSystem = k.fileSystem
      ∧ k1.numPageFaults = k.numPageFaults := by
  obtain ⟨kmid, kin, i, hrec, _, hm, hpid, hts, hfs, hpf, _⟩ := GetNextPageToWrite_decompose hrun
  obtain ⟨_, _, sp, _, hk1⟩ := recordFrame_ok hrec
  subst hk1
  exact ⟨hm, hpid, hts, hfs, hpf⟩

theorem GetNextPageToWrite_spaces {c : Config} {k : SystemState} {self : Nat}
    {vpn ntr : Int} {nd : Indet} {k1 : SystemState} {f : Int}
    (hrun : GetNextPageToWrite c k self vpn ntr nd = .ok (k1, f))
    (s : Nat) (sp : ProcessAddrSpace) (hs : k.spaces[s]? = some sp) :
    ∃ sp0 sp1, k1.spaces[s]? = some sp1
      ∧ (sp0 = sp ∨ (c.replacementAlgo = .LRU_CLOCK_REPL ∧ k.usedPages = (c.NumPhysPages : Int)
            ∧ ∃ v, (getAt sp.NachOSpageTable v).valid = true
                    ∧ sp0 = swapOut c k.mainMemory sp v))
      ∧ ((s ≠ self ∧ sp1 = sp0) ∨ (s = self ∧ ∃ i, sp1 = markValid sp0 i f)) := by
  obtain ⟨kmid, kin, i, hrec, hsp, _, _, _, _, _, hmid⟩ := GetNextPageToWrite_decompose hrun
  have hmid2 : ∃ sp0, kin.spaces[s]? = some sp0 ∧
      (sp0 = sp ∨ (c.replacementAlgo = .LRU_CLOCK_REPL ∧ k.usedPages = (c.NumPhysPages : Int)
            ∧ ∃ v, (getAt sp.NachOSpageTable v).valid = true
                    ∧ sp0 = swapOut c k.mainMemory sp v)) := by
    rcases hmid with hk | ⟨hlru, hfull, kpre, fp, hpre, hprem, hev⟩
    · subst hk
      exact ⟨sp, by rw [hsp]; exact hs, Or.inl rfl⟩
    · obtain ⟨sp0, h0, h1⟩ := evictOwner_spaces hev s sp (by rw [hpre]; exact hs)
      refine ⟨sp0, by rw [hsp]; exact h0, ?_⟩
      rcases h1 with h1 | ⟨v, hv, h1⟩
      · exact Or.inl h1
      · exact Or.inr ⟨hlru, hfull, v, hv, by rw [h1, hprem]⟩
  obtain ⟨sp0, h0, h1⟩ := hmid2
  obtain ⟨sp1, h2, h3⟩ := recordFrame_spaces hrec s sp0 h0
  refine ⟨sp0, sp1, h2, h1, ?_⟩
  rcases h3 with ⟨a, b⟩ | ⟨a, b⟩
  · exact Or.inl ⟨a, b⟩
  · exact Or.inr ⟨a, i, b⟩

theorem GetNextPageToWrite_stable {c : Config} {k : SystemState} {self : Nat}
    {vpn ntr : Int} {nd : Indet} {k1 : SystemState} {f : Int}
    (hrun : GetNextPageToWrite c k self vpn ntr nd = .ok (k1, f))
    (s : Nat) (sp : ProcessAddrSpace) (hs : k.spaces[s]? = some sp) :
    ∃ sp1, k1.spaces[s]? = some sp1 ∧ spaceStable c sp sp1 := by
  obtain ⟨sp0, sp1, h1, h2, h3⟩ := GetNextPageToWrite_spaces hrun s sp hs
  have hst0 : spaceStable c sp sp0 := by
    rcases h2 with h2 | ⟨_, _, v, hv, h2⟩
    · rw [h2]; exact spaceStable_refl c sp
    · rw [h2]; exact spaceStable_swapOut c _ sp v hv
  refine ⟨sp1, h1, ?_⟩
  rcases h3 with ⟨_, h3⟩ | ⟨_, i, h3⟩
  · rw [h3]; exact hst0
  · rw [h3]; exact spaceStable_markValid c sp sp0 i f hst0

/-! ## The page-fault handler -/

theorem getElem?_set_self_of_some {α : Type} (l : List α) (i : Nat) (x y : α)
    (h : l[i]? = some x) : (l.set i y)[i]? = some y := by
  have hlen : i < l.length := by
    by_contra hcon
    rw [List.getElem?_eq_none (Nat.le_of_not_lt hcon)] at h
    cases h
  simp [List.getElem?_set, hlen]

theorem updateEntry_eq (k : SystemState) (self vpn : Nat)
    (g : TranslationEntry → TranslationEntry) (sp : ProcessAddrSpace)
    (hsp : k.spaces[self]? = some sp) :
    updateEntry k self vpn g = { k with spaces := k.spaces.set self (setEntry sp vpn g) } := by
  unfold updateEntry
  simp only [hsp]

theorem PageFaultHandler_from_swap {c : Config} {k : SystemState} {self a : Nat} {nd : Indet}
    {k2 : SystemState} {sp : ProcessAddrSpace}
    (hsp : k.spaces[self]? = some sp) (hps : 0 < c.PageSize)
    (hvpn : a / c.PageSize < sp.NachOSpageTable.length)
    (hused : (sp.NachOSpageTable.getD (a / c.PageSize) default).ifUsed = true)
    (hrun : PageFaultHandler c k self a nd = .ok k2) :
    ∃ kA f spA,
      GetNextPageToWrite c { k with numPageFaults := k.numPageFaults + 1 } self
          ((a / c.PageSize : Nat) : Int) (-1) nd = .ok (kA, f)
      ∧ kA.spaces[self]? = some spA ∧ spaceStable c sp spA
      ∧ k2.mainMemory = memcpy (bzero kA.mainMemory (frameAddr c f) c.PageSize)
          (frameAddr c f) spA.swapMemory (u32 (a / c.PageSize * c.PageSize)) c.PageSize
      ∧ k2.spaces[self]? = some (setEntry spA (a / c.PageSize)
          (fun e => { e with physicalPage := f, valid := true })) := by
  unfold PageFaultHandler at hrun
  simp only [hsp, Nat.ne_of_gt hps, if_false] at hrun
  split_ifs at hrun with hassert
  split at hrun
  · cases hrun
  · rename_i kA f hgnp
    obtain ⟨spA, hspA, hst⟩ := GetNextPageToWrite_stable hgnp self sp hsp
    have hlenA := hst.2.2.2.1
    have hifA := (hst.2.2.2.2.2.1 (a / c.PageSize)).1
    rw [updateEntry_eq _ _ _ _ spA hspA] at hrun
    simp only [getElem?_set_self_of_some _ _ _ _ hspA] at hrun
    have hused2 : ((setEntry spA (a / c.PageSize)
        (fun e => { e with physicalPage := f, valid := true })).NachOSpageTable.getD
          (a / c.PageSize) default).ifUsed = true := by
      simp [setEntry, List.getD_eq_getElem?_getD, List.getElem?_set, hlenA, hvpn]
      rw [← hused, ← hifA]
      simp [List.getD_eq_getElem?_getD, hlenA, hvpn]
    simp only [hused2, Bool.true_eq_false, if_false] at hrun
    simp only [Except.ok.injEq] at hrun
    subst hrun
    exact ⟨kA, f, spA, hgnp, hspA, hst, rfl, getElem?_set_self_of_some _ _ _ _ hspA⟩

theorem PageFaultHandler_returns_from_swap {c : Config} {k : SystemState} {self a : Nat}
    {nd : Indet} {sp : ProcessAddrSpace}
    (hsp : k.spaces[self]? = some sp) (hps : 0 < c.PageSize)
    (hvpn : a / c.PageSize < sp.NachOSpageTable.length)
    (hnum : a / c.PageSize ≤ sp.numPagesInVM)
    (hused : (sp.NachOSpageTable.getD (a / c.PageSize) default).ifUsed = true)
    (hcan : canAllocate c k) :
    ∃ k2, PageFaultHandler c k self a nd = .ok k2 := by
  obtain ⟨kA, f, hgnp⟩ := GetNextPageToWrite_returns c
    { k with numPageFaults := k.numPageFaults + 1 } self ((a / c.PageSize : Nat) : Int) nd sp
    hsp hcan
  obtain ⟨spA, hspA, hst⟩ := GetNextPageToWrite_stable hgnp self sp hsp
  have hlenA := hst.2.2.2.1
  have hifA := (hst.2.2.2.2.2.1 (a / c.PageSize)).1
  have hused2 : ((setEntry spA (a / c.PageSize)
      (fun e => { e with physicalPage := f, valid := true })).NachOSpageTable.getD
        (a / c.PageSize) default).ifUsed = true := by
    simp [setEntry, List.getD_eq_getElem?_getD, List.getElem?_set, hlenA, hvpn]
    rw [← hused, ← hifA]
    simp [List.getD_eq_getElem?_getD, hlenA, hvpn]
  unfold PageFaultHandler
  simp only [hsp, Nat.ne_of_gt hps, if_false, not_not.mpr hnum, hgnp]
  rw [updateEntry_eq _ _ _ _ spA hspA]
  simp only [getElem?_set_self_of_some _ _ _ _ hspA, hused2, Bool.true_eq_false, if_false]
  exact ⟨_, rfl⟩

theorem getD_memcpy_in (dst : List Nat) (d : Nat) (src : List Nat) (s n j : Nat)
    (hj : j < n) (hlen : d + j < dst.length) :
    (memcpy dst d src s n).getD (d + j) 0 = src.getD (s + j) 0 := by
  unfold memcpy
  rw [getD_writeBytes _ _ _ _ hlen, length_readBytes,
    if_pos ⟨Nat.le_add_right _ _, Nat.add_lt_add_left hj _⟩, Nat.add_sub_cancel_left,
    getD_readBytes _ _ _ _ hj]

theorem length_memcpy (dst : List Nat) (d : Nat) (src : List Nat) (s n : Nat) :
    (memcpy dst d src s n).length = dst.length := by
  simp [memcpy, length_writeBytes]

theorem length_bzero (m : List Nat) (off n : Nat) : (bzero m off n).length = m.length := by
  simp [bzero, length_writeBytes]

theorem swap_round_trip_bytes (c : Config) (k : SystemState) (self vpn a : Nat) (nd : Indet)
    (k1 k2 : SystemState) (sp : ProcessAddrSpace)
    (hsp : k.spaces[self]? = some sp)
    (hps : 0 < c.PageSize)
    (hvpn : vpn < sp.NachOSpageTable.length)
    (hvalid : (sp.NachOSpageTable.getD vpn default).valid = true)
    (hused : (sp.NachOSpageTable.getD vpn default).ifUsed = true)
    (hdirty : (sp.NachOSpageTable.getD vpn default).dirty = true)
    (hframe0 : 0 ≤ (sp.NachOSpageTable.getD vpn default).physicalPage)
    (hframe1 : (sp.NachOSpageTable.getD vpn default).physicalPage < (c.NumPhysPages : Int))
    (hswap : (vpn + 1) * c.PageSize ≤ sp.swapMemory.length)
    (hswap32 : sp.swapMemory.length < 4294967296)
    (hmem : k.mainMemory.length = c.NumPhysPages * c.PageSize)
    (hmem32 : c.NumPhysPages * c.PageSize ≤ 4294967296)
    (hmu : k.memoryUsedBy.length = c.NumPhysPages)
    (hvp : k.virtualPageNo.length = c.NumPhysPages)
    (hptr : k.LRU_Clock_ptr < c.NumPhysPages)
    (ha : a / c.PageSize = vpn)
    (h1 : SaveToSwap c k self (vpn : Int) = .ok k1)
    (h2 : PageFaultHandler c k1 self a nd = .ok k2) :
    ∃ e, (pageTableOf k2 self)[vpn]? = some e ∧ e.valid = true
      ∧ 0 ≤ e.physicalPage ∧ e.physicalPage < (c.NumPhysPages : Int)
      ∧ frameBytes c k2 e.physicalPage
          = frameBytes c k (sp.NachOSpageTable.getD vpn default).physicalPage := by
  obtain ⟨sp0, hsp0, hv0, hk1⟩ := SaveToSwap_ok h1
  rw [hsp] at hsp0
  cases hsp0
  have hgetAt : getAt sp.NachOSpageTable (vpn : Int) = sp.NachOSpageTable.getD vpn default :=
    getAt_natCast _ _
  have hst1 := spaceStable_swapOut c k.mainMemory sp _ hv0
  have hsp1 : k1.spaces[self]? = some (swapOut c k.mainMemory sp (vpn : Int)) := by
    rw [hk1]
    exact getElem?_set_self_of_some _ _ _ _ hsp
  have hlen1 := hst1.2.2.2.1
  have hif1 := (hst1.2.2.2.2.2.1 vpn).1
  have hinv1 : ((swapOut c k.mainMemory sp (vpn : Int)).NachOSpageTable.getD
      vpn default).valid = false := by
    simp only [swapOut]
    rw [getD_setAt, if_pos ⟨Int.ofNat_nonneg _, Int.toNat_ofNat _, hvpn⟩]
  have hswap1 : (swapOut c k.mainMemory sp (vpn : Int)).swapMemory
      = memcpy sp.swapMemory (vpn * c.PageSize) k.mainMemory
          (frameAddr c (sp.NachOSpageTable.getD vpn default).physicalPage)
          c.PageSize := by
    simp only [swapOut, hgetAt, hdirty, if_true]
    rw [toNat_mul_natCast _ _ (Int.ofNat_nonneg _), Int.toNat_ofNat]
  obtain ⟨kA, f, spA, hgnp, hspA, hstA, hmem2, hspaces2⟩ :=
    PageFaultHandler_from_swap hsp1 hps (by rw [ha, hlen1]; exact hvpn)
      (by rw [ha, hif1]; exact hused) h2
  rw [ha] at hgnp hmem2 hspaces2
  have hk1mu : k1.memoryUsedBy = k.memoryUsedBy := by rw [hk1]
  have hk1vp : k1.virtualPageNo = k.virtualPageNo := by rw [hk1]
  have hk1ptr : k1.LRU_Clock_ptr = k.LRU_Clock_ptr := by rw [hk1]
  have hk1mem : k1.mainMemory = k.mainMemory := by rw [hk1]
  obtain ⟨_, _, _, hf0, hf1, _⟩ := GetNextPageToWrite_frame c _ self _ _ nd kA f
    (by simpa [hk1mu] using hmu) (by simpa [hk1vp] using hvp) (by simpa [hk1ptr] using hptr) hgnp
  have hmemA : kA.mainMemory = k.mainMemory := by
    rw [(GetNextPageToWrite_globals hgnp).1]
    exact hk1mem
  have hlenA := hstA.2.2.2.1
  have hfa : frameAddr c f = f.toNat * c.PageSize := by
    apply frameAddr_eq c f hf0
    have : f.toNat < c.NumPhysPages := by omega
    have := Nat.mul_lt_mul_of_pos_right this hps
    omega
  have hfin : f.toNat * c.PageSize + c.PageSize ≤ k.mainMemory.length := by
    have : f.toNat + 1 ≤ c.NumPhysPages := by omega
    have := Nat.mul_le_mul_right c.PageSize this
    rw [Nat.add_mul, Nat.one_mul] at this
    omega
  rw [Nat.add_mul, Nat.one_mul] at hswap
  have hu32 : u32 (vpn * c.PageSize) = vpn * c.PageSize := by
    unfold u32
    apply Nat.mod_eq_of_lt
    omega
  refine ⟨{ spA.NachOSpageTable.getD vpn default with physicalPage := f, valid := true },
    ?_, rfl, hf0, hf1, ?_⟩
  · unfold pageTableOf
    rw [hspaces2]
    simp only [setEntry]
    rw [List.getElem?_set]
    simp only [if_true]
    rw [if_pos (by rw [hlenA, hlen1]; exact hvpn)]
  · show frameBytes c k2 f = _
    unfold frameBytes
    apply readBytes_congr
    intro j hj
    rw [hmem2, hfa, hu32, getD_memcpy_in _ _ _ _ _ _ hj
      (by rw [length_bzero, hmemA]; omega)]
    rw [hstA.2.2.2.2.2.2 vpn hinv1 j hj, hswap1]
    rw [getD_memcpy_in _ _ _ _ _ _ hj (by omega)]

/-- C3.  Swap round trip: for a page `vpn` that is resident, used before and
dirty, `SaveToSwap(vpn)` followed by `PageFaultHandler` on an address of page
`vpn` leaves the page valid in a frame of the pool whose `PageSize` bytes are
the bytes the old frame of the page held before `SaveToSwap`; and both calls
return when the allocation needs no clock scan.  The swap array covers the
slot of the page, main memory has `NumPhysPages` frames and both fit the
32-bit address range. -/
theorem swap_round_trip (c : Config) (k : SystemState) (self vpn a : Nat) (nd : Indet)
    (sp : ProcessAddrSpace)
    (hsp : k.spaces[self]? = some sp)
    (hps : 0 < c.PageSize)
    (hnum : sp.NachOSpageTable.length = sp.numPagesInVM)
    (hvpn : vpn < sp.NachOSpageTable.length)
    (hvalid : (sp.NachOSpageTable.getD vpn default).valid = true)
    (hused : (sp.NachOSpageTable.getD vpn default).ifUsed = true)
    (hdirty : (sp.NachOSpageTable.getD vpn default).dirty = true)
    (hframe0 : 0 ≤ (sp.NachOSpageTable.getD vpn default).physicalPage)
    (hframe1 : (sp.NachOSpageTable.getD vpn default).physicalPage < (c.NumPhysPages : Int))
    (hswap : (vpn + 1) * c.PageSize ≤ sp.swapMemory.length)
    (hswap32 : sp.swapMemory.length < 4294967296)
    (hmem : k.mainMemory.length = c.NumPhysPages * c.PageSize)
    (hmem32 : c.NumPhysPages * c.PageSize ≤ 4294967296)
    (hmu : k.memoryUsedBy.length = c.NumPhysPages)
    (hvp : k.virtualPageNo.length = c.NumPhysPages)
    (hptr : k.LRU_Clock_ptr < c.NumPhysPages)
    (ha : a / c.PageSize = vpn) :
    (∀ k1 k2, SaveToSwap c k self (vpn : Int) = .ok k1 →
        PageFaultHandler c k1 self a nd = .ok k2 →
        ∃ e, (pageTableOf k2 self)[vpn]? = some e ∧ e.valid = true
          ∧ 0 ≤ e.physicalPage ∧ e.physicalPage < (c.NumPhysPages : Int)
          ∧ frameBytes c k2 e.physicalPage
              = frameBytes c k (sp.NachOSpageTable.getD vpn default).physicalPage)
      ∧ (canAllocate c k →
          ∃ k1 k2, SaveToSwap c k self (vpn : Int) = .ok k1
            ∧ PageFaultHandler c k1 self a nd = .ok k2) := by
  refine ⟨fun k1 k2 h1 h2 =>
    swap_round_trip_bytes c k self vpn a nd k1 k2 sp hsp hps hvpn hvalid hused hdirty hframe0
      hframe1 hswap hswap32 hmem hmem32 hmu hvp hptr ha h1 h2, fun hcan => ?_⟩
  have hv0 : (getAt sp.NachOSpageTable (vpn : Int)).valid = true := by
    rw [getAt_natCast]; exact hvalid
  have h1 : SaveToSwap c k self (vpn : Int)
      = .ok { k with spaces := k.spaces.set self (swapOut c k.mainMemory sp (vpn : Int)) } := by
    unfold SaveToSwap
    simp only [hsp, hv0, Bool.true_eq_false, if_false]
  have hst1 := spaceStable_swapOut c k.mainMemory sp _ hv0
  have hpf : ∃ k2, PageFaultHandler c
      { k with spaces := k.spaces.set self (swapOut c k.mainMemory sp (vpn : Int)) } self a nd
        = .ok k2 :=
    PageFaultHandler_returns_from_swap
      (getElem?_set_self_of_some _ _ _ (swapOut c k.mainMemory sp (vpn : Int)) hsp) hps
      (by rw [ha, hst1.2.2.2.1]; exact hvpn)
      (by rw [ha, hst1.1, ← hnum]; exact Nat.le_of_lt hvpn)
      (by rw [ha, (hst1.2.2.2.2.2.1 vpn).1]; exact hused) hcan
  obtain ⟨k2, hk2⟩ := hpf
  exact ⟨_, k2, h1, hk2⟩

/-- An instance: page 1, resident in frame 2 with the bytes 21, 22, 23, 24, is
saved and faulted in again; its new frame holds the same bytes. -/
theorem swap_round_trip_witness :
    ∃ k1 k2, SaveToSwap (cfgSmall .LRU_CLOCK_REPL) residentState 0 1 = .ok k1
      ∧ PageFaultHandler (cfgSmall .LRU_CLOCK_REPL) k1 0 5 ⟨0, 0, 0⟩ = .ok k2
      ∧ ∃ e, (pageTableOf k2 0)[1]? = some e ∧ e.valid = true
          ∧ 0 ≤ e.physicalPage ∧ e.physicalPage < 4
          ∧ frameBytes (cfgSmall .LRU_CLOCK_REPL) k2 e.physicalPage = [21, 22, 23, 24] :=
  have hcan : canAllocate (cfgSmall .LRU_CLOCK_REPL) residentState := by
    show residentState.usedPages ≠ ((cfgSmall .LRU_CLOCK_REPL).NumPhysPages : Int)
      ∧ (findFree residentState.memoryUsedBy (cfgSmall .LRU_CLOCK_REPL).NumPhysPages).2 ≠ -1
    decide
  have h := swap_round_trip (cfgSmall .LRU_CLOCK_REPL) residentState 0 1 5 ⟨0, 0, 0⟩
    spaceResident rfl (by decide) rfl (by decide) rfl rfl rfl (by decide) (by decide)
    (by decide) (by decide) rfl (by decide) rfl rfl (by decide) rfl
  match h.2 hcan with
  | ⟨k1, k2, h1, h2⟩ => ⟨k1, k2, h1, h2, h.1 k1 k2 h1 h2⟩

theorem u32_of_lt (n : Nat) (h : n < 4294967296) : u32 n = n := Nat.mod_eq_of_lt h

theorem getD_take_drop (file : List Nat) (pos n j : Nat) (hj : j < n) :
    ((file.drop pos).take n).getD j 0 = file.getD (pos + j) 0 := by
  simp [List.getD_eq_getElem?_getD, List.getElem?_take, hj, List.getElem?_drop]

theorem length_take_drop (file : List Nat) (pos n : Nat) (h : pos + n ≤ file.length) :
    ((file.drop pos).take n).length = n := by
  simp only [List.length_take, List.length_drop]
  omega

theorem readSegment_byte (c : Config) (seg : Segment) (file mem : List Nat) (vpn : Nat)
    (f : Int) (mem1 : List Nat)
    (hps : 0 < c.PageSize) (hf0 : 0 ≤ f)
    (hfin : f.toNat * c.PageSize + c.PageSize ≤ mem.length)
    (hmem32 : mem.length ≤ 4294967296)
    (hpage : (vpn + 1) * c.PageSize < 4294967296)
    (hseg : seg.virtualAddr + seg.size < 4294967296)
    (hcover : seg.inFileAddr + seg.size ≤ file.length)
    (hfile32 : file.length < 4294967296)
    (h : readSegment c seg (some file) mem vpn f = .ok mem1) :
    mem1.length = mem.length ∧ ∀ b, b < c.PageSize →
      mem1.getD (f.toNat * c.PageSize + b) 0 =
        if seg.virtualAddr ≤ vpn * c.PageSize + b
            ∧ vpn * c.PageSize + b < seg.virtualAddr + seg.size then
          file.getD (seg.inFileAddr + (vpn * c.PageSize + b - seg.virtualAddr)) 0
        else mem.getD (f.toNat * c.PageSize + b) 0 := by
  rw [Nat.add_mul, Nat.one_mul] at hpage
  have hfa : frameAddr c f = f.toNat * c.PageSize := frameAddr_eq c f hf0 (by omega)
  unfold readSegment at h
  simp only [Nat.mul_comm c.PageSize vpn, u32_of_lt (vpn * c.PageSize) (by omega),
    u32_of_lt (vpn * c.PageSize + c.PageSize) hpage,
    u32_of_lt (seg.virtualAddr + seg.size) hseg, hfa] at h
  split_ifs at h with hov
  · rw [u32_of_lt (max (vpn * c.PageSize) seg.virtualAddr - vpn * c.PageSize) (by omega),
      u32_of_lt (max (vpn * c.PageSize) seg.virtualAddr - seg.virtualAddr) (by omega),
      u32_of_lt _ (by omega), u32_of_lt _ (by omega)] at h
    simp only [Except.ok.injEq] at h
    subst h
    unfold ReadAt
    refine ⟨length_writeBytes _ _ _, ?_⟩
    intro b hb
    rw [getD_writeBytes _ _ _ _ (by omega), length_take_drop _ _ _ (by omega)]
    by_cases hin : seg.virtualAddr ≤ vpn * c.PageSize + b
        ∧ vpn * c.PageSize + b < seg.virtualAddr + seg.size
    · rw [if_pos hin, if_pos (by omega), getD_take_drop _ _ _ _ (by omega)]
      congr 1
      omega
    · rw [if_neg hin, if_neg (by omega)]
  · simp only [Except.ok.injEq] at h
    subst h
    refine ⟨rfl, ?_⟩
    intro b hb
    rw [if_neg (by omega)]

theorem PageFaultHandler_first_use {c : Config} {k : SystemState} {self a : Nat} {nd : Indet}
    {k2 : SystemState} {sp : ProcessAddrSpace}
    (hsp : k.spaces[self]? = some sp) (hps : 0 < c.PageSize)
    (hvpn : a / c.PageSize < sp.NachOSpageTable.length)
    (hunused : (sp.NachOSpageTable.getD (a / c.PageSize) default).ifUsed = false)
    (hrun : PageFaultHandler c k self a nd = .ok k2) :
    ∃ kA f spA mem1,
      GetNextPageToWrite c { k with numPageFaults := k.numPageFaults + 1 } self
          ((a / c.PageSize : Nat) : Int) (-1) nd = .ok (kA, f)
      ∧ kA.spaces[self]? = some spA ∧ spaceStable c sp spA
      ∧ readSegment c sp.noffH.code (k.fileSystem.lookup sp.fileName)
          (bzero kA.mainMemory (frameAddr c f) c.PageSize) (a / c.PageSize) f = .ok mem1
      ∧ readSegment c sp.noffH.initData (k.fileSystem.lookup sp.fileName)
          mem1 (a / c.PageSize) f = .ok k2.mainMemory
      ∧ k2.spaces[self]? = some (setEntry (setEntry spA (a / c.PageSize)
            (fun e => { e with physicalPage := f, valid := true })) (a / c.PageSize)
            (fun e => { e with ifUsed := true })) := by
  unfold PageFaultHandler at hrun
  simp only [hsp, Nat.ne_of_gt hps, if_false] at hrun
  split_ifs at hrun with hassert
  split at hrun
  · cases hrun
  · rename_i kA f hgnp
    obtain ⟨spA, hspA, hst⟩ := GetNextPageToWrite_stable hgnp self sp hsp
    have hfs : kA.fileSystem = k.fileSystem := (GetNextPageToWrite_globals hgnp).2.2.2.1
    have hlenA := hst.2.2.2.1
    have hifA := (hst.2.2.2.2.2.1 (a / c.PageSize)).1
    rw [updateEntry_eq _ _ _ _ spA hspA] at hrun
    simp only [getElem?_set_self_of_some _ _ _ _ hspA] at hrun
    have hunused2 : ((setEntry spA (a / c.PageSize)
        (fun e => { e with physicalPage := f, valid := true })).NachOSpageTable.getD
          (a / c.PageSize) default).ifUsed = false := by
      simp [setEntry, List.getD_eq_getElem?_getD, List.getElem?_set, hlenA, hvpn]
      rw [← hunused, ← hifA]
      simp [List.getD_eq_getElem?_getD, hlenA, hvpn]
    have hname : (setEntry spA (a / c.PageSize)
        (fun e => { e with physicalPage := f, valid := true })).fileName = sp.fileName := hst.2.2.1
    have hhdr : (setEntry spA (a / c.PageSize)
        (fun e => { e with physicalPage := f, valid := true })).noffH = sp.noffH := hst.2.1
    simp only [hunused2, if_true, hname, hhdr, hfs] at hrun
    split at hrun
    · cases hrun
    · rename_i mem1 hm1
      split at hrun
      · cases hrun
      · rename_i mem2 hm2
        simp only [Except.ok.injEq] at hrun
        have hsp2 := getElem?_set_self_of_some _ _ _
          (setEntry spA (a / c.PageSize) (fun e => { e with physicalPage := f, valid := true }))
          hspA
        rw [updateEntry_eq _ _ _ _ _ hsp2] at hrun
        subst hrun
        refine ⟨kA, f, spA, mem1, hgnp, hspA, hst, hm1, hm2, ?_⟩
        exact getElem?_set_self_of_some _ _ _ _ hsp2

theorem getD_bzero_in (m : List Nat) (off n b : Nat) (hb : b < n) (hlen : off + b < m.length) :
    (bzero m off n).getD (off + b) 0 = 0 := by
  unfold bzero
  rw [getD_writeBytes _ _ _ _ hlen]
  split_ifs
  · simp [List.getD_eq_getElem?_getD, List.getElem?_replicate, hb]
  · rename_i hcon
    simp only [List.length_replicate] at hcon
    omega

theorem first_fault_loads_page_bytes (c : Config) (k : SystemState) (self a : Nat) (nd : Indet)
    (k2 : SystemState) (sp : ProcessAddrSpace) (file : List Nat)
    (hsp : k.spaces[self]? = some sp)
    (hps : 0 < c.PageSize)
    (hvpn : a / c.PageSize < sp.NachOSpageTable.length)
    (hunused : (sp.NachOSpageTable.getD (a / c.PageSize) default).ifUsed = false)
    (hfile : k.fileSystem.lookup sp.fileName = some file)
    (hcode : sp.noffH.code.virtualAddr + sp.noffH.code.size < 4294967296)
    (hdata : sp.noffH.initData.virtualAddr + sp.noffH.initData.size < 4294967296)
    (hcodeIn : sp.noffH.code.inFileAddr + sp.noffH.code.size ≤ file.length)
    (hdataIn : sp.noffH.initData.inFileAddr + sp.noffH.initData.size ≤ file.length)
    (hfile32 : file.length < 4294967296)
    (hpage : (a / c.PageSize + 1) * c.PageSize < 4294967296)
    (hmem : k.mainMemory.length = c.NumPhysPages * c.PageSize)
    (hmem32 : c.NumPhysPages * c.PageSize ≤ 4294967296)
    (hmu : k.memoryUsedBy.length = c.NumPhysPages)
    (hvp : k.virtualPageNo.length = c.NumPhysPages)
    (hptr : k.LRU_Clock_ptr < c.NumPhysPages)
    (hrun : PageFaultHandler c k self a nd = .ok k2) :
    ∃ e, (pageTableOf k2 self)[a / c.PageSize]? = some e
      ∧ e.valid = true ∧ e.ifUsed = true
      ∧ 0 ≤ e.physicalPage ∧ e.physicalPage < (c.NumPhysPages : Int)
      ∧ (frameBytes c k2 e.physicalPage).length = c.PageSize
      ∧ ∀ b, b < c.PageSize →
          (frameBytes c k2 e.physicalPage).getD b 0 =
            if sp.noffH.initData.virtualAddr ≤ a / c.PageSize * c.PageSize + b
                ∧ a / c.PageSize * c.PageSize + b
                    < sp.noffH.initData.virtualAddr + sp.noffH.initData.size then
              file.getD (sp.noffH.initData.inFileAddr
                + (a / c.PageSize * c.PageSize + b - sp.noffH.initData.virtualAddr)) 0
            else if sp.noffH.code.virtualAddr ≤ a / c.PageSize * c.PageSize + b
                ∧ a / c.PageSize * c.PageSize + b
                    < sp.noffH.code.virtualAddr + sp.noffH.code.size then
              file.getD (sp.noffH.code.inFileAddr
                + (a / c.PageSize * c.PageSize + b - sp.noffH.code.virtualAddr)) 0
            else 0 := by
  obtain ⟨kA, f, spA, mem1, hgnp, hspA, hstA, hm1, hm2, hspaces2⟩ :=
    PageFaultHandler_first_use hsp hps hvpn hunused hrun
  obtain ⟨_, _, _, hf0, hf1, _⟩ := GetNextPageToWrite_frame c
    { k with numPageFaults := k.numPageFaults + 1 } self _ _ nd kA f hmu hvp hptr hgnp
  have hmemA : kA.mainMemory = k.mainMemory := (GetNextPageToWrite_globals hgnp).1
  have hlenA := hstA.2.2.2.1
  have hfin : f.toNat * c.PageSize + c.PageSize ≤ k.mainMemory.length := by
    have : f.toNat + 1 ≤ c.NumPhysPages := by omega
    have := Nat.mul_le_mul_right c.PageSize this
    rw [Nat.add_mul, Nat.one_mul] at this
    omega
  have hfa : frameAddr c f = f.toNat * c.PageSize := frameAddr_eq c f hf0 (by omega)
  rw [hfile] at hm1 hm2
  have hlen0 : (bzero kA.mainMemory (f.toNat * c.PageSize) c.PageSize).length
      = k.mainMemory.length := by rw [length_bzero, hmemA]
  rw [hfa] at hm1
  obtain ⟨hl1, hb1⟩ := readSegment_byte c _ file _ _ f mem1 hps hf0 (by rw [hlen0]; exact hfin)
    (by rw [hlen0]; omega) hpage hcode hcodeIn hfile32 hm1
  obtain ⟨hl2, hb2⟩ := readSegment_byte c _ file _ _ f k2.mainMemory hps hf0
    (by rw [hl1, hlen0]; exact hfin) (by rw [hl1, hlen0]; omega) hpage hdata hdataIn hfile32 hm2
  refine ⟨{ ({ spA.NachOSpageTable.getD (a / c.PageSize) default with
                physicalPage := f, valid := true } : TranslationEntry) with ifUsed := true },
    ?_, rfl, rfl, hf0, hf1, length_readBytes _ _ _, ?_⟩
  · unfold pageTableOf
    rw [hspaces2]
    simp only [setEntry, List.getElem?_set, List.length_set, List.getD_eq_getElem?_getD, if_true]
    rw [if_pos (by rw [hlenA]; exact hvpn), if_pos (by rw [hlenA]; exact hvpn)]
    rfl
  · intro b hb
    show (frameBytes c k2 f).getD b 0 = _
    unfold frameBytes
    rw [getD_readBytes _ _ _ _ hb, hfa, hb2 b hb, hb1 b hb,
      getD_bzero_in _ _ _ _ hb (by rw [hmemA]; omega)]

theorem readSegment_some_returns (c : Config) (seg : Segment) (file mem : List Nat)
    (vpn : Nat) (f : Int) : ∃ m, readSegment c seg (some file) mem vpn f = .ok m := by
  unfold readSegment
  simp only
  split_ifs
  · exact ⟨_, rfl⟩
  · exact ⟨_, rfl⟩

theorem PageFaultHandler_returns_first_use {c : Config} {k : SystemState} {self a : Nat}
    {nd : Indet} {sp : ProcessAddrSpace} {file : List Nat}
    (hsp : k.spaces[self]? = some sp) (hps : 0 < c.PageSize)
    (hvpn : a / c.PageSize < sp.NachOSpageTable.length)
    (hnum : a / c.PageSize ≤ sp.numPagesInVM)
    (hunused : (sp.NachOSpageTable.getD (a / c.PageSize) default).ifUsed = false)
    (hfile : k.fileSystem.lookup sp.fileName = some file)
    (hcan : canAllocate c k) :
    ∃ k2, PageFaultHandler c k self a nd = .ok k2 := by
  obtain ⟨kA, f, hgnp⟩ := GetNextPageToWrite_returns c
    { k with numPageFaults := k.numPageFaults + 1 } self ((a / c.PageSize : Nat) : Int) nd sp
    hsp hcan
  obtain ⟨spA, hspA, hst⟩ := GetNextPageToWrite_stable hgnp self sp hsp
  have hfs : kA.fileSystem = k.fileSystem := (GetNextPageToWrite_globals hgnp).2.2.2.1
  have hlenA := hst.2.2.2.1
  have hifA := (hst.2.2.2.2.2.1 (a / c.PageSize)).1
  have hunused2 : ((setEntry spA (a / c.PageSize)
      (fun e => { e with physicalPage := f, valid := true })).NachOSpageTable.getD
        (a / c.PageSize) default).ifUsed = false := by
    simp [setEntry, List.getD_eq_getElem?_getD, List.getElem?_set, hlenA, hvpn]
    rw [← hunused, ← hifA]
    simp [List.getD_eq_getElem?_getD, hlenA, hvpn]
  have hname : (setEntry spA (a / c.PageSize)
      (fun e => { e with physicalPage := f, valid := true })).fileName = sp.fileName := hst.2.2.1
  obtain ⟨mem1, hm1⟩ := readSegment_some_returns c
    (setEntry spA (a / c.PageSize)
      (fun e => { e with physicalPage := f, valid := true })).noffH.code file
    (bzero kA.mainMemory (frameAddr c f) c.PageSize) (a / c.PageSize) f
  obtain ⟨mem2, hm2⟩ := readSegment_some_returns c
    (setEntry spA (a / c.PageSize)
      (fun e => { e with physicalPage := f, valid := true })).noffH.initData file
    mem1 (a / c.PageSize) f
  unfold PageFaultHandler
  simp only [hsp, Nat.ne_of_gt hps, if_false, not_not.mpr hnum, hgnp]
  rw [updateEntry_eq _ _ _ _ spA hspA]
  simp only [getElem?_set_self_of_some _ _ _ _ hspA, hunused2, if_true, hname, hfs, hfile,
    hm1, hm2]
  exact ⟨_, rfl⟩

/-- C2.  First fault on a page: when the entry of page `vpn = a / PageSize` has
`ifUsed` clear and `PageFaultHandler(a)` returns, the entry is valid with
`ifUsed` set and a frame of the pool, and byte `b` of that frame, for the
virtual address `v = vpn * PageSize + b`, is the file byte at
`initData.inFileAddr + (v - initData.virtualAddr)` when `v` lies in the
initialised data, otherwise the file byte at
`code.inFileAddr + (v - code.virtualAddr)` when `v` lies in the code, otherwise
0; and the handler returns when the allocation needs no clock scan.  The
executable is the file found under the name of the address space and holds
both segments; addresses fit the 32-bit range. -/
theorem first_fault_loads_page (c : Config) (k : SystemState) (self a : Nat) (nd : Indet)
    (sp : ProcessAddrSpace) (file : List Nat)
    (hsp : k.spaces[self]? = some sp)
    (hps : 0 < c.PageSize)
    (hnum : sp.NachOSpageTable.length = sp.numPagesInVM)
    (hvpn : a / c.PageSize < sp.NachOSpageTable.length)
    (hunused : (sp.NachOSpageTable.getD (a / c.PageSize) default).ifUsed = false)
    (hfile : k.fileSystem.lookup sp.fileName = some file)
    (hcode : sp.noffH.code.virtualAddr + sp.noffH.code.size < 4294967296)
    (hdata : sp.noffH.initData.virtualAddr + sp.noffH.initData.size < 4294967296)
    (hcodeIn : sp.noffH.code.inFileAddr + sp.noffH.code.size ≤ file.length)
    (hdataIn : sp.noffH.initData.inFileAddr + sp.noffH.initData.size ≤ file.length)
    (hfile32 : file.length < 4294967296)
    (hpage : (a / c.PageSize + 1) * c.PageSize < 4294967296)
    (hmem : k.mainMemory.length = c.NumPhysPages * c.PageSize)
    (hmem32 : c.NumPhysPages * c.PageSize ≤ 4294967296)
    (hmu : k.memoryUsedBy.length = c.NumPhysPages)
    (hvp : k.virtualPageNo.length = c.NumPhysPages)
    (hptr : k.LRU_Clock_ptr < c.NumPhysPages) :
    (∀ k2, PageFaultHandler c k self a nd = .ok k2 →
      ∃ e, (pageTableOf k2 self)[a / c.PageSize]? = some e
        ∧ e.valid = true ∧ e.ifUsed = true
        ∧ 0 ≤ e.physicalPage ∧ e.physicalPage < (c.NumPhysPages : Int)
        ∧ (frameBytes c k2 e.physicalPage).length = c.PageSize
        ∧ ∀ b, b < c.PageSize →
            (frameBytes c k2 e.physicalPage).getD b 0 =
              if sp.noffH.initData.virtualAddr ≤ a / c.PageSize * c.PageSize + b
                  ∧ a / c.PageSize * c.PageSize + b
                      < sp.noffH.initData.virtualAddr + sp.noffH.initData.size then
                file.getD (sp.noffH.initData.inFileAddr
                  + (a / c.PageSize * c.PageSize + b - sp.noffH.initData.virtualAddr)) 0
              else if sp.noffH.code.virtualAddr ≤ a / c.PageSize * c.PageSize + b
                  ∧ a / c.PageSize * c.PageSize + b
                      < sp.noffH.code.virtualAddr + sp.noffH.code.size then
                file.getD (sp.noffH.code.inFileAddr
                  + (a / c.PageSize * c.PageSize + b - sp.noffH.code.virtualAddr)) 0
              else 0)
      ∧ (canAllocate c k → ∃ k2, PageFaultHandler c k self a nd = .ok k2) :=
  ⟨fun k2 hrun =>
    first_fault_loads_page_bytes c k self a nd k2 sp file hsp hps hvpn hunused hfile hcode hdata
      hcodeIn hdataIn hfile32 hpage hmem hmem32 hmu hvp hptr hrun,
   fun hcan =>
    PageFaultHandler_returns_first_use hsp hps hvpn (by rw [← hnum]; exact Nat.le_of_lt hvpn)
      hunused hfile hcan⟩

/-- An instance: the first fault on address 5 loads page 1 of `prog`, whose
bytes 0 and 1 are code and whose bytes 2 and 3 are initialised data. -/
theorem first_fault_loads_page_witness :
    ∃ k2, PageFaultHandler (cfgSmall .RANDOM_REPL) loadedState 0 5 ⟨0, 0, 0⟩ = .ok k2
      ∧ ∃ e, (pageTableOf k2 0)[1]? = some e ∧ e.valid = true ∧ e.ifUsed = true
          ∧ (frameBytes (cfgSmall .RANDOM_REPL) k2 e.physicalPage).getD 1 0 = 145
          ∧ (frameBytes (cfgSmall .RANDOM_REPL) k2 e.physicalPage).getD 2 0 = 146 :=
  have hcan : canAllocate (cfgSmall .RANDOM_REPL) loadedState := by
    show (if loadedState.usedPages = ((cfgSmall .RANDOM_REPL).NumPhysPages : Int)
        then 0 < (cfgSmall .RANDOM_REPL).NumPhysPages
        else (findFree loadedState.memoryUsedBy (cfgSmall .RANDOM_REPL).NumPhysPages).2 ≠ -1)
    decide
  have h := first_fault_loads_page (cfgSmall .RANDOM_REPL) loadedState 0 5 ⟨0, 0, 0⟩ spaceSmall
    ((List.range 60).map (fun p => 100 + p))
    rfl (by decide) rfl (by decide) rfl rfl (by decide) (by decide) (by decide) (by decide)
    (by decide) (by decide) rfl (by decide) rfl rfl (by decide)
  match h.2 hcan with
  | ⟨k2, hrun⟩ =>
    match h.1 k2 hrun with
    | ⟨e, h1, h2, h3, _, _, _, h7⟩ =>
      ⟨k2, hrun, e, h1, h2, h3, (h7 1 (by decide)).trans (by decide),
        (h7 2 (by decide)).trans (by decide)⟩

/-! ## Fork -/

theorem updateEntry_spaces_ne (k : SystemState) (self vpn : Nat)
    (g : TranslationEntry → TranslationEntry) (s : Nat) (hne : s ≠ self) :
    (updateEntry k self vpn g).spaces[s]? = k.spaces[s]? := by
  unfold updateEntry
  split
  · rfl
  · simp only [List.getElem?_set]
    rw [if_neg (fun e => hne e.symm)]

theorem updateEntry_usedPages (k : SystemState) (self vpn : Nat)
    (g : TranslationEntry → TranslationEntry) :
    (updateEntry k self vpn g).usedPages = k.usedPages := by
  unfold updateEntry
  split <;> rfl

theorem pageTableOf_eq (k : SystemState) (s : Nat) (sp : ProcessAddrSpace)
    (h : k.spaces[s]? = some sp) : pageTableOf k s = sp.NachOSpageTable := by
  unfold pageTableOf
  rw [h]

theorem GetNextPageToWrite_usedPages_free {c : Config} {k : SystemState} {self : Nat}
    {vpn ntr : Int} {nd : Indet} {k1 : SystemState} {f : Int}
    (hfree : k.usedPages ≠ (c.NumPhysPages : Int))
    (hrun : GetNextPageToWrite c k self vpn ntr nd = .ok (k1, f)) :
    k1.usedPages = k.usedPages + 1 := by
  cases halgo : c.replacementAlgo with
  | NO_REPL =>
    rw [GetNextPageToWrite_NO_REPL halgo] at hrun
    split_ifs at hrun with h1
    obtain ⟨_, _, sp, _, hk1⟩ := recordFrame_ok hrun
    rw [hk1]
  | RANDOM_REPL =>
    rw [GetNextPageToWrite_RANDOM_REPL halgo, if_neg hfree] at hrun
    obtain ⟨_, _, sp, _, hk1⟩ := recordFrame_ok hrun
    rw [hk1]
  | LRU_CLOCK_REPL =>
    rw [GetNextPageToWrite_LRU_free halgo _ _ _ _ _ hfree] at hrun
    obtain ⟨_, _, sp, _, hk1⟩ := recordFrame_ok hrun
    rw [hk1]

theorem GetNextPageToWrite_other_space {c : Config} {k : SystemState} {self : Nat}
    {vpn ntr : Int} {nd : Indet} {k1 : SystemState} {f : Int}
    (hrun : GetNextPageToWrite c k self vpn ntr nd = .ok (k1, f))
    (hno : c.replacementAlgo ≠ .LRU_CLOCK_REPL ∨ k.usedPages ≠ (c.NumPhysPages : Int))
    (s : Nat) (sp : ProcessAddrSpace) (hs : k.spaces[s]? = some sp) (hne : s ≠ self) :
    k1.spaces[s]? = some sp := by
  obtain ⟨sp0, sp1, h1, h2, h3⟩ := GetNextPageToWrite_spaces hrun s sp hs
  have h0 : sp0 = sp := by
    rcases h2 with h2 | ⟨hl, hf, _⟩
    · exact h2
    · rcases hno with hno | hno
      · exact absurd hl hno
      · exact absurd hf hno
  rcases h3 with ⟨_, h3⟩ | ⟨h3, _⟩
  · rw [h1, h3, h0]
  · exact absurd h3 hne

theorem forkCopy_parent_unchanged {c : Config} {parent child : Nat} {ndA : Indet}
    {i : Nat} {k k1 : SystemState} {ps : ProcessAddrSpace}
    (hps : k.spaces[parent]? = some ps) (hne : parent ≠ child)
    (hno : c.replacementAlgo ≠ .LRU_CLOCK_REPL
        ∨ ((ps.NachOSpageTable.getD i default).valid = true →
            k.usedPages ≠ (c.NumPhysPages : Int)))
    (hrun : forkCopy c parent child ndA i k = .ok k1) :
    k1.spaces[parent]? = some ps
      ∧ (c.replacementAlgo = .LRU_CLOCK_REPL → k1.usedPages = k.usedPages
          + (if (ps.NachOSpageTable.getD i default).valid = true then 1 else 0)) := by
  unfold forkCopy at hrun
  rw [pageTableOf_eq _ _ _ hps] at hrun
  split_ifs at hrun with hv
  · split at hrun
    · cases hrun
    · rename_i kc f hgnp
      simp only [Except.ok.injEq] at hrun
      subst hrun
      have hno2 : c.replacementAlgo ≠ .LRU_CLOCK_REPL ∨ k.usedPages ≠ (c.NumPhysPages : Int) := by
        rcases hno with h | h
        · exact Or.inl h
        · exact Or.inr (h hv)
      have hkc := GetNextPageToWrite_other_space hgnp hno2 parent ps hps hne
      refine ⟨?_, ?_⟩
      · show (updateEntry kc child i _).spaces[parent]? = some ps
        rw [updateEntry_spaces_ne _ _ _ _ _ hne]
        exact hkc
      · intro hl
        rcases hno2 with h | h
        · exact absurd hl h
        · show (updateEntry kc child i _).usedPages = _
          rw [updateEntry_usedPages, GetNextPageToWrite_usedPages_free h hgnp, if_pos hv]
  · simp only [Except.ok.injEq] at hrun
    subst hrun
    exact ⟨hps, fun _ => by rw [if_neg hv, Int.add_zero]⟩

theorem forkFlags_parent (parent child i : Nat) (k : SystemState) (hne : parent ≠ child) :
    (forkFlags parent child i k).spaces[parent]? = k.spaces[parent]?
      ∧ (forkFlags parent child i k).usedPages = k.usedPages := by
  unfold forkFlags
  exact ⟨updateEntry_spaces_ne _ _ _ _ _ hne, updateEntry_usedPages _ _ _ _⟩

theorem forkShare_parent (parent child i : Nat) (k : SystemState) (hne : parent ≠ child) :
    (forkShare parent child i k).spaces[parent]? = k.spaces[parent]?
      ∧ (forkShare parent child i k).usedPages = k.usedPages := by
  unfold forkShare
  exact ⟨updateEntry_spaces_ne _ _ _ _ _ hne, updateEntry_usedPages _ _ _ _⟩

theorem forkPage_parent_unchanged {c : Config} {parent child : Nat} {ndF ndA : Indet}
    {i : Nat} {k k1 : SystemState} {ps : ProcessAddrSpace}
    (hps : k.spaces[parent]? = some ps) (hne : parent ≠ child)
    (hnofault : (ps.NachOSpageTable.getD i default).shared = true
        ∨ (ps.NachOSpageTable.getD i default).valid = true
        ∨ (ps.NachOSpageTable.getD i default).ifUsed = false)
    (hno : c.replacementAlgo ≠ .LRU_CLOCK_REPL
        ∨ (privateResident (ps.NachOSpageTable.getD i default) = true →
            k.usedPages ≠ (c.NumPhysPages : Int)))
    (hrun : forkPage c parent child ndF ndA i k = .ok k1) :
    k1.spaces[parent]? = some ps
      ∧ (c.replacementAlgo = .LRU_CLOCK_REPL → k1.usedPages = k.usedPages
          + (if privateResident (ps.NachOSpageTable.getD i default) = true then 1 else 0)) := by
  have hka : (updateEntry k child i (fun e => { e with virtualPage := (i : Int) })).spaces[parent]?
      = some ps := by rw [updateEntry_spaces_ne _ _ _ _ _ hne]; exact hps
  have hkau := updateEntry_usedPages k child i (fun e => { e with virtualPage := (i : Int) })
  unfold forkPage at hrun
  simp only [pageTableOf_eq _ _ _ hka] at hrun
  by_cases hsh : (ps.NachOSpageTable.getD i default).shared = true
  · have hpr : privateResident (ps.NachOSpageTable.getD i default) = false := by
      unfold privateResident
      rw [hsh]
      rfl
    simp only [hsh, Bool.true_eq_false, if_false, Except.ok.injEq] at hrun
    subst hrun
    refine ⟨?_, ?_⟩
    · rw [(forkFlags_parent _ _ _ _ hne).1, (forkShare_parent _ _ _ _ hne).1]
      exact hka
    · intro _
      rw [(forkFlags_parent _ _ _ _ hne).2, (forkShare_parent _ _ _ _ hne).2, hkau, hpr]
      simp
  · have hsh2 : (ps.NachOSpageTable.getD i default).shared = false := by
      simpa using hsh
    simp only [hsh2, if_true] at hrun
    have hff : forkFault c parent ndF i
        (updateEntry k child i (fun e => { e with virtualPage := (i : Int) }))
        = .ok (updateEntry k child i (fun e => { e with virtualPage := (i : Int) })) := by
      unfold forkFault
      rw [pageTableOf_eq _ _ _ hka]
      simp only
      rw [if_neg]
      rintro ⟨h1, h2⟩
      rcases hnofault with h | h | h
      · exact hsh h
      · rw [h2] at h; exact absurd h (by decide)
      · rw [h1] at h; exact absurd h (by decide)
    rw [hff] at hrun
    simp only at hrun
    split at hrun
    · cases hrun
    · rename_i ke hcopy
      simp only [Except.ok.injEq] at hrun
      subst hrun
      have hpr : privateResident (ps.NachOSpageTable.getD i default)
          = (ps.NachOSpageTable.getD i default).valid := by
        unfold privateResident
        rw [hsh2]
        rfl
      obtain ⟨h1, h2⟩ := forkCopy_parent_unchanged hka hne
        (by rw [hkau, ← hpr]; exact hno) hcopy
      refine ⟨?_, ?_⟩
      · rw [(forkFlags_parent _ _ _ _ hne).1]
        exact h1
      · intro hl
        rw [(forkFlags_parent _ _ _ _ hne).2, h2 hl, hkau, hpr]

theorem forkPages_parent_unchanged {c : Config} {parent child : Nat}
    {nd : Nat → Indet × Indet} {ps : ProcessAddrSpace} (hne : parent ≠ child) :
    ∀ (pages : List Nat) (k k1 : SystemState),
      forkPages c parent child nd pages k = .ok k1 →
      k.spaces[parent]? = some ps →
      (∀ i ∈ pages, (ps.NachOSpageTable.getD i default).shared = true
        ∨ (ps.NachOSpageTable.getD i default).valid = true
        ∨ (ps.NachOSpageTable.getD i default).ifUsed = false) →
      (c.replacementAlgo ≠ .LRU_CLOCK_REPL
        ∨ k.usedPages + ((pages.countP
              (fun i => privateResident (ps.NachOSpageTable.getD i default)) : Nat) : Int)
            ≤ (c.NumPhysPages : Int)) →
      k1.spaces[parent]? = some ps := by
  intro pages
  induction pages with
  | nil =>
    intro k k1 hrun hps _ _
    simp only [forkPages, Except.ok.injEq] at hrun
    subst hrun
    exact hps
  | cons i rest ih =>
    intro k k1 hrun hps hnf hno
    unfold forkPages at hrun
    split at hrun
    · cases hrun
    · rename_i kmid hpage
      rw [List.countP_cons] at hno
      have hno1 : c.replacementAlgo ≠ .LRU_CLOCK_REPL
          ∨ (privateResident (ps.NachOSpageTable.getD i default) = true →
              k.usedPages ≠ (c.NumPhysPages : Int)) := by
        rcases hno with h | h
        · exact Or.inl h
        · refine Or.inr (fun hp => ?_)
          rw [if_pos hp] at h
          omega
      obtain ⟨h1, h2⟩ := forkPage_parent_unchanged hps hne
        (hnf i (List.mem_cons_self _ _)) hno1 hpage
      refine ih kmid k1 hrun h1 (fun j hj => hnf j (List.mem_cons_of_mem _ hj)) ?_
      by_cases hl : c.replacementAlgo = .LRU_CLOCK_REPL
      · right
        rcases hno with h | h
        · exact absurd hl h
        · rw [h2 hl]
          split_ifs at h ⊢ <;> omega
      · exact Or.inl hl

/-- C5 (as amended).  When no page of the parent is used before but not
resident (so the fork takes no page fault in the parent), and the policy is
not the clock policy or the frames in use plus the private resident pages of
the parent do not exceed the pool (so the fork evicts nothing), the fork leaves
the page table of the parent as it was: every page valid before the fork is
valid with the same `physicalPage` after it. -/
theorem fork_keeps_parent_mapping (c : Config) (k : SystemState) (parentSpace : Nat)
    (fresh : Nat → TranslationEntry) (nd : Nat → Indet × Indet)
    (k1 : SystemState) (me : Nat) (ps : ProcessAddrSpace)
    (hps : k.spaces[parentSpace]? = some ps)
    (hnofault : ∀ i, i < ps.numPagesInVM →
      (ps.NachOSpageTable.getD i default).shared = true
        ∨ (ps.NachOSpageTable.getD i default).valid = true
        ∨ (ps.NachOSpageTable.getD i default).ifUsed = false)
    (hnoevict : c.replacementAlgo ≠ .LRU_CLOCK_REPL
      ∨ k.usedPages + (((List.range ps.numPagesInVM).countP
            (fun i => privateResident (ps.NachOSpageTable.getD i default)) : Nat) : Int)
          ≤ (c.NumPhysPages : Int))
    (hrun : ProcessAddrSpace_fork c k parentSpace fresh nd = .ok (k1, me)) :
    pageTableOf k1 parentSpace = pageTableOf k parentSpace
      ∧ ∀ i, ((pageTableOf k parentSpace).getD i default).valid = true →
          ((pageTableOf k1 parentSpace).getD i default).valid = true
          ∧ ((pageTableOf k1 parentSpace).getD i default).physicalPage
              = ((pageTableOf k parentSpace).getD i default).physicalPage := by
  have hlt : parentSpace < k.spaces.length := by
    by_contra hcon
    rw [List.getElem?_eq_none (Nat.le_of_not_lt hcon)] at hps
    cases hps
  unfold ProcessAddrSpace_fork at hrun
  simp only [hps] at hrun
  split at hrun
  · cases hrun
  · rename_i kfin hpages
    simp only [Except.ok.injEq, Prod.mk.injEq] at hrun
    obtain ⟨hk, _⟩ := hrun
    subst hk
    have hfin := forkPages_parent_unchanged (Nat.ne_of_lt hlt) _ _ _ hpages
      (by simpa [List.getElem?_append_left hlt] using hps)
      (fun i hi => hnofault i (List.mem_range.mp hi)) hnoevict
    have heq : pageTableOf kfin parentSpace = pageTableOf k parentSpace := by
      rw [pageTableOf_eq _ _ _ hfin, pageTableOf_eq _ _ _ hps]
    refine ⟨heq, fun i hv => ?_⟩
    rw [heq]
    exact ⟨hv, rfl⟩

/-- An instance: a fork under the clock policy with two free frames for the two
resident pages of the parent. -/
theorem fork_keeps_parent_mapping_witness :
    ∃ k1 me, ProcessAddrSpace_fork (cfgSmall .LRU_CLOCK_REPL) stateTwoResident 0 freshZero ndZero
        = .ok (k1, me)
      ∧ pageTableOf k1 0 = pageTableOf stateTwoResident 0 :=
  ⟨_, _, rfl,
    (fork_keeps_parent_mapping (cfgSmall .LRU_CLOCK_REPL) stateTwoResident 0 freshZero ndZero
      _ _ parentTwoResident rfl (by decide) (Or.inr (by decide)) rfl).1⟩

/-- C5 (counterexample).  Clock policy, three frames: the pages 0 and 1 of the
parent are resident in frames 0 and 1 and frame 2 is free.  The fork gives
frame 2 to page 0 of the child; the pool is then full, and the frame for
page 1 of the child is obtained by evicting page 0 of the parent.  Page 0 of
the parent was valid in frame 0 before the fork and is not valid after it. -/
theorem fork_evicts_parent_page :
    mapping (pageTableOf stateFull 0) = [(true, 0), (true, 1), (false, -1)]
      ∧ (ProcessAddrSpace_fork (cfgThree .LRU_CLOCK_REPL) stateFull 0 freshZero ndPage).toOption.map
          (fun r => mapping (pageTableOf r.1 0))
        = some [(false, -1), (true, 1), (false, -1)] := by
  decide

/-- C4 (evaluation).  Free-frame path: the pages 1 and 2 of the parent are
resident in frames 2 and 3, frames 0 and 1 are free.  After the fork the
entries 1 and 2 of the child both hold frame 1, entry 0 of the child is valid
with frame 0, and the frame of page 1 of the child holds the bytes of page 2
of the parent. -/
theorem fork_gives_two_pages_one_frame :
    (ProcessAddrSpace_fork (cfgSmall .RANDOM_REPL) stateTwoResident 0 freshZero ndZero).toOption.map
        (fun r => (mapping (pageTableOf r.1 r.2),
                   frameBytes (cfgSmall .RANDOM_REPL) r.1 1,
                   frameBytes (cfgSmall .RANDOM_REPL) stateTwoResident 2,
                   frameBytes (cfgSmall .RANDOM_REPL) stateTwoResident 3))
      = some ([(true, 0), (true, 1), (true, 1)],
              [31, 32, 33, 34], [21, 22, 23, 24], [31, 32, 33, 34]) := by
  decide

/-- C6 (evaluation).  Page 1 of the parent is used before and not resident.
The fork calls the fault handler of the parent with the page number 1 as the
address, which lies in page 0: page 0 of the parent is loaded again, into
frame 3, and page 1 stays non-resident in the parent and in the child.  (The
allocation for that fault also marks entry 3 of the parent, the entry with the
number of the frame, valid.) -/
theorem fork_faults_wrong_page :
    mapping (pageTableOf stateEvicted 0)
        = [(true, 0), (false, -1), (false, -1), (false, -1), (false, -1)]
      ∧ (ProcessAddrSpace_fork (cfgSix .LRU_CLOCK_REPL) stateEvicted 0 freshZero ndZero).toOption.map
          (fun r => (mapping (pageTableOf r.1 0),
                     (pageTableOf r.1 r.2).map (fun e => e.valid)))
        = some ([(true, 3), (false, -1), (false, -1), (true, 3), (false, -1)],
                [true, false, false, true, false]) := by
  decide

/-- C7 (evaluation).  The parent has page 0 never used and the pages 1 and 2
resident in frames 2 and 3; frames 0 and 1 are free.  Page 0 of the parent is
not valid before, during and after the fork, and entry 0 of the child is valid
when the fork returns. -/
theorem fork_child_valid_flag_differs :
    (ProcessAddrSpace_fork (cfgSmall .RANDOM_REPL) stateTwoResident 0 freshZero ndZero).toOption.map
        (fun r => ((pageTableOf r.1 0).map (fun e => e.valid),
                   (pageTableOf r.1 r.2).map (fun e => e.valid)))
      = some ([false, true, true], [true, true, true]) := by
  decide

/-! ## The random policy -/

theorem add_mod_ne_self (N a d : Nat) (ha : a < N) (hd0 : 0 < d) (hd : d < N) :
    (a + d) % N ≠ a := by
  by_cases h : a + d < N
  · rw [Nat.mod_eq_of_lt h]; omega
  · rw [Nat.mod_eq_sub_mod (Nat.le_of_not_lt h), Nat.mod_eq_of_lt (by omega)]; omega

/-- C11.  Random policy with the pool full and more than one frame: for every
excluded index and every pair of results of `Random()`, the call returns, and
the frame it returns lies in `[0, NumPhysPages)` and differs from
`notToReplace`.  The results of `Random()` are not negative. -/
theorem RANDOM_REPL_avoids_excluded_frame (c : Config) (k : SystemState) (self : Nat)
    (vpn notToReplace : Int) (nd : Indet) (sp : ProcessAddrSpace)
    (halgo : c.replacementAlgo = .RANDOM_REPL)
    (hN : 1 < c.NumPhysPages)
    (hfull : k.usedPages = (c.NumPhysPages : Int))
    (hsp : k.spaces[self]? = some sp) :
    ∃ k1 f, GetNextPageToWrite c k self vpn notToReplace nd = .ok (k1, f)
      ∧ 0 ≤ f ∧ f < (c.NumPhysPages : Int) ∧ f ≠ notToReplace := by
  have hN0 : c.NumPhysPages ≠ 0 := by omega
  have hN1 : c.NumPhysPages - 1 ≠ 0 := by omega
  have hNpos : 0 < c.NumPhysPages := by omega
  rw [GetNextPageToWrite_RANDOM_REPL halgo, if_pos hfull, if_neg hN0]
  have ha : nd.r1 % c.NumPhysPages < c.NumPhysPages := Nat.mod_lt _ hNpos
  have hd : nd.r2 % (c.NumPhysPages - 1) < c.NumPhysPages - 1 := Nat.mod_lt _ (by omega)
  by_cases heq : ((nd.r1 % c.NumPhysPages : Nat) : Int) = notToReplace
  · rw [if_pos heq, if_neg hN1]
    have hne := add_mod_ne_self c.NumPhysPages (nd.r1 % c.NumPhysPages)
      (nd.r2 % (c.NumPhysPages - 1) + 1) ha (by omega) (by omega)
    rw [← Nat.add_assoc] at hne
    refine ⟨_, _, recordFrame_eq_ok _ _ _ _ _ sp (by omega) hsp, Int.ofNat_nonneg _,
      Int.ofNat_lt.mpr (Nat.mod_lt _ hNpos), ?_⟩
    rw [← heq]
    intro h
    exact hne (Int.ofNat.inj h)
  · rw [if_neg heq]
    exact ⟨_, _, recordFrame_eq_ok _ _ _ _ _ sp (by omega) hsp, Int.ofNat_nonneg _,
      Int.ofNat_lt.mpr ha, heq⟩

/-- An instance: three frames, all in use; the first result of `Random()`
selects the excluded frame 1 and the second one moves the choice to frame 0. -/
theorem RANDOM_REPL_avoids_excluded_frame_witness :
    ∃ k1 f, GetNextPageToWrite (cfgThree .RANDOM_REPL) (stateForking [false, false, false] 0)
          1 1 1 ⟨1, 4, 5⟩ = .ok (k1, f)
      ∧ 0 ≤ f ∧ f < 3 ∧ f ≠ 1 :=
  RANDOM_REPL_avoids_excluded_frame (cfgThree .RANDOM_REPL) (stateForking [false, false, false] 0)
    1 1 1 ⟨1, 4, 5⟩ childBlank rfl (by decide) rfl rfl

/-! ## Shared regions -/

theorem clockScan_length (N : Nat) (ntr : Int) :
    ∀ (fuel : Nat) (rb : List Bool) (ptr : Nat) (rb1 : List Bool) (ptr1 : Nat),
      clockScan N ntr fuel rb ptr = .ok (rb1, ptr1) → rb1.length = rb.length := by
  intro fuel
  induction fuel with
  | zero => intro rb ptr rb1 ptr1 h; simp [clockScan] at h
  | succ n ih =>
    intro rb ptr rb1 ptr1 h
    unfold clockScan at h
    split at h
    · split at h
      · cases h
      · rw [ih _ _ _ _ h, List.length_set]
    · simp only [Except.ok.injEq, Prod.mk.injEq] at h
      rw [← h.1]

theorem GetNextPageToWrite_LRU_full_ok {c : Config} {k : SystemState} {self : Nat}
    {vpn ntr : Int} {nd : Indet} {k1 : SystemState} {f : Int}
    (halgo : c.replacementAlgo = .LRU_CLOCK_REPL)
    (hfull : k.usedPages = (c.NumPhysPages : Int))
    (hrun : GetNextPageToWrite c k self vpn ntr nd = .ok (k1, f)) :
    ∃ rb ptr, clockScan c.NumPhysPages ntr (k.referenceBit.length + 1)
          k.referenceBit k.LRU_Clock_ptr = .ok (rb, ptr)
      ∧ f = (ptr : Int) ∧ c.NumPhysPages ≠ 0
      ∧ k1.referenceBit = rb.set ptr true
      ∧ k1.LRU_Clock_ptr = (ptr + 1) % c.NumPhysPages
      ∧ k1.memoryUsedBy = setAt k.memoryUsedBy (ptr : Int) k.currentPID
      ∧ k1.virtualPageNo = setAt k.virtualPageNo (ptr : Int) vpn
      ∧ k1.usedPages = k.usedPages ∧ k1.numPagesAllocated = k.numPagesAllocated := by
  rw [GetNextPageToWrite_LRU_full halgo _ _ _ _ _ hfull] at hrun
  split at hrun
  · cases hrun
  · rename_i rb ptr hcs
    split at hrun
    · cases hrun
    · rename_i k2 hev
      obtain ⟨hk2, _⟩ := evictOwner_ok hev
      obtain ⟨_, hmu2, hvp2, hrb2, hptr2, hup2, hna2, _, hpid2, _, _⟩ := hk2
      simp only at hmu2 hvp2 hpid2 hrb2 hptr2 hup2 hna2
      split_ifs at hrun with hN
      obtain ⟨hr, _, sp, _, hk1⟩ := recordFrame_ok hrun
      subst hk1
      exact ⟨rb, ptr, hcs, hr, hN, hrb2, rfl,
        by simp only [hmu2, hpid2], by simp only [hvp2], hup2, hna2⟩

theorem GetNextPageToWrite_pool {c : Config} {k : SystemState} {self : Nat}
    {vpn ntr : Int} {nd : Indet} {k1 : SystemState} {f : Int}
    (hrun : GetNextPageToWrite c k self vpn ntr nd = .ok (k1, f)) :
    k1.memoryUsedBy.length = k.memoryUsedBy.length
      ∧ k1.virtualPageNo.length = k.virtualPageNo.length
      ∧ k1.referenceBit.length = k.referenceBit.length
      ∧ (k.LRU_Clock_ptr < c.NumPhysPages → k1.LRU_Clock_ptr < c.NumPhysPages) := by
  by_cases hl : c.replacementAlgo = .LRU_CLOCK_REPL ∧ k.usedPages = (c.NumPhysPages : Int)
  · obtain ⟨rb, ptr, hcs, _, hN, hrb, hp, hmu, hvp, _, _⟩ :=
      GetNextPageToWrite_LRU_full_ok hl.1 hl.2 hrun
    refine ⟨by rw [hmu, length_setAt], by rw [hvp, length_setAt], ?_, fun _ => ?_⟩
    · rw [hrb, List.length_set, clockScan_length _ _ _ _ _ _ _ hcs]
    · rw [hp]; exact Nat.mod_lt _ (Nat.pos_of_ne_zero hN)
  · have key : ∃ kin i, recordFrame kin self vpn i f = .ok (k1, f)
        ∧ kin.memoryUsedBy = k.memoryUsedBy ∧ kin.virtualPageNo = k.virtualPageNo
        ∧ kin.referenceBit = k.referenceBit ∧ kin.LRU_Clock_ptr = k.LRU_Clock_ptr := by
      cases halgo : c.replacementAlgo with
      | NO_REPL =>
        rw [GetNextPageToWrite_NO_REPL halgo] at hrun
        split_ifs at hrun with h1 h2
        · have hr := (recordFrame_ok hrun).1
          subst hr
          exact ⟨_, _, hrun, rfl, rfl, rfl, rfl⟩
        · have hr := (recordFrame_ok hrun).1
          subst hr
          exact ⟨_, _, hrun, rfl, rfl, rfl, rfl⟩
      | RANDOM_REPL =>
        rw [GetNextPageToWrite_RANDOM_REPL halgo] at hrun
        split_ifs at hrun with h1 h2 h3 h4
        · have hr := (recordFrame_ok hrun).1
          subst hr
          exact ⟨_, _, hrun, rfl, rfl, rfl, rfl⟩
        · have hr := (recordFrame_ok hrun).1
          subst hr
          exact ⟨_, _, hrun, rfl, rfl, rfl, rfl⟩
        · have hr := (recordFrame_ok hrun).1
          rw [← hr] at hrun
          exact ⟨_, _, hrun, rfl, rfl, rfl, rfl⟩
      | LRU_CLOCK_REPL =>
        have hfree : k.usedPages ≠ (c.NumPhysPages : Int) := fun h => hl ⟨halgo, h⟩
        rw [GetNextPageToWrite_LRU_free halgo _ _ _ _ _ hfree] at hrun
        have hr := (recordFrame_ok hrun).1
        rw [← hr] at hrun
        exact ⟨_, _, hrun, rfl, rfl, rfl, rfl⟩
    obtain ⟨kin, i, hrec, hmu, hvp, hrb, hp⟩ := key
    obtain ⟨_, _, sp, _, hk1⟩ := recordFrame_ok hrec
    subst hk1
    refine ⟨by simp only [length_setAt, hmu], by simp only [length_setAt, hvp], by simp only [hrb],
      fun h => by simp only [hp]; exact h⟩

theorem getD_bzero_zero (m : List Nat) (off n a : Nat) (h : m.getD a 0 = 0) :
    (bzero m off n).getD a 0 = 0 := by
  unfold bzero
  by_cases ha : a < m.length
  · rw [getD_writeBytes _ _ _ _ ha]
    split_ifs
    · simp only [List.getD_eq_getElem?_getD, List.getElem?_replicate]
      split_ifs <;> rfl
    · exact h
  · exact getD_writeBytes_out _ _ _ _ (Nat.le_of_not_lt ha)

theorem frame_in_memory (N PS : Nat) (f : Int) (h0 : 0 ≤ f) (h1 : f < (N : Int)) :
    f.toNat * PS + PS ≤ N * PS := by
  have : f.toNat + 1 ≤ N := by omega
  have := Nat.mul_le_mul_right PS this
  rw [Nat.add_mul, Nat.one_mul] at this
  exact this

theorem addSharedPages_spec (c : Config) (self : Nat) (nd : Nat → Indet)
    (hmem32 : c.NumPhysPages * c.PageSize ≤ 4294967296) :
    ∀ (l : List Nat) (st : SystemState × List TranslationEntry)
      (k1 : SystemState) (T1 : List TranslationEntry),
      addSharedPages c self nd l st = .ok (k1, T1) →
      st.1.mainMemory.length = c.NumPhysPages * c.PageSize →
      st.1.memoryUsedBy.length = c.NumPhysPages →
      st.1.virtualPageNo.length = c.NumPhysPages →
      st.1.LRU_Clock_ptr < c.NumPhysPages →
      l.Nodup →
      T1.length = st.2.length
      ∧ (∀ j, j ∉ l → T1[j]? = st.2[j]?)
      ∧ (∀ j, j ∈ l → j < st.2.length →
          ∃ f, T1[j]? = some (sharedEntry j f) ∧ 0 ≤ f ∧ f < (c.NumPhysPages : Int)
            ∧ ∀ b, b < c.PageSize → k1.mainMemory.getD (f.toNat * c.PageSize + b) 0 = 0)
      ∧ (∀ a, st.1.mainMemory.getD a 0 = 0 → k1.mainMemory.getD a 0 = 0)
      ∧ (∀ sp, st.1.spaces[self]? = some sp →
          ∃ sp1, k1.spaces[self]? = some sp1 ∧ sp1.numPagesInVM = sp.numPagesInVM
            ∧ sp1.swapMemory.length = sp.swapMemory.length
            ∧ sp1.noffH = sp.noffH ∧ sp1.fileName = sp.fileName) := by
  intro l
  induction l with
  | nil =>
    intro st k1 T1 h _ _ _ _ _
    simp only [addSharedPages, Except.ok.injEq] at h
    subst h
    exact ⟨rfl, fun _ _ => rfl, fun j hj => absurd hj (List.not_mem_nil j), fun _ h => h,
      fun sp hsp => ⟨sp, hsp, rfl, rfl, rfl, rfl⟩⟩
  | cons i rest ih =>
    intro st k1 T1 h hmem hmu hvp hptr hnd
    unfold addSharedPages at h
    split at h
    · cases h
    · rename_i kA f hgnp
      obtain ⟨_, _, _, hf0, hf1, _⟩ :=
        GetNextPageToWrite_frame c st.1 self _ _ _ kA f hmu hvp hptr hgnp
      have hmemA : kA.mainMemory = st.1.mainMemory := (GetNextPageToWrite_globals hgnp).1
      obtain ⟨pmu, pvp, _, pptr⟩ := GetNextPageToWrite_pool hgnp
      have hfin := frame_in_memory c.NumPhysPages c.PageSize f hf0 hf1
      have hfa : frameAddr c f = f.toNat * c.PageSize := by
        apply frameAddr_eq c f hf0
        rcases Nat.eq_zero_or_pos c.PageSize with hz | hz
        · rw [hz]; simp
        · omega
      obtain ⟨hi, hrest⟩ := List.nodup_cons.mp hnd
      obtain ⟨r1, r2, r3, r4, r5⟩ := ih _ k1 T1 h
        (by show (bzero _ _ _).length = _; rw [length_bzero, hmemA]; exact hmem)
        (by show kA.memoryUsedBy.length = _; rw [pmu]; exact hmu)
        (by show kA.virtualPageNo.length = _; rw [pvp]; exact hvp)
        (pptr hptr) hrest
      simp only [List.length_set] at r1 r3
      refine ⟨r1, ?_, ?_, ?_, ?_⟩
      · intro j hj
        rw [r2 j (fun hm => hj (List.mem_cons_of_mem _ hm)), List.getElem?_set]
        rw [if_neg (fun e => hj (by rw [e]; exact List.mem_cons_self _ _))]
      · intro j hj hlt
        rcases List.mem_cons.mp hj with he | hm
        · subst he
          refine ⟨f, ?_, hf0, hf1, ?_⟩
          · rw [r2 j hi, List.getElem?_set]
            simp [hlt]
          · intro b hb
            apply r4
            show (bzero kA.mainMemory (frameAddr c f) c.PageSize).getD _ 0 = 0
            rw [hfa]
            exact getD_bzero_in _ _ _ _ hb (by rw [hmemA, hmem]; omega)
        · exact r3 j hm hlt
      · intro a ha
        apply r4
        show (bzero kA.mainMemory (frameAddr c f) c.PageSize).getD _ 0 = 0
        exact getD_bzero_zero _ _ _ _ (by rw [hmemA]; exact ha)
      · intro sp hsp
        obtain ⟨spA, hspA, hst⟩ := GetNextPageToWrite_stable hgnp self sp hsp
        obtain ⟨sp1, h1, h2, h3, h4, h5⟩ := r5 spA hspA
        exact ⟨sp1, h1, by rw [h2, hst.1], by rw [h3, hst.2.2.2.2.1],
          by rw [h4, hst.2.1], by rw [h5, hst.2.2.1]⟩


theorem addSharedPages_no_spin (c : Config) (self : Nat) (nd : Nat → Indet) :
    ∀ (l : List Nat) (st : SystemState × List TranslationEntry),
      addSharedPages c self nd l st ≠ .error .spin := by
  intro l
  induction l with
  | nil => intro st h; simp [addSharedPages] at h
  | cons i rest ih =>
    intro st
    unfold addSharedPages
    split
    · rename_i f hgnp
      intro h
      simp only [Except.error.injEq] at h
      subst h
      exact GetNextPageToWrite_no_spin _ _ _ _ _ _ hgnp
    · exact ih _

theorem addSharedPages_NO_REPL_returns (c : Config) (hc : c.replacementAlgo = .NO_REPL)
    (self : Nat) (nd : Nat → Indet) :
    ∀ (l : List Nat) (st : SystemState × List TranslationEntry),
      self < st.1.spaces.length →
      st.1.usedPages = (st.1.numPagesAllocated : Int) →
      st.1.numPagesAllocated + l.length ≤ c.NumPhysPages →
      ∃ r, addSharedPages c self nd l st = .ok r := by
  intro l
  induction l with
  | nil => intro st _ _ _; exact ⟨st, rfl⟩
  | cons i rest ih =>
    intro st hself hu hroom
    simp only [List.length_cons] at hroom
    obtain ⟨kA, hk, hn, hu1, hs⟩ := GetNextPageToWrite_NO_REPL_step c hc st.1 self (i : Int) (-1)
      (nd i) hself (by omega) hu
    unfold addSharedPages
    simp only [hk]
    apply ih
    · show self < kA.spaces.length
      rw [hs]; exact hself
    · show kA.usedPages = (kA.numPagesAllocated : Int)
      rw [hu1, hn, hu]; push_cast; rfl
    · show kA.numPagesAllocated + rest.length ≤ c.NumPhysPages
      rw [hn]; omega

theorem AddSharedSpace_spec (c : Config) (k : SystemState) (self : Nat) (SharedSpaceSize : Nat)
    (fresh : Nat → TranslationEntry) (nd : Nat → Indet) (sp : ProcessAddrSpace)
    (k1 : SystemState) (ret : Nat)
    (hsp : k.spaces[self]? = some sp)
    (hnum : sp.NachOSpageTable.length = sp.numPagesInVM)
    (hfit : sp.numPagesInVM * c.PageSize < 2147483648)
    (hmem : k.mainMemory.length = c.NumPhysPages * c.PageSize)
    (hmem32 : c.NumPhysPages * c.PageSize ≤ 4294967296)
    (hmu : k.memoryUsedBy.length = c.NumPhysPages)
    (hvp : k.virtualPageNo.length = c.NumPhysPages)
    (hptr : k.LRU_Clock_ptr < c.NumPhysPages)
    (hrun : AddSharedSpace c k self SharedSpaceSize fresh nd = .ok (k1, ret)) :
    ret = sp.numPagesInVM * c.PageSize
      ∧ ∃ sp1, k1.spaces[self]? = some sp1
        ∧ sp1.numPagesInVM
            = sp.numPagesInVM + (SharedSpaceSize + c.PageSize - 1) / c.PageSize
        ∧ sp1.NachOSpageTable.length = sp1.numPagesInVM
        ∧ (∀ i, i < sp.numPagesInVM → sp1.NachOSpageTable[i]? = sp.NachOSpageTable[i]?)
        ∧ (∀ i, sp.numPagesInVM ≤ i → i < sp1.numPagesInVM →
            ∃ f, sp1.NachOSpageTable[i]? = some
                  { virtualPage := (i : Int), physicalPage := f, valid := true, use := false,
                    dirty := false, shared := true, ifUsed := true, readOnly := false }
              ∧ 0 ≤ f ∧ f < (c.NumPhysPages : Int)
              ∧ (frameBytes c k1 f).length = c.PageSize
              ∧ ∀ b, b < c.PageSize → (frameBytes c k1 f).getD b 0 = 0) := by
  unfold AddSharedSpace at hrun
  simp only [hsp] at hrun
  split_ifs at hrun with hps0
  have hps : 0 < c.PageSize := Nat.pos_of_ne_zero hps0
  split at hrun
  · cases hrun
  · rename_i kB table hloop
    obtain ⟨r1, r2, r3, r4, r5⟩ := addSharedPages_spec c self nd hmem32 _ _ kB table hloop
      hmem hmu hvp hptr (List.nodup_range' _ _)
    obtain ⟨spB, hspB, hnB, _⟩ := r5 sp hsp
    simp only [hspB, Except.ok.injEq, Prod.mk.injEq] at hrun
    obtain ⟨hk1, hret⟩ := hrun
    subst hk1
    simp only [List.length_map, List.length_range] at r1 r3
    refine ⟨?_, _, getElem?_set_self_of_some _ _ _ _ hspB, ?_, ?_, ?_, ?_⟩
    · rw [← hret, hnB, Nat.add_sub_cancel]
      exact u32_of_lt _ (by omega)
    · show spB.numPagesInVM + _ = _
      rw [hnB, divRoundUp_eq _ _ hps]
    · show table.length = spB.numPagesInVM + _
      rw [r1, hnB]
    · intro i hi
      show table[i]? = _
      rw [r2 i (by simp only [List.mem_range'_1]; omega)]
      have hi2 : i < sp.NachOSpageTable.length := by rw [hnum]; exact hi
      simp only [List.getElem?_map, List.getElem?_range, List.getD_eq_getElem?_getD]
      rw [List.getElem?_eq_getElem hi2]
      simp only [Option.map_eq_some', Option.some.injEq]
      refine ⟨i, List.getElem?_range (by omega), ?_⟩
      rw [if_pos hi, List.getElem?_eq_getElem hi2]
      rfl
    · intro i hlo hhi
      have hhi2 : i < sp.numPagesInVM + divRoundUp SharedSpaceSize c.PageSize := by
        have : spB.numPagesInVM + divRoundUp SharedSpaceSize c.PageSize
            = sp.numPagesInVM + divRoundUp SharedSpaceSize c.PageSize := by rw [hnB]
        exact this ▸ hhi
      obtain ⟨f, h1, h2, h3, h4⟩ := r3 i (by simp only [List.mem_range'_1]; omega) hhi2
      have hfin := frame_in_memory c.NumPhysPages c.PageSize f h2 h3
      have hfa : frameAddr c f = f.toNat * c.PageSize := frameAddr_eq c f h2 (by omega)
      refine ⟨f, h1, h2, h3, length_readBytes _ _ _, fun b hb => ?_⟩
      unfold frameBytes
      rw [getD_readBytes _ _ _ _ hb, hfa]
      exact h4 b hb


theorem AddSharedSpace_no_spin (c : Config) (k : SystemState) (self : Nat)
    (SharedSpaceSize : Nat) (fresh : Nat → TranslationEntry) (nd : Nat → Indet) :
    AddSharedSpace c k self SharedSpaceSize fresh nd ≠ .error .spin := by
  unfold AddSharedSpace
  split
  · intro h; cases h
  · split_ifs
    · intro h; cases h
    · simp only
      split
      · rename_i f hloop
        intro h
        simp only [Except.error.injEq] at h
        subst h
        exact addSharedPages_no_spin _ _ _ _ _ hloop
      · split <;> intro h <;> cases h

theorem AddSharedSpace_NO_REPL_returns (c : Config) (k : SystemState) (self : Nat)
    (SharedSpaceSize : Nat) (fresh : Nat → TranslationEntry) (nd : Nat → Indet)
    (sp : ProcessAddrSpace)
    (hsp : k.spaces[self]? = some sp)
    (hmem : k.mainMemory.length = c.NumPhysPages * c.PageSize)
    (hmem32 : c.NumPhysPages * c.PageSize ≤ 4294967296)
    (hmu : k.memoryUsedBy.length = c.NumPhysPages)
    (hvp : k.virtualPageNo.length = c.NumPhysPages)
    (hptr : k.LRU_Clock_ptr < c.NumPhysPages)
    (hc : c.replacementAlgo = .NO_REPL) (hps : 0 < c.PageSize)
    (hu : k.usedPages = (k.numPagesAllocated : Int))
    (hroom : k.numPagesAllocated + (SharedSpaceSize + c.PageSize - 1) / c.PageSize
              ≤ c.NumPhysPages) :
    ∃ k1 ret, AddSharedSpace c k self SharedSpaceSize fresh nd = .ok (k1, ret) := by
  have hlt : self < k.spaces.length := by
    by_contra hcon
    rw [List.getElem?_eq_none (Nat.le_of_not_lt hcon)] at hsp
    cases hsp
  obtain ⟨⟨kB, table⟩, hloop⟩ := addSharedPages_NO_REPL_returns c hc self nd
    (List.range' sp.numPagesInVM (divRoundUp SharedSpaceSize c.PageSize))
    (k, (List.range (sp.numPagesInVM + divRoundUp SharedSpaceSize c.PageSize)).map
          (fun i => if i < sp.numPagesInVM then sp.NachOSpageTable.getD i default else fresh i))
    hlt hu (by rw [List.length_range', divRoundUp_eq _ _ hps]; exact hroom)
  obtain ⟨_, _, _, _, r5⟩ := addSharedPages_spec c self nd hmem32 _ _ kB table hloop
    hmem hmu hvp hptr (List.nodup_range' _ _)
  obtain ⟨spB, hspB, _⟩ := r5 sp hsp
  unfold AddSharedSpace
  simp only [hsp, Nat.ne_of_gt hps, if_false, hloop, hspB]
  exact ⟨_, _, rfl⟩

/-- C13.  `AddSharedSpace(size)` on an address space of `n` pages: every run
that returns gives back `n * PageSize`, leaves the object with
`n + ceil(size / PageSize)` pages and a page table of that length whose entries
`0 .. n-1` are the entries the table had at the call, and whose every new entry
`i ≥ n` has `virtualPage = i`, `shared`, `valid` and `ifUsed` set, `dirty`,
`use` and `readOnly` clear, and a frame of the pool whose `PageSize` bytes are
all zero on return.  The run never stops for lack of steps of the clock scan,
and under `NO_REPL` it returns when the pool has room for the new pages.  The
page table has `n` entries at the call, `n * PageSize` fits an `int`, main
memory and the frame pool arrays have `NumPhysPages` frames. -/
theorem AddSharedSpace_appends_zeroed_shared_pages (c : Config) (k : SystemState) (self : Nat)
    (SharedSpaceSize : Nat) (fresh : Nat → TranslationEntry) (nd : Nat → Indet)
    (sp : ProcessAddrSpace)
    (hsp : k.spaces[self]? = some sp)
    (hnum : sp.NachOSpageTable.length = sp.numPagesInVM)
    (hfit : sp.numPagesInVM * c.PageSize < 2147483648)
    (hmem : k.mainMemory.length = c.NumPhysPages * c.PageSize)
    (hmem32 : c.NumPhysPages * c.PageSize ≤ 4294967296)
    (hmu : k.memoryUsedBy.length = c.NumPhysPages)
    (hvp : k.virtualPageNo.length = c.NumPhysPages)
    (hptr : k.LRU_Clock_ptr < c.NumPhysPages) :
    (∀ k1 ret, AddSharedSpace c k self SharedSpaceSize fresh nd = .ok (k1, ret) →
      ret = sp.numPagesInVM * c.PageSize
        ∧ ∃ sp1, k1.spaces[self]? = some sp1
          ∧ sp1.numPagesInVM
              = sp.numPagesInVM + (SharedSpaceSize + c.PageSize - 1) / c.PageSize
          ∧ sp1.NachOSpageTable.length = sp1.numPagesInVM
          ∧ (∀ i, i < sp.numPagesInVM → sp1.NachOSpageTable[i]? = sp.NachOSpageTable[i]?)
          ∧ (∀ i, sp.numPagesInVM ≤ i → i < sp1.numPagesInVM →
              ∃ f, sp1.NachOSpageTable[i]? = some
                    { virtualPage := (i : Int), physicalPage := f, valid := true, use := false,
                      dirty := false, shared := true, ifUsed := true, readOnly := false }
                ∧ 0 ≤ f ∧ f < (c.NumPhysPages : Int)
                ∧ (frameBytes c k1 f).length = c.PageSize
                ∧ ∀ b, b < c.PageSize → (frameBytes c k1 f).getD b 0 = 0))
      ∧ AddSharedSpace c k self SharedSpaceSize fresh nd ≠ .error .spin
      ∧ (c.replacementAlgo = .NO_REPL → 0 < c.PageSize →
          k.usedPages = (k.numPagesAllocated : Int) →
          k.numPagesAllocated + (SharedSpaceSize + c.PageSize - 1) / c.PageSize
            ≤ c.NumPhysPages →
          ∃ k1 ret, AddSharedSpace c k self SharedSpaceSize fresh nd = .ok (k1, ret)) :=
  ⟨fun k1 ret hrun =>
    AddSharedSpace_spec c k self SharedSpaceSize fresh nd sp k1 ret hsp hnum hfit hmem hmem32
      hmu hvp hptr hrun,
   AddSharedSpace_no_spin c k self SharedSpaceSize fresh nd,
   fun hc hps hu hroom =>
    AddSharedSpace_NO_REPL_returns c k self SharedSpaceSize fresh nd sp hsp hmem hmem32 hmu hvp
      hptr hc hps hu hroom⟩

/-- An instance: a shared region of six bytes added to the three pages of `prog`
on the machine of four frames of four bytes adds two pages and returns 12. -/
theorem AddSharedSpace_appends_zeroed_shared_pages_witness :
    ∃ k1 ret, AddSharedSpace (cfgSmall .NO_REPL) loadedState 0 6 freshZero (fun _ => ⟨0, 0, 0⟩)
        = .ok (k1, ret)
      ∧ ret = 12
      ∧ ∃ sp1, k1.spaces[0]? = some sp1 ∧ sp1.numPagesInVM = 5
          ∧ sp1.NachOSpageTable.length = 5 :=
  have h := AddSharedSpace_appends_zeroed_shared_pages (cfgSmall .NO_REPL) loadedState 0 6
    freshZero (fun _ => ⟨0, 0, 0⟩) spaceSmall rfl rfl (by decide) rfl (by decide) rfl rfl
    (by decide)
  match h.2.2 rfl (by decide) rfl (by decide) with
  | ⟨k1, ret, hrun⟩ =>
    match h.1 k1 ret hrun with
    | ⟨h1, sp1, h2, h3, h4, _⟩ => ⟨k1, ret, hrun, h1, sp1, h2, h3, h4.trans h3⟩

/-! ## Saving a page to the swap array -/

/-- C14.  `SaveToSwap(vpn)` on a page of the table.  When the entry is valid
the call returns; if the entry is dirty the `PageSize` bytes of `swapMemory` at
offset `vpn * PageSize` are then the bytes of the frame of the page and the
other bytes of `swapMemory` are as before, and if it is not dirty `swapMemory`
is unchanged; the entry ends with `valid = false`, `physicalPage = -1` and
`dirty = false`, its other fields as before; every other entry of the page
table, the other data of the object, every other address space, main memory,
the frame pool arrays and the other process-wide variables are unchanged.  When
the entry is not valid the call stops at the assertion, before any store.  The
swap array covers the slot of the page. -/
theorem SaveToSwap_frame_effect (c : Config) (k : SystemState) (self vpn : Nat)
    (sp : ProcessAddrSpace)
    (hsp : k.spaces[self]? = some sp)
    (hvpn : vpn < sp.NachOSpageTable.length)
    (hswap : (vpn + 1) * c.PageSize ≤ sp.swapMemory.length) :
    ((sp.NachOSpageTable.getD vpn default).valid = true →
      ∃ k1 sp1, SaveToSwap c k self (vpn : Int) = .ok k1
        ∧ k1.spaces[self]? = some sp1
        ∧ ((sp.NachOSpageTable.getD vpn default).dirty = true →
            readBytes sp1.swapMemory (vpn * c.PageSize) c.PageSize
                = frameBytes c k (sp.NachOSpageTable.getD vpn default).physicalPage
              ∧ sp1.swapMemory.length = sp.swapMemory.length
              ∧ ∀ a, ¬ (vpn * c.PageSize ≤ a ∧ a < vpn * c.PageSize + c.PageSize) →
                  sp1.swapMemory.getD a 0 = sp.swapMemory.getD a 0)
        ∧ ((sp.NachOSpageTable.getD vpn default).dirty = false →
            sp1.swapMemory = sp.swapMemory)
        ∧ sp1.NachOSpageTable[vpn]? = some
            { sp.NachOSpageTable.getD vpn default with
                valid := false, physicalPage := -1, dirty := false }
        ∧ sp1.NachOSpageTable.length = sp.NachOSpageTable.length
        ∧ (∀ j, j ≠ vpn → sp1.NachOSpageTable[j]? = sp.NachOSpageTable[j]?)
        ∧ sp1.numPagesInVM = sp.numPagesInVM ∧ sp1.noffH = sp.noffH
        ∧ sp1.fileName = sp.fileName
        ∧ (∀ s, s ≠ self → k1.spaces[s]? = k.spaces[s]?)
        ∧ sameGlobals k k1)
      ∧ ((sp.NachOSpageTable.getD vpn default).valid = false →
          SaveToSwap c k self (vpn : Int) = .error .assertion) := by
  constructor
  · intro hvalid
    have hrun : SaveToSwap c k self (vpn : Int)
        = .ok { k with spaces := k.spaces.set self (swapOut c k.mainMemory sp (vpn : Int)) } := by
      unfold SaveToSwap
      simp only [hsp, getAt_natCast, hvalid, Bool.true_eq_false, if_false]
    have hoff : Int.toNat ((vpn : Int) * (c.PageSize : Int)) = vpn * c.PageSize := by
      rw [toNat_mul_natCast _ _ (Int.ofNat_nonneg _), Int.toNat_ofNat]
    have hslot : vpn * c.PageSize + c.PageSize ≤ sp.swapMemory.length := by
      rw [Nat.add_mul, Nat.one_mul] at hswap
      exact hswap
    refine ⟨_, _, hrun, getElem?_set_self_of_some _ _ _ _ hsp, ?_, ?_, ?_, ?_, ?_, rfl, rfl, rfl,
      ?_, ⟨rfl, rfl, rfl, rfl, rfl, rfl, rfl, rfl, rfl, rfl, rfl⟩⟩
    · intro hdirty
      simp only [swapOut, getAt_natCast, hdirty, if_true, hoff]
      refine ⟨?_, length_memcpy _ _ _ _ _, ?_⟩
      · unfold frameBytes
        apply readBytes_congr
        intro j hj
        rw [getD_memcpy_in _ _ _ _ _ _ hj (by omega)]
      · intro a ha
        unfold memcpy
        by_cases hlen : a < sp.swapMemory.length
        · rw [getD_writeBytes _ _ _ _ hlen, length_readBytes, if_neg ha]
        · rw [getD_writeBytes_out _ _ _ _ (Nat.le_of_not_lt hlen), List.getD_eq_getElem?_getD,
            List.getElem?_eq_none (Nat.le_of_not_lt hlen)]
          rfl
    · intro hclean
      simp only [swapOut, getAt_natCast, hclean, Bool.false_eq_true, if_false]
    · simp only [swapOut, getAt_natCast, setAt, Int.ofNat_nonneg, if_true, Int.toNat_ofNat,
        List.getElem?_set, hvpn]
      split_ifs with hd
      · rfl
      · have : (sp.NachOSpageTable.getD vpn default).dirty = false := by simpa using hd
        simp only [Option.some.injEq]
        cases hE : sp.NachOSpageTable.getD vpn default
        rw [hE] at this
        simp only at this
        subst this
        rfl
    · simp [swapOut, length_setAt]
    · intro j hj
      simp only [swapOut, getAt_natCast, setAt, Int.ofNat_nonneg, if_true, Int.toNat_ofNat,
        List.getElem?_set]
      rw [if_neg (fun e => hj e.symm)]
    · intro s hs
      simp only [List.getElem?_set]
      rw [if_neg (fun e => hs e.symm)]
  · intro hinvalid
    unfold SaveToSwap
    simp only [hsp, getAt_natCast, hinvalid, if_true]

/-- An instance: page 1 of the resident example, dirty in frame 2, is saved. -/
theorem SaveToSwap_frame_effect_witness :
    ∃ k1 sp1, SaveToSwap (cfgSmall .NO_REPL) residentState 0 1 = .ok k1
      ∧ k1.spaces[0]? = some sp1
      ∧ readBytes sp1.swapMemory 4 4 = [21, 22, 23, 24]
      ∧ k1.mainMemory = residentState.mainMemory :=
  match (SaveToSwap_frame_effect (cfgSmall .NO_REPL) residentState 0 1 spaceResident rfl
      (by decide) (by decide)).1 rfl with
  | ⟨k1, sp1, h1, h2, h3, _, _, _, _, _, _, _, _, h12⟩ =>
    ⟨k1, sp1, h1, h2, (h3 rfl).1.trans (by decide), h12.1⟩

/-! ## The clock policy -/

theorem getD_set_ne (l : List Bool) (p q : Nat) (v : Bool) (h : p ≠ q) :
    (l.set p v).getD q false = l.getD q false := by
  simp only [List.getD_eq_getElem?_getD, List.getElem?_set]
  rw [if_neg h]

theorem getD_set_false (l : List Bool) (p j : Nat) (h : l.getD j false = false) :
    (l.set p false).getD j false = false := by
  simp only [List.getD_eq_getElem?_getD, List.getElem?_set] at h ⊢
  split_ifs
  · rfl
  · rfl
  · exact h

theorem clockScan_clears (N : Nat) (ntr : Int) :
    ∀ (fuel : Nat) (rb : List Bool) (ptr : Nat) (rb1 : List Bool) (v : Nat),
      clockScan N ntr fuel rb ptr = .ok (rb1, v) →
      ∀ j, rb.getD j false = false → rb1.getD j false = false := by
  intro fuel
  induction fuel with
  | zero => intro rb ptr rb1 v h; simp [clockScan] at h
  | succ n ih =>
    intro rb ptr rb1 v h j hj
    unfold clockScan at h
    split at h
    · split at h
      · cases h
      · exact ih _ _ _ _ h j (getD_set_false _ _ _ hj)
    · simp only [Except.ok.injEq, Prod.mk.injEq] at h
      rw [← h.1]; exact hj

theorem clockScan_victim_clear (N : Nat) (ntr : Int) :
    ∀ (fuel : Nat) (rb : List Bool) (ptr : Nat) (rb1 : List Bool) (v : Nat),
      clockScan N ntr fuel rb ptr = .ok (rb1, v) → rb1.getD v false = false := by
  intro fuel
  induction fuel with
  | zero => intro rb ptr rb1 v h; simp [clockScan] at h
  | succ n ih =>
    intro rb ptr rb1 v h
    unfold clockScan at h
    split at h
    · split at h
      · cases h
      · exact ih _ _ _ _ h
    · rename_i hbit
      simp only [Except.ok.injEq, Prod.mk.injEq] at h
      rw [← h.1, ← h.2]
      simpa using hbit

theorem clockPassed_cleared (N : Nat) (ntr : Int) :
    ∀ (fuel : Nat) (rb : List Bool) (ptr : Nat) (rb1 : List Bool) (v : Nat),
      clockScan N ntr fuel rb ptr = .ok (rb1, v) →
      ∀ j, j ∈ clockPassed N ntr fuel rb ptr → rb1.getD j false = false := by
  intro fuel
  induction fuel with
  | zero => intro rb ptr rb1 v h; simp [clockScan] at h
  | succ n ih =>
    intro rb ptr rb1 v h j hj
    unfold clockScan at h
    unfold clockPassed at hj
    split at h
    · rename_i hbit
      rw [if_pos hbit] at hj
      split at h
      · cases h
      · rename_i hN
        rw [if_neg hN] at hj
        rcases List.mem_cons.mp hj with he | hm
        · subst he
          apply clockScan_clears _ _ _ _ _ _ _ h
          simp only [List.getD_eq_getElem?_getD, List.getElem?_set]
          split_ifs <;> rfl
        · exact ih _ _ _ _ h j hm
    · rename_i hbit
      rw [if_neg hbit] at hj
      exact absurd hj (List.not_mem_nil j)

theorem clockPassed_others (N : Nat) (ntr : Int) :
    ∀ (fuel : Nat) (rb : List Bool) (ptr : Nat) (rb1 : List Bool) (v : Nat),
      clockScan N ntr fuel rb ptr = .ok (rb1, v) →
      ∀ j, j ∉ clockPassed N ntr fuel rb ptr → rb1.getD j false = rb.getD j false := by
  intro fuel
  induction fuel with
  | zero => intro rb ptr rb1 v h; simp [clockScan] at h
  | succ n ih =>
    intro rb ptr rb1 v h j hj
    unfold clockScan at h
    unfold clockPassed at hj
    split at h
    · rename_i hbit
      rw [if_pos hbit] at hj
      split at h
      · cases h
      · rename_i hN
        rw [if_neg hN] at hj
        rw [ih _ _ _ _ h j (fun hm => hj (List.mem_cons_of_mem _ hm))]
        exact getD_set_ne _ _ _ _ (fun e => hj (by rw [← e]; exact List.mem_cons_self _ _))
    · simp only [Except.ok.injEq, Prod.mk.injEq] at h
      rw [← h.1]

theorem clockScan_first_clear (N : Nat) (ntr : Int) (orig : List Bool) (c0 : Nat)
    (hc0 : orig.getD c0 false = false) (hne : (c0 : Int) ≠ ntr) :
    ∀ (fuel d : Nat) (rb : List Bool) (p : Nat) (rb1 : List Bool) (v : Nat),
      clockScan N ntr fuel rb p = .ok (rb1, v) →
      p < N → d < N → (p + d) % N = c0 →
      (∀ e, e ≤ d → rb.getD ((p + e) % N) false = orig.getD ((p + e) % N) false) →
      orig.getD v false = false
        ∧ ∀ j, j ∈ clockPassed N ntr fuel rb p → orig.getD j false = true := by
  intro fuel
  induction fuel with
  | zero => intro d rb p rb1 v h; simp [clockScan] at h
  | succ n ih =>
    intro d rb p rb1 v h hp hd hreach hagree
    have hp0 : (p + 0) % N = p := by rw [Nat.add_zero]; exact Nat.mod_eq_of_lt hp
    have hrbp : rb.getD p false = orig.getD p false := by
      have := hagree 0 (Nat.zero_le _)
      rwa [hp0] at this
    unfold clockScan at h
    unfold clockPassed
    split at h
    · rename_i hbit
      rw [if_pos hbit]
      split at h
      · cases h
      · rename_i hN
        rw [if_neg hN]
        have hpc : p ≠ c0 := by
          intro e
          rw [e] at hrbp hbit
          rw [hrbp, hc0] at hbit
          exact absurd hbit (by decide)
        have hd1 : 1 ≤ d := by
          rcases Nat.eq_zero_or_pos d with hz | hz
          · rw [hz, hp0] at hreach; exact absurd hreach hpc
          · exact hz
        by_cases hskip : (((p + 1) % N : Nat) : Int) = ntr
        · simp only [hskip, if_true] at h ⊢
          have hp1c : (p + 1) % N ≠ c0 := by
            intro e
            rw [e] at hskip
            exact hne hskip
          have hd2 : 2 ≤ d := by
            rcases Nat.lt_or_ge d 2 with hlt | hge
            · have : d = 1 := by omega
              rw [this] at hreach
              exact absurd hreach hp1c
            · exact hge
          have hidx : ∀ e, (((p + 1) % N + 1) % N + e) % N = (p + (e + 2)) % N := by
            intro e
            rw [Nat.mod_add_mod, Nat.add_assoc, Nat.mod_add_mod]
            congr 1; omega
          obtain ⟨r1, r2⟩ := ih (d - 2) _ _ rb1 v h (Nat.mod_lt _ (Nat.pos_of_ne_zero hN))
            (by omega)
            (by rw [hidx, ← hreach]; congr 1; omega)
            (by
              intro e he
              rw [hidx, getD_set_ne _ _ _ _
                (fun hcon => add_mod_ne_self N p (e + 2) hp (by omega) (by omega) hcon.symm)]
              exact hagree (e + 2) (by omega))
          refine ⟨r1, fun j hj => ?_⟩
          rcases List.mem_cons.mp hj with he | hm
          · rw [he, ← hrbp]; exact hbit
          · exact r2 j hm
        · simp only [hskip, if_false] at h ⊢
          have hidx : ∀ e, ((p + 1) % N + e) % N = (p + (e + 1)) % N := by
            intro e
            rw [Nat.mod_add_mod]
            congr 1; omega
          obtain ⟨r1, r2⟩ := ih (d - 1) _ _ rb1 v h (Nat.mod_lt _ (Nat.pos_of_ne_zero hN))
            (by omega)
            (by rw [hidx, ← hreach]; congr 1; omega)
            (by
              intro e he
              rw [hidx, getD_set_ne _ _ _ _
                (fun hcon => add_mod_ne_self N p (e + 1) hp (by omega) (by omega) hcon.symm)]
              exact hagree (e + 1) (by omega))
          refine ⟨r1, fun j hj => ?_⟩
          rcases List.mem_cons.mp hj with he | hm
          · rw [he, ← hrbp]; exact hbit
          · exact r2 j hm
    · rename_i hbit
      rw [if_neg hbit]
      simp only [Except.ok.injEq, Prod.mk.injEq] at h
      refine ⟨?_, fun j hj => absurd hj (List.not_mem_nil j)⟩
      rw [← h.2, ← hrbp]
      simpa using hbit


theorem reach_exists (N p j : Nat) (hp : p < N) (hj : j < N) :
    ∃ d, d < N ∧ (p + d) % N = j := by
  by_cases h : p ≤ j
  · exact ⟨j - p, by omega, by rw [Nat.add_sub_cancel' h]; exact Nat.mod_eq_of_lt hj⟩
  · refine ⟨j + N - p, by omega, ?_⟩
    have : p + (j + N - p) = j + N := by omega
    rw [this, Nat.add_mod_right]
    exact Nat.mod_eq_of_lt hj

theorem clock_victim_had_clear_bit (c : Config) (k : SystemState) (self : Nat)
    (vpn notToReplace : Int) (nd : Indet) (k1 : SystemState) (f : Int)
    (halgo : c.replacementAlgo = .LRU_CLOCK_REPL)
    (hfull : k.usedPages = (c.NumPhysPages : Int))
    (hlen : k.referenceBit.length = c.NumPhysPages)
    (hptr : k.LRU_Clock_ptr < c.NumPhysPages)
    (hclear : ∃ j, j < c.NumPhysPages ∧ (j : Int) ≠ notToReplace
                ∧ k.referenceBit.getD j false = false)
    (hrun : GetNextPageToWrite c k self vpn notToReplace nd = .ok (k1, f)) :
    ∃ v : Nat, f = (v : Int) ∧ v < c.NumPhysPages
      ∧ k.referenceBit.getD v false = false
      ∧ k1.referenceBit.getD v false = true
      ∧ k1.LRU_Clock_ptr = (v + 1) % c.NumPhysPages
      ∧ (∀ j, j ∈ clockPassed c.NumPhysPages notToReplace (k.referenceBit.length + 1)
                    k.referenceBit k.LRU_Clock_ptr →
            k.referenceBit.getD j false = true ∧ k1.referenceBit.getD j false = false)
      ∧ (∀ j, j ∉ clockPassed c.NumPhysPages notToReplace (k.referenceBit.length + 1)
                    k.referenceBit k.LRU_Clock_ptr →
            j ≠ v → k1.referenceBit.getD j false = k.referenceBit.getD j false) := by
  obtain ⟨rb, v, hcs, hf, hN, hrb, hp, _⟩ := GetNextPageToWrite_LRU_full_ok halgo hfull hrun
  obtain ⟨j0, hj0, hjne, hjc⟩ := hclear
  obtain ⟨d, hd, hreach⟩ := reach_exists c.NumPhysPages k.LRU_Clock_ptr j0 hptr hj0
  obtain ⟨hv, hpass⟩ := clockScan_first_clear c.NumPhysPages notToReplace k.referenceBit j0 hjc
    hjne _ d _ _ rb v hcs hptr hd hreach (fun _ _ => rfl)
  have hvlt : v < c.NumPhysPages := clockScan_lt _ _ _ _ _ _ _ hcs hptr
  have hrblen : rb.length = c.NumPhysPages := by
    rw [clockScan_length _ _ _ _ _ _ _ hcs, hlen]
  refine ⟨v, hf, hvlt, hv, ?_, hp, ?_, ?_⟩
  · rw [hrb]
    simp [List.getD_eq_getElem?_getD, List.getElem?_set, hrblen, hvlt]
  · intro j hj
    have hjs := hpass j hj
    refine ⟨hjs, ?_⟩
    have hjv : v ≠ j := by
      intro e
      rw [e] at hv
      rw [hv] at hjs
      exact absurd hjs (by decide)
    rw [hrb, getD_set_ne _ _ _ _ hjv]
    exact clockPassed_cleared _ _ _ _ _ _ _ hcs j hj
  · intro j hj hjv
    rw [hrb, getD_set_ne _ _ _ _ (fun e => hjv e.symm)]
    exact clockPassed_others _ _ _ _ _ _ _ hcs j hj

/-- C18 (as amended).  Clock policy with the pool full, when a frame other than
`notToReplace` has its reference bit clear at the call: the run never stops for
lack of steps of the scan, and every run that returns gives back a frame `v`
of the pool whose reference bit was clear at the call; on return the bit of `v`
is set and `LRU_Clock_ptr = (v + 1) mod NumPhysPages`; every frame the hand
passed over had its bit set at the call and has it clear on return, and every
frame that is neither passed over nor the victim keeps its bit. -/
theorem clock_picks_frame_with_clear_bit (c : Config) (k : SystemState) (self : Nat)
    (vpn notToReplace : Int) (nd : Indet)
    (halgo : c.replacementAlgo = .LRU_CLOCK_REPL)
    (hfull : k.usedPages = (c.NumPhysPages : Int))
    (hlen : k.referenceBit.length = c.NumPhysPages)
    (hptr : k.LRU_Clock_ptr < c.NumPhysPages)
    (hclear : ∃ j, j < c.NumPhysPages ∧ (j : Int) ≠ notToReplace
                ∧ k.referenceBit.getD j false = false) :
    GetNextPageToWrite c k self vpn notToReplace nd ≠ .error .spin
      ∧ ∀ k1 f, GetNextPageToWrite c k self vpn notToReplace nd = .ok (k1, f) →
          ∃ v : Nat, f = (v : Int) ∧ v < c.NumPhysPages
            ∧ k.referenceBit.getD v false = false
            ∧ k1.referenceBit.getD v false = true
            ∧ k1.LRU_Clock_ptr = (v + 1) % c.NumPhysPages
            ∧ (∀ j, j ∈ clockPassed c.NumPhysPages notToReplace (k.referenceBit.length + 1)
                          k.referenceBit k.LRU_Clock_ptr →
                  k.referenceBit.getD j false = true ∧ k1.referenceBit.getD j false = false)
            ∧ (∀ j, j ∉ clockPassed c.NumPhysPages notToReplace (k.referenceBit.length + 1)
                          k.referenceBit k.LRU_Clock_ptr →
                  j ≠ v → k1.referenceBit.getD j false = k.referenceBit.getD j false) :=
  ⟨GetNextPageToWrite_no_spin c k self vpn notToReplace nd,
   fun k1 f hrun =>
    clock_victim_had_clear_bit c k self vpn notToReplace nd k1 f halgo hfull hlen hptr hclear
      hrun⟩

/-- An instance: three frames with the bits 1, 0, 1, the hand on frame 0 and
frame 2 excluded; the hand passes over frame 0 and stops on frame 1. -/
theorem clock_picks_frame_with_clear_bit_witness :
    ∃ k1 f, GetNextPageToWrite (cfgThree .LRU_CLOCK_REPL) (stateForking [true, false, true] 0)
          1 2 2 ⟨2, 0, 0⟩ = .ok (k1, f)
      ∧ f = 1 ∧ k1.LRU_Clock_ptr = 2 :=
  have hex : ∃ k1 f, GetNextPageToWrite (cfgThree .LRU_CLOCK_REPL)
      (stateForking [true, false, true] 0) 1 2 2 ⟨2, 0, 0⟩ = .ok (k1, f) := ⟨_, _, rfl⟩
  match hex with
  | ⟨k1, f, hrun⟩ =>
    match (clock_picks_frame_with_clear_bit (cfgThree .LRU_CLOCK_REPL)
        (stateForking [true, false, true] 0) 1 2 2 ⟨2, 0, 0⟩ rfl rfl rfl (by decide)
        ⟨1, by decide, by decide, rfl⟩).2 k1 f hrun with
    | ⟨v, h1, h2, h3, _, h5, _⟩ =>
      have hv : v = 1 := by
        have h2 : v < 3 := h2
        have h3 : [true, false, true].getD v false = false := h3
        interval_cases v
        · exact absurd h3 (by decide)
        · rfl
        · exact absurd h3 (by decide)
      ⟨k1, f, hrun, by rw [h1, hv]; rfl, by rw [h5, hv]; rfl⟩

/-- C18 (counterexample).  Three frames with the reference bits 1, 0, 1, the
hand on frame 0 and frame 1 excluded: frame 1 has its bit clear at the call,
the hand clears the bits of the frames 0 and 2, skips frame 1 and comes back to
frame 0, which is returned although its bit was set at the call. -/
theorem clock_returns_frame_whose_bit_was_set :
    (stateForking [true, false, true] 0).referenceBit = [true, false, true]
      ∧ (GetNextPageToWrite (cfgThree .LRU_CLOCK_REPL) (stateForking [true, false, true] 0)
            1 1 1 ⟨1, 0, 0⟩).toOption.map (fun r => (r.2, r.1.referenceBit, r.1.LRU_Clock_ptr))
          = some (0, [true, false, false], 1) := by
  decide

theorem clockScan_avoids_excluded (N : Nat) (ntr : Int) (hN : 1 < N) :
    ∀ (fuel : Nat) (rb : List Bool) (ptr : Nat) (rb1 : List Bool) (v : Nat),
      clockScan N ntr fuel rb ptr = .ok (rb1, v) → ptr < N →
      ((ptr : Int) ≠ ntr ∨ rb.getD ptr false = true) → (v : Int) ≠ ntr := by
  intro fuel
  induction fuel with
  | zero => intro rb ptr rb1 v h; simp [clockScan] at h
  | succ n ih =>
    intro rb ptr rb1 v h hp hstart
    unfold clockScan at h
    split at h
    · split at h
      · cases h
      · refine ih _ _ _ _ h ?_ (Or.inl ?_)
        · split
          · exact Nat.mod_lt _ (by omega)
          · exact Nat.mod_lt _ (by omega)
        · split
          · rename_i hskip
            rw [← hskip]
            intro e
            exact add_mod_ne_self N ((ptr + 1) % N) 1 (Nat.mod_lt _ (by omega)) (by omega) hN
              (Int.ofNat.inj e)
          · rename_i hskip
            exact hskip
    · rename_i hbit
      simp only [Except.ok.injEq, Prod.mk.injEq] at h
      rw [← h.2]
      rcases hstart with h1 | h1
      · exact h1
      · exact absurd h1 hbit

/-- C12 (evaluation).  Clock policy, three frames, all in use by the pages of
the parent, every reference bit clear, the hand on frame 0.  The allocation
for page 0 of the child, with frame 0 of the parent excluded, returns frame 0:
the loop tests the excluded index only after it has moved the hand, so a hand
that starts on the excluded frame with a clear bit stays there.  Page 0 of the
parent is saved and marked invalid. -/
theorem clock_returns_excluded_frame :
    mapping (pageTableOf (stateForking [false, false, false] 0) 0)
        = [(true, 0), (true, 1), (true, 2)]
      ∧ (GetNextPageToWrite (cfgThree .LRU_CLOCK_REPL) (stateForking [false, false, false] 0)
            1 0 0 ⟨0, 0, 0⟩).toOption.map (fun r => (r.2, mapping (pageTableOf r.1 0)))
          = some (0, [(false, -1), (true, 1), (true, 2)]) := by
  decide

/-! ## Faults outside the address space -/

theorem PageFaultHandler_beyond_table (c : Config) (k : SystemState) (self a : Nat)
    (nd : Indet) (sp : ProcessAddrSpace)
    (hsp : k.spaces[self]? = some sp) (hps : 0 < c.PageSize)
    (hout : sp.numPagesInVM < a / c.PageSize) :
    PageFaultHandler c k self a nd = .error .assertion := by
  unfold PageFaultHandler
  simp only [hsp, Nat.ne_of_gt hps, if_false]
  rw [if_pos (by omega)]

/-- C15 (evaluation).  The address space of `prog` has three pages of four
bytes, so address 12 lies in page 3, which is not a page of the table.  The
test `vpn <= numPagesInVM` lets it pass: the handler does not stop at the
assertion, it obtains frame 0 for page 3 and the frame pool records it.  (What
the stores into entry 3 of the three-entry table hit is undefined in the
source; the statement is about what precedes them.) -/
theorem PageFaultHandler_accepts_first_page_past_table :
    (pageTableOf loadedState 0).length = 3
      ∧ 12 / (cfgSmall .NO_REPL).PageSize = 3
      ∧ (GetNextPageToWrite (cfgSmall .NO_REPL)
            { loadedState with numPageFaults := loadedState.numPageFaults + 1 } 0 3 (-1)
            ⟨3, 0, 0⟩).toOption.map (fun r => r.2) = some 0
      ∧ (PageFaultHandler (cfgSmall .NO_REPL) loadedState 0 12 ⟨3, 0, 0⟩).toOption.map
            (fun k2 => (k2.memoryUsedBy, k2.virtualPageNo, k2.usedPages))
          = some ([0, -1, -1, -1], [3, -1, -1, -1], 1) := by
  decide

/-! ## Validation of the header -/

/-- C16.  Creation from an executable succeeds exactly when the magic number
read from the file is `NOFFMAGIC` or `WordToHost` of it is: in that case the
constructor returns, and the header it keeps is the header as read when the
magic number as read is `NOFFMAGIC`, and otherwise has the magic number and
each of the nine segment fields replaced by `WordToHost` of the value read;
in the other case the constructor stops at the assertion.  `PageSize` is not
zero. -/
theorem exec_validates_header (c : Config) (WordToHost : Nat → Nat) (k : SystemState)
    (raw : NoffHeader) (programname : String) (swapInit : Nat → Nat)
    (hps : 0 < c.PageSize) :
    ((raw.noffMagic = c.NOFFMAGIC ∨ WordToHost raw.noffMagic = c.NOFFMAGIC) →
      ∃ k1 me sp, ProcessAddrSpace_exec c WordToHost k raw programname swapInit = .ok (k1, me)
        ∧ k1.spaces[me]? = some sp
        ∧ (raw.noffMagic = c.NOFFMAGIC → sp.noffH = raw)
        ∧ (raw.noffMagic ≠ c.NOFFMAGIC →
            sp.noffH.noffMagic = WordToHost raw.noffMagic
            ∧ sp.noffH.code.size = WordToHost raw.code.size
            ∧ sp.noffH.code.virtualAddr = WordToHost raw.code.virtualAddr
            ∧ sp.noffH.code.inFileAddr = WordToHost raw.code.inFileAddr
            ∧ sp.noffH.initData.size = WordToHost raw.initData.size
            ∧ sp.noffH.initData.virtualAddr = WordToHost raw.initData.virtualAddr
            ∧ sp.noffH.initData.inFileAddr = WordToHost raw.initData.inFileAddr
            ∧ sp.noffH.uninitData.size = WordToHost raw.uninitData.size
            ∧ sp.noffH.uninitData.virtualAddr = WordToHost raw.uninitData.virtualAddr
            ∧ sp.noffH.uninitData.inFileAddr = WordToHost raw.uninitData.inFileAddr))
      ∧ (¬ (raw.noffMagic = c.NOFFMAGIC ∨ WordToHost raw.noffMagic = c.NOFFMAGIC) →
          ProcessAddrSpace_exec c WordToHost k raw programname swapInit = .error .assertion) := by
  have hps0 : c.PageSize ≠ 0 := Nat.ne_of_gt hps
  constructor
  · intro hvalid
    have hmagic : (readHeader c WordToHost raw).noffMagic = c.NOFFMAGIC := by
      unfold readHeader
      by_cases h1 : raw.noffMagic = c.NOFFMAGIC
      · rw [if_neg (fun h => h.1 h1)]; exact h1
      · have h2 : WordToHost raw.noffMagic = c.NOFFMAGIC := hvalid.resolve_left h1
        rw [if_pos ⟨h1, h2⟩]
        exact h2
    have hrun : ProcessAddrSpace_exec c WordToHost k raw programname swapInit
        = .ok ({ k with spaces := k.spaces ++ [
                  { NachOSpageTable := (List.range (divRoundUp (u32
                      ((readHeader c WordToHost raw).code.size
                        + (readHeader c WordToHost raw).initData.size
                        + (readHeader c WordToHost raw).uninitData.size
                        + c.UserStackSize)) c.PageSize)).map freshEntry,
                    numPagesInVM := divRoundUp (u32
                      ((readHeader c WordToHost raw).code.size
                        + (readHeader c WordToHost raw).initData.size
                        + (readHeader c WordToHost raw).uninitData.size
                        + c.UserStackSize)) c.PageSize,
                    noffH := readHeader c WordToHost raw,
                    swapMemory := (List.range (u32 (divRoundUp (u32
                      ((readHeader c WordToHost raw).code.size
                        + (readHeader c WordToHost raw).initData.size
                        + (readHeader c WordToHost raw).uninitData.size
                        + c.UserStackSize)) c.PageSize * c.PageSize))).map swapInit,
                    fileName := programname }] }, k.spaces.length) := by
      simp only [ProcessAddrSpace_exec, hmagic, hps0, ne_eq, not_true_eq_false, if_false]
    refine ⟨_, _, _, hrun, List.getElem?_concat_length _ _, ?_, ?_⟩
    · intro h1
      show readHeader c WordToHost raw = raw
      unfold readHeader
      rw [if_neg (fun h => h.1 h1)]
    · intro h1
      have h2 : WordToHost raw.noffMagic = c.NOFFMAGIC := hvalid.resolve_left h1
      have hh : readHeader c WordToHost raw = SwapHeader WordToHost raw := by
        unfold readHeader
        rw [if_pos ⟨h1, h2⟩]
      simp only [hh]
      exact ⟨rfl, rfl, rfl, rfl, rfl, rfl, rfl, rfl, rfl, rfl⟩
  · intro hbad
    have h1 : raw.noffMagic ≠ c.NOFFMAGIC := fun h => hbad (Or.inl h)
    have h2 : WordToHost raw.noffMagic ≠ c.NOFFMAGIC := fun h => hbad (Or.inr h)
    have hmagic : (readHeader c WordToHost raw).noffMagic ≠ c.NOFFMAGIC := by
      unfold readHeader
      rw [if_neg (fun h => h2 h.2)]
      exact h1
    simp only [ProcessAddrSpace_exec, hmagic, ne_eq, not_false_eq_true, if_true]

/-- An instance: a header whose words are stored with the value doubled, read
with a conversion that halves them. -/
theorem exec_validates_header_witness :
    ∃ k1 me sp,
      ProcessAddrSpace_exec (cfgSmall .NO_REPL) (fun w => w / 2) bootState
          { noffMagic := 24493914,
            code := { virtualAddr := 0, inFileAddr := 80, size := 12 },
            initData := { virtualAddr := 12, inFileAddr := 92, size := 4 },
            uninitData := { virtualAddr := 16, inFileAddr := 0, size := 0 } }
          "prog" (fun _ => 0) = .ok (k1, me)
      ∧ k1.spaces[me]? = some sp
      ∧ sp.noffH.noffMagic = 12246957 ∧ sp.noffH.code.size = 6
      ∧ sp.noffH.initData.virtualAddr = 6 :=
  match (exec_validates_header (cfgSmall .NO_REPL) (fun w => w / 2) bootState
      { noffMagic := 24493914,
        code := { virtualAddr := 0, inFileAddr := 80, size := 12 },
        initData := { virtualAddr := 12, inFileAddr := 92, size := 4 },
        uninitData := { virtualAddr := 16, inFileAddr := 0, size := 0 } }
      "prog" (fun _ => 0) (by decide)).1 (Or.inr (by decide)) with
  | ⟨k1, me, sp, h1, h2, _, h4⟩ =>
    match h4 (by decide) with
    | ⟨g1, g2, _, _, _, g6, _⟩ => ⟨k1, me, sp, h1, h2, g1, g2, g6⟩

/-! ## Teardown -/

theorem fork_yields_stateForked :
    ProcessAddrSpace_fork (cfgSmall .NO_REPL) stateOneResident 0 freshZero ndPage
      = .ok (stateForked, 1) := by
  rfl

/-- C17 (evaluation).  In `stateForked` the child (object 1) has page 0
resident in frame 1 and page 1 not resident, with 0 in the `physicalPage` of
entry 1; frame 0 holds page 0 of the parent.  The destructor of the child
clears the frame pool entries of frame 1 and also those of frame 0: its loop
tests `shared` only and uses the `physicalPage` of the entry that is not
resident.  Page 0 of the parent is still mapped to frame 0.  The destructor of
an address space none of whose three pages is resident lowers `usedPages` from
0 to -3. -/
theorem teardown_releases_frame_of_nonresident_entry :
    residency (pageTableOf stateForked 1) = [(true, 1, false), (false, 0, false)]
      ∧ stateForked.memoryUsedBy = [0, 0, -1, -1]
      ∧ stateForked.virtualPageNo = [0, 0, -1, -1]
      ∧ (ProcessAddrSpace_destroy stateForked 1).toOption.map
            (fun k2 => (k2.memoryUsedBy, k2.virtualPageNo, residency (pageTableOf k2 0)))
          = some ([-1, -1, -1, -1], [-1, -1, -1, -1], [(true, 0, false), (false, -1, false)])
      ∧ residency (pageTableOf loadedState 0)
          = [(false, -1, false), (false, -1, false), (false, -1, false)]
      ∧ loadedState.usedPages = 0
      ∧ (ProcessAddrSpace_destroy loadedState 0).toOption.map (fun k2 => k2.usedPages)
          = some (-3) := by
  decide

/-! ## Invariants of the page tables -/

/-- C19 (evaluation).  From the state at start-up under `RANDOM_REPL`: the
address space of `prog` is created and takes a page fault on address 8, in
page 2.  The allocation returns frame 0 and marks entry 0 valid with frame 0,
the handler then maps entry 2 to frame 0: the entries 0 and 2, neither of them
shared, are valid with the same frame.  With the pool full and a second process
faulting, the frame chosen by `RANDOM_REPL` stays mapped by the valid entry of
the page it held: entry 2 of process 0 and entry 1 of process 1 are valid with
frame 2. -/
theorem two_valid_entries_share_a_frame :
    ((ProcessAddrSpace_exec (cfgSmall .RANDOM_REPL) id bootState hdrSmall "prog"
          (fun _ => 9)).toOption.bind
        (fun r => (PageFaultHandler (cfgSmall .RANDOM_REPL) r.1 r.2 8 ⟨0, 0, 0⟩).toOption)).map
        (fun k2 => residency (pageTableOf k2 0))
      = some [(true, 0, false), (false, -1, false), (true, 0, false)]
    ∧ (PageFaultHandler (cfgThree .RANDOM_REPL)
          { stateForking [false, false, false] 0 with
              currentPID := 1, threadSpace := [some 0, some 1] }
          1 4 ⟨1, 2, 0⟩).toOption.map
        (fun k2 => (residency (pageTableOf k2 0), residency (pageTableOf k2 1)))
      = some ([(true, 0, false), (true, 1, false), (true, 2, false)],
              [(false, -1, false), (true, 2, false), (false, -1, false)]) := by
  decide

/-- C20 (evaluation).  Fork under `RANDOM_REPL` of a parent whose page 0 is
resident in frame 0 and whose page 1 was never used, the new page table array
holding `physicalPage = -1` and `valid = false` in every entry.  The allocation
for page 0 of the child returns frame 1 and stores it, with `valid`, into
entry 1; when the loop reaches page 1 it copies `valid = false` from the parent
and does not assign `physicalPage`: entry 1 of the child ends not valid with
`physicalPage = 1`. -/
theorem fork_leaves_frame_in_invalid_entry :
    residency (pageTableOf stateOneResident 0) = [(true, 0, false), (false, -1, false)]
      ∧ (ProcessAddrSpace_fork (cfgSmall .RANDOM_REPL) stateOneResident 0 freshEntry
            ndZero).toOption.map (fun r => residency (pageTableOf r.1 r.2))
          = some [(true, 1, false), (false, 1, false)] := by
  decide

/-! ## The size of the swap array -/

theorem shapeStable_refl (sp : ProcessAddrSpace) : shapeStable sp sp :=
  ⟨rfl, rfl, rfl, fun _ => rfl⟩

theorem shapeStable_trans {a b d : ProcessAddrSpace} (h1 : shapeStable a b)
    (h2 : shapeStable b d) : shapeStable a d :=
  ⟨h2.1.trans h1.1, h2.2.1.trans h1.2.1, h2.2.2.1.trans h1.2.2.1,
    fun j => (h2.2.2.2 j).trans (h1.2.2.2 j)⟩

theorem shapeStable_of_spaceStable {c : Config} {sp sp1 : ProcessAddrSpace}
    (h : spaceStable c sp sp1) : shapeStable sp sp1 :=
  ⟨h.1, h.2.2.2.1, h.2.2.2.2.1, fun j => (h.2.2.2.2.2.1 j).2.1⟩

theorem shapeKept_refl (k : SystemState) : shapeKept k k :=
  fun _ sp hs => ⟨sp, hs, shapeStable_refl sp⟩

theorem shapeKept_of_spaces_eq {k k1 : SystemState} (h : k1.spaces = k.spaces) :
    shapeKept k k1 :=
  fun _ sp hs => ⟨sp, by rw [h]; exact hs, shapeStable_refl sp⟩

theorem shapeKept_trans {k k1 k2 : SystemState} (h1 : shapeKept k k1) (h2 : shapeKept k1 k2) :
    shapeKept k k2 := by
  intro s sp hs
  obtain ⟨sp1, g1, g2⟩ := h1 s sp hs
  obtain ⟨sp2, g3, g4⟩ := h2 s sp1 g1
  exact ⟨sp2, g3, shapeStable_trans g2 g4⟩

theorem GetNextPageToWrite_shapeKept {c : Config} {k : SystemState} {self : Nat}
    {vpn ntr : Int} {nd : Indet} {k1 : SystemState} {f : Int}
    (hrun : GetNextPageToWrite c k self vpn ntr nd = .ok (k1, f)) : shapeKept k k1 := by
  intro s sp hs
  obtain ⟨sp1, g1, g2⟩ := GetNextPageToWrite_stable hrun s sp hs
  exact ⟨sp1, g1, shapeStable_of_spaceStable g2⟩

theorem shapeStable_setEntry (sp : ProcessAddrSpace) (vpn : Nat)
    (g : TranslationEntry → TranslationEntry) (hg : ∀ e, (g e).shared = e.shared) :
    shapeStable sp (setEntry sp vpn g) := by
  refine ⟨rfl, by simp [setEntry], rfl, fun j => ?_⟩
  simp only [setEntry, List.getD_eq_getElem?_getD, List.getElem?_set]
  split_ifs with h1 h2
  · subst h1
    simp only [Option.getD_some, hg]
  · subst h1
    rw [List.getElem?_eq_none (Nat.le_of_not_lt h2)]
  · rfl

theorem updateEntry_shapeKept (k : SystemState) (self vpn : Nat)
    (g : TranslationEntry → TranslationEntry) (hg : ∀ e, (g e).shared = e.shared) :
    shapeKept k (updateEntry k self vpn g) := by
  intro s sp hs
  unfold updateEntry
  split
  · exact ⟨sp, hs, shapeStable_refl sp⟩
  · rename_i sp0 hsp0
    have hlen : s < k.spaces.length := by
      by_contra hcon
      rw [List.getElem?_eq_none (Nat.le_of_not_lt hcon)] at hs
      cases hs
    by_cases hss : s = self
    · subst hss
      rw [hs] at hsp0
      cases hsp0
      exact ⟨_, by simp [List.getElem?_set, hlen], shapeStable_setEntry sp vpn g hg⟩
    · refine ⟨sp, ?_, shapeStable_refl sp⟩
      simp only [List.getElem?_set]
      rw [if_neg (fun e => hss e.symm)]
      exact hs

theorem PageFaultHandler_shapeKept {c : Config} {k : SystemState} {self a : Nat} {nd : Indet}
    {k2 : SystemState} (hrun : PageFaultHandler c k self a nd = .ok k2) : shapeKept k k2 := by
  unfold PageFaultHandler at hrun
  split at hrun
  · cases hrun
  · rename_i sp0 hsp0
    simp only at hrun
    split_ifs at hrun with hps hassert
    split at hrun
    · cases hrun
    · rename_i kA f hgnp
      have h0 : shapeKept k { k with numPageFaults := k.numPageFaults + 1 } :=
        shapeKept_of_spaces_eq rfl
      have h1 := shapeKept_trans h0 (GetNextPageToWrite_shapeKept hgnp)
      have h2 := shapeKept_trans h1 (updateEntry_shapeKept kA self (a / c.PageSize)
        (fun e => { e with physicalPage := f, valid := true }) (fun _ => rfl))
      split at hrun
      · cases hrun
      · rename_i sp hsp
        split_ifs at hrun with hused
        · split at hrun
          · cases hrun
          · split at hrun
            · cases hrun
            · rename_i mem1 _ mem2 _
              simp only [Except.ok.injEq] at hrun
              rw [← hrun]
              have hm : shapeKept
                  (updateEntry kA self (a / c.PageSize)
                    (fun e => { e with physicalPage := f, valid := true }))
                  { updateEntry kA self (a / c.PageSize)
                      (fun e => { e with physicalPage := f, valid := true })
                    with mainMemory := mem2 } :=
                shapeKept_of_spaces_eq rfl
              exact shapeKept_trans h2 (shapeKept_trans hm
                (updateEntry_shapeKept _ self (a / c.PageSize)
                  (fun e => { e with ifUsed := true }) (fun _ => rfl)))
        · simp only [Except.ok.injEq] at hrun
          rw [← hrun]
          exact shapeKept_trans h2 (shapeKept_of_spaces_eq rfl)

theorem forkFault_shapeKept {c : Config} {parent : Nat} {ndF : Indet} {i : Nat}
    {k k1 : SystemState} (h : forkFault c parent ndF i k = .ok k1) : shapeKept k k1 := by
  unfold forkFault at h
  simp only at h
  split_ifs at h
  · exact PageFaultHandler_shapeKept h
  · simp only [Except.ok.injEq] at h
    rw [← h]
    exact shapeKept_refl k

theorem forkCopy_shapeKept {c : Config} {parent child : Nat} {ndA : Indet} {i : Nat}
    {k k1 : SystemState} (h : forkCopy c parent child ndA i k = .ok k1) : shapeKept k k1 := by
  unfold forkCopy at h
  split_ifs at h
  · split at h
    · cases h
    · rename_i kc f hgnp
      simp only [Except.ok.injEq] at h
      rw [← h]
      exact shapeKept_trans (GetNextPageToWrite_shapeKept hgnp)
        (shapeKept_trans
          (updateEntry_shapeKept kc child i (fun e => { e with physicalPage := f })
            (fun _ => rfl))
          (shapeKept_of_spaces_eq rfl))
  · simp only [Except.ok.injEq] at h
    rw [← h]
    exact shapeKept_refl k

theorem forkShare_shapeKept (parent child i : Nat) (k : SystemState) :
    shapeKept k (forkShare parent child i k) := by
  unfold forkShare
  exact shapeKept_trans
    (updateEntry_shapeKept k child i
      (fun e => { e with physicalPage :=
        ((pageTableOf k parent).getD i default).physicalPage }) (fun _ => rfl))
    (shapeKept_of_spaces_eq rfl)

theorem forkPage_decompose {c : Config} {parent child : Nat} {ndF ndA : Indet} {i : Nat}
    {k k1 : SystemState} (h : forkPage c parent child ndF ndA i k = .ok k1) :
    ∃ kX, shapeKept k kX ∧ k1 = forkFlags parent child i kX := by
  unfold forkPage at h
  have h0 : shapeKept k (updateEntry k child i (fun e => { e with virtualPage := (i : Int) })) :=
    updateEntry_shapeKept k child i _ (fun _ => rfl)
  simp only at h
  split_ifs at h
  · split at h
    · cases h
    · rename_i kb hfault
      split at h
      · cases h
      · rename_i ke hcopy
        simp only [Except.ok.injEq] at h
        exact ⟨ke, shapeKept_trans h0 (shapeKept_trans (forkFault_shapeKept hfault)
          (forkCopy_shapeKept hcopy)), h.symm⟩
  · simp only [Except.ok.injEq] at h
    exact ⟨_, shapeKept_trans h0 (forkShare_shapeKept parent child i _), h.symm⟩

theorem forkFlags_spaces (parent child i : Nat) (k : SystemState) (ps ch : ProcessAddrSpace)
    (hne : parent ≠ child)
    (hps : k.spaces[parent]? = some ps) (hch : k.spaces[child]? = some ch) :
    ∃ ch1, (forkFlags parent child i k).spaces[parent]? = some ps
      ∧ (forkFlags parent child i k).spaces[child]? = some ch1
      ∧ ch1.numPagesInVM = ch.numPagesInVM
      ∧ ch1.NachOSpageTable.length = ch.NachOSpageTable.length
      ∧ ch1.swapMemory.length = ch.swapMemory.length
      ∧ (i < ch.NachOSpageTable.length →
          (ch1.NachOSpageTable.getD i default).shared
            = (ps.NachOSpageTable.getD i default).shared)
      ∧ (∀ j, j ≠ i → (ch1.NachOSpageTable.getD j default).shared
            = (ch.NachOSpageTable.getD j default).shared) := by
  unfold forkFlags
  simp only [pageTableOf_eq _ _ _ hps]
  rw [updateEntry_eq _ _ _ _ ch hch]
  refine ⟨_, ?_, getElem?_set_self_of_some _ _ _ _ hch, rfl, by simp [setEntry], rfl, ?_, ?_⟩
  · simp only [List.getElem?_set]
    rw [if_neg (fun e => hne e.symm)]
    exact hps
  · intro hi
    simp [setEntry, List.getD_eq_getElem?_getD, List.getElem?_set, hi]
  · intro j hj
    simp only [setEntry, List.getD_eq_getElem?_getD, List.getElem?_set]
    rw [if_neg (fun e => hj e.symm)]

theorem forkPages_shape {c : Config} {parent child : Nat} (nd : Nat → Indet × Indet)
    (hne : parent ≠ child) :
    ∀ (l : List Nat) (k k1 : SystemState) (ps ch : ProcessAddrSpace),
      forkPages c parent child nd l k = .ok k1 →
      k.spaces[parent]? = some ps → k.spaces[child]? = some ch → l.Nodup →
      ∃ ps1 ch1, k1.spaces[parent]? = some ps1 ∧ k1.spaces[child]? = some ch1
        ∧ shapeStable ps ps1
        ∧ ch1.numPagesInVM = ch.numPagesInVM
        ∧ ch1.NachOSpageTable.length = ch.NachOSpageTable.length
        ∧ ch1.swapMemory.length = ch.swapMemory.length
        ∧ (∀ j, j ∈ l → j < ch.NachOSpageTable.length →
            (ch1.NachOSpageTable.getD j default).shared
              = (ps.NachOSpageTable.getD j default).shared)
        ∧ (∀ j, j ∉ l → (ch1.NachOSpageTable.getD j default).shared
              = (ch.NachOSpageTable.getD j default).shared) := by
  intro l
  induction l with
  | nil =>
    intro k k1 ps ch h hps hch _
    simp only [forkPages, Except.ok.injEq] at h
    subst h
    exact ⟨ps, ch, hps, hch, shapeStable_refl ps, rfl, rfl, rfl,
      fun j hj => absurd hj (List.not_mem_nil j), fun _ _ => rfl⟩
  | cons i rest ih =>
    intro k k1 ps ch h hps hch hnd
    unfold forkPages at h
    split at h
    · cases h
    · rename_i kmid hpage
      obtain ⟨hi, hrest⟩ := List.nodup_cons.mp hnd
      obtain ⟨kX, hX, hkmid⟩ := forkPage_decompose hpage
      obtain ⟨psX, hpsX, hstP⟩ := hX parent ps hps
      obtain ⟨chX, hchX, hstC⟩ := hX child ch hch
      obtain ⟨chm, gp, gc, g1, g2, g3, g4, g5⟩ :=
        forkFlags_spaces parent child i kX psX chX hne hpsX hchX
      rw [← hkmid] at gp gc
      obtain ⟨ps1, ch1, r1, r2, r3, r4, r5, r6, r7, r8⟩ := ih kmid k1 psX chm h gp gc hrest
      refine ⟨ps1, ch1, r1, r2, shapeStable_trans hstP r3, ?_, ?_, ?_, ?_, ?_⟩
      · rw [r4, g1, hstC.1]
      · rw [r5, g2, hstC.2.1]
      · rw [r6, g3, hstC.2.2.1]
      · intro j hj hlt
        rcases List.mem_cons.mp hj with he | hm
        · subst he
          rw [r8 j hi, g4 (by rw [hstC.2.1]; exact hlt), hstP.2.2.2 j]
        · rw [r7 j hm (by rw [g2, hstC.2.1]; exact hlt), hstP.2.2.2 j]
      · intro j hj
        have hji : j ≠ i := fun e => hj (by rw [e]; exact List.mem_cons_self _ _)
        rw [r8 j (fun hm => hj (List.mem_cons_of_mem _ hm)), g5 j hji, hstC.2.2.2 j]

theorem countP_shared_congr :
    ∀ (l1 l2 : List TranslationEntry), l1.length = l2.length →
      (∀ j, j < l1.length →
        (l1.getD j default).shared = (l2.getD j default).shared) →
      l1.countP (fun e => e.shared) = l2.countP (fun e => e.shared) := by
  intro l1
  induction l1 with
  | nil =>
    intro l2 hlen _
    cases l2 with
    | nil => rfl
    | cons b t => simp at hlen
  | cons a t ih =>
    intro l2 hlen h
    cases l2 with
    | nil => simp at hlen
    | cons b t2 =>
      have h0 : a.shared = b.shared := h 0 (by simp)
      have ht := ih t2 (by simpa using hlen) (fun j hj => by
        have := h (j + 1) (by simp; omega)
        simpa using this)
      rw [List.countP_cons, List.countP_cons, ht, h0]

theorem sharedPages_eq_of_shared_eq (sp sp1 : ProcessAddrSpace)
    (hn : sp1.numPagesInVM = sp.numPagesInVM)
    (hl : sp.NachOSpageTable.length = sp.numPagesInVM)
    (hl1 : sp1.NachOSpageTable.length = sp.numPagesInVM)
    (h : ∀ j, j < sp.numPagesInVM →
      (sp1.NachOSpageTable.getD j default).shared = (sp.NachOSpageTable.getD j default).shared) :
    sharedPages sp1 = sharedPages sp := by
  unfold sharedPages
  rw [hn, List.take_of_length_le (by omega), List.take_of_length_le (by omega)]
  exact countP_shared_congr _ _ (by omega) (fun j hj => h j (by omega))

theorem fork_child_shape (c : Config) (k : SystemState) (parentSpace : Nat)
    (fresh : Nat → TranslationEntry) (nd : Nat → Indet × Indet)
    (k1 : SystemState) (me : Nat) (ps : ProcessAddrSpace)
    (hps : k.spaces[parentSpace]? = some ps)
    (hrun : ProcessAddrSpace_fork c k parentSpace fresh nd = .ok (k1, me)) :
    ∃ ch, k1.spaces[me]? = some ch
      ∧ ch.numPagesInVM = ps.numPagesInVM
      ∧ ch.NachOSpageTable.length = ps.numPagesInVM
      ∧ ch.swapMemory.length = u32 ((ps.numPagesInVM - sharedPages ps) * c.PageSize)
      ∧ ∀ j, j < ps.numPagesInVM →
          (ch.NachOSpageTable.getD j default).shared
            = (ps.NachOSpageTable.getD j default).shared := by
  have hlt : parentSpace < k.spaces.length := by
    by_contra hcon
    rw [List.getElem?_eq_none (Nat.le_of_not_lt hcon)] at hps
    cases hps
  unfold ProcessAddrSpace_fork at hrun
  simp only [hps] at hrun
  split at hrun
  · cases hrun
  · rename_i kfin hpages
    simp only [Except.ok.injEq, Prod.mk.injEq] at hrun
    obtain ⟨hk, hme⟩ := hrun
    subst hk
    subst hme
    obtain ⟨ps1, ch1, _, r2, _, r4, r5, r6, r7, _⟩ :=
      forkPages_shape nd (Nat.ne_of_lt hlt) _ _ _ ps _ hpages
        (by simpa [List.getElem?_append_left hlt] using hps)
        (List.getElem?_concat_length _ _) (List.nodup_range _)
    refine ⟨ch1, r2, r4, ?_, ?_, ?_⟩
    · rw [r5]; simp
    · rw [r6]; simp [sharedPages]
    · intro j hj
      exact r7 j (List.mem_range.mpr hj) (by simpa using hj)

theorem addSharedPages_shape (c : Config) (self : Nat) (nd : Nat → Indet) :
    ∀ (l : List Nat) (st : SystemState × List TranslationEntry)
      (k1 : SystemState) (T1 : List TranslationEntry),
      addSharedPages c self nd l st = .ok (k1, T1) → shapeKept st.1 k1 := by
  intro l
  induction l with
  | nil =>
    intro st k1 T1 h
    simp only [addSharedPages, Except.ok.injEq] at h
    rw [h]
    exact shapeKept_refl _
  | cons i rest ih =>
    intro st k1 T1 h
    unfold addSharedPages at h
    split at h
    · cases h
    · rename_i kA f hgnp
      exact shapeKept_trans (GetNextPageToWrite_shapeKept hgnp)
        (shapeKept_trans (shapeKept_of_spaces_eq rfl) (ih _ k1 T1 h))

theorem AddSharedSpace_swap_length (c : Config) (k : SystemState) (self : Nat)
    (SharedSpaceSize : Nat) (fresh : Nat → TranslationEntry) (nd : Nat → Indet)
    (sp : ProcessAddrSpace) (k1 : SystemState) (ret : Nat)
    (hsp : k.spaces[self]? = some sp)
    (hrun : AddSharedSpace c k self SharedSpaceSize fresh nd = .ok (k1, ret)) :
    ∃ sp1, k1.spaces[self]? = some sp1 ∧ sp1.swapMemory.length = sp.swapMemory.length := by
  unfold AddSharedSpace at hrun
  simp only [hsp] at hrun
  split_ifs at hrun with hps0
  split at hrun
  · cases hrun
  · rename_i kB table hloop
    obtain ⟨spB, hspB, hst⟩ := addSharedPages_shape c self nd _ _ kB table hloop self sp hsp
    simp only [hspB, Except.ok.injEq, Prod.mk.injEq] at hrun
    obtain ⟨hk1, _⟩ := hrun
    subst hk1
    exact ⟨_, getElem?_set_self_of_some _ _ _ _ hspB, hst.2.2.1⟩

theorem sharedPages_append (sp sp1 : ProcessAddrSpace) (m : Nat)
    (hl : sp.NachOSpageTable.length = sp.numPagesInVM)
    (hn1 : sp1.numPagesInVM = sp.numPagesInVM + m)
    (hl1 : sp1.NachOSpageTable.length = sp1.numPagesInVM)
    (hold : ∀ i, i < sp.numPagesInVM → sp1.NachOSpageTable[i]? = sp.NachOSpageTable[i]?)
    (hnew : ∀ i, sp.numPagesInVM ≤ i → i < sp1.numPagesInVM →
      ∃ e, sp1.NachOSpageTable[i]? = some e ∧ e.shared = true) :
    sharedPages sp1 = sharedPages sp + m := by
  unfold sharedPages
  rw [List.take_of_length_le (by omega), List.take_of_length_le (by omega)]
  have hsplit := List.take_append_drop sp.numPagesInVM sp1.NachOSpageTable
  have htake : sp1.NachOSpageTable.take sp.numPagesInVM = sp.NachOSpageTable := by
    apply List.ext_getElem?
    intro i
    rw [List.getElem?_take]
    split_ifs with hi
    · exact hold i hi
    · rw [List.getElem?_eq_none (by omega)]
  have hdrop : (sp1.NachOSpageTable.drop sp.numPagesInVM).countP (fun e => e.shared) = m := by
    have hlen : (sp1.NachOSpageTable.drop sp.numPagesInVM).length = m := by
      rw [List.length_drop]; omega
    rw [← hlen]
    apply List.countP_eq_length.mpr
    intro e he
    obtain ⟨j, hj, hej⟩ := List.getElem_of_mem he
    rw [List.getElem_drop] at hej
    rw [hlen] at hj
    obtain ⟨e2, he2, hsh⟩ := hnew (sp.numPagesInVM + j) (by omega) (by omega)
    rw [List.getElem?_eq_getElem (by omega)] at he2
    simp only [Option.some.injEq] at he2
    rw [← hej, he2]
    exact hsh
  rw [← hsplit, List.countP_append, htake, hdrop]

theorem exec_swap_sized (c : Config) (WordToHost : Nat → Nat) (k : SystemState)
    (raw : NoffHeader) (programname : String) (swapInit : Nat → Nat)
    (k1 : SystemState) (me : Nat)
    (hfit : (readHeader c WordToHost raw).code.size
              + (readHeader c WordToHost raw).initData.size
              + (readHeader c WordToHost raw).uninitData.size
              + c.UserStackSize + c.PageSize ≤ 4294967296)
    (hrun : ProcessAddrSpace_exec c WordToHost k raw programname swapInit = .ok (k1, me)) :
    ∃ sp, k1.spaces[me]? = some sp ∧ sp.NachOSpageTable.length = sp.numPagesInVM
      ∧ sharedPages sp = 0 ∧ swapSized c sp := by
  unfold ProcessAddrSpace_exec at hrun
  simp only at hrun
  split_ifs at hrun with hmagic hps0
  have hps : 0 < c.PageSize := Nat.pos_of_ne_zero hps0
  simp only [Except.ok.injEq, Prod.mk.injEq] at hrun
  obtain ⟨hk1, hme⟩ := hrun
  subst hk1
  subst hme
  have hsh : ((List.range (divRoundUp (u32
      ((readHeader c WordToHost raw).code.size + (readHeader c WordToHost raw).initData.size
        + (readHeader c WordToHost raw).uninitData.size + c.UserStackSize))
      c.PageSize)).map freshEntry).countP (fun e => e.shared) = 0 := by
    apply List.countP_eq_zero.mpr
    intro e he
    simp only [List.mem_map] at he
    obtain ⟨i, _, hi⟩ := he
    rw [← hi]
    simp [freshEntry]
  refine ⟨_, List.getElem?_concat_length _ _, by simp, ?_, ?_⟩
  · unfold sharedPages
    rw [List.take_of_length_le (by simp)]
    exact hsh
  · unfold swapSized sharedPages
    rw [List.take_of_length_le (by simp)]
    simp only [hsh, Nat.sub_zero, List.length_map, List.length_range]
    apply u32_of_lt
    rw [u32_of_lt _ (by omega), divRoundUp_eq _ _ hps]
    have := Nat.div_mul_le_self
      ((readHeader c WordToHost raw).code.size + (readHeader c WordToHost raw).initData.size
        + (readHeader c WordToHost raw).uninitData.size + c.UserStackSize + c.PageSize - 1)
      c.PageSize
    omega

/-- C21 (as amended).  The swap array has one slot for each page that is not
marked shared.  Creation from an executable yields an address space without
shared pages whose swap array has `numPagesInVM * PageSize` bytes; the fork of
any parent yields a child with the page count and the shared pages of the
parent and a swap array of `(numPagesInVM - shared pages) * PageSize` bytes;
`AddSharedSpace` raises the number of pages and the number of shared pages by
`ceil(size / PageSize)` and leaves the length of the swap array as it was, so
it keeps the relation.  Under the relation the slot
`[vpn * PageSize, (vpn + 1) * PageSize)` lies inside the swap array for every
`vpn` below `numPagesInVM` minus the number of shared pages.  Sizes fit the
32-bit range. -/
theorem swapMemory_has_slots_for_private_pages (c : Config) :
    (∀ (WordToHost : Nat → Nat) (k : SystemState) (raw : NoffHeader) (programname : String)
        (swapInit : Nat → Nat) (k1 : SystemState) (me : Nat),
        (readHeader c WordToHost raw).code.size + (readHeader c WordToHost raw).initData.size
          + (readHeader c WordToHost raw).uninitData.size + c.UserStackSize + c.PageSize
            ≤ 4294967296 →
        ProcessAddrSpace_exec c WordToHost k raw programname swapInit = .ok (k1, me) →
        ∃ sp, k1.spaces[me]? = some sp ∧ sharedPages sp = 0
          ∧ sp.swapMemory.length = sp.numPagesInVM * c.PageSize ∧ swapSized c sp)
      ∧ (∀ (k : SystemState) (parentSpace : Nat) (fresh : Nat → TranslationEntry)
          (nd : Nat → Indet × Indet) (k1 : SystemState) (me : Nat) (ps : ProcessAddrSpace),
          k.spaces[parentSpace]? = some ps →
          ps.NachOSpageTable.length = ps.numPagesInVM →
          ps.numPagesInVM * c.PageSize < 4294967296 →
          ProcessAddrSpace_fork c k parentSpace fresh nd = .ok (k1, me) →
          ∃ ch, k1.spaces[me]? = some ch ∧ ch.numPagesInVM = ps.numPagesInVM
            ∧ sharedPages ch = sharedPages ps ∧ swapSized c ch)
      ∧ (∀ (k : SystemState) (self SharedSpaceSize : Nat) (fresh : Nat → TranslationEntry)
          (nd : Nat → Indet) (sp : ProcessAddrSpace) (k1 : SystemState) (ret : Nat),
          k.spaces[self]? = some sp →
          sp.NachOSpageTable.length = sp.numPagesInVM →
          sp.numPagesInVM * c.PageSize < 2147483648 →
          k.mainMemory.length = c.NumPhysPages * c.PageSize →
          c.NumPhysPages * c.PageSize ≤ 4294967296 →
          k.memoryUsedBy.length = c.NumPhysPages →
          k.virtualPageNo.length = c.NumPhysPages →
          k.LRU_Clock_ptr < c.NumPhysPages →
          swapSized c sp →
          AddSharedSpace c k self SharedSpaceSize fresh nd = .ok (k1, ret) →
          ∃ sp1, k1.spaces[self]? = some sp1
            ∧ sp1.numPagesInVM
                = sp.numPagesInVM + (SharedSpaceSize + c.PageSize - 1) / c.PageSize
            ∧ sharedPages sp1
                = sharedPages sp + (SharedSpaceSize + c.PageSize - 1) / c.PageSize
            ∧ sp1.swapMemory.length = sp.swapMemory.length
            ∧ swapSized c sp1)
      ∧ (∀ (sp : ProcessAddrSpace) (vpn : Nat), swapSized c sp →
          vpn + sharedPages sp < sp.numPagesInVM →
          (vpn + 1) * c.PageSize ≤ sp.swapMemory.length) := by
  refine ⟨?_, ?_, ?_, ?_⟩
  · intro WordToHost k raw programname swapInit k1 me hfit hrun
    obtain ⟨sp, h1, _, h3, h4⟩ :=
      exec_swap_sized c WordToHost k raw programname swapInit k1 me hfit hrun
    refine ⟨sp, h1, h3, ?_, h4⟩
    have := h4
    unfold swapSized at this
    rw [this, h3, Nat.sub_zero]
  · intro k parentSpace fresh nd k1 me ps hps hnum hfit hrun
    obtain ⟨ch, g1, g2, g3, g4, g5⟩ := fork_child_shape c k parentSpace fresh nd k1 me ps hps hrun
    have hsh : sharedPages ch = sharedPages ps :=
      sharedPages_eq_of_shared_eq ps ch g2 hnum g3 g5
    refine ⟨ch, g1, g2, hsh, ?_⟩
    unfold swapSized
    rw [g4, g2, hsh]
    apply u32_of_lt
    have : (ps.numPagesInVM - sharedPages ps) * c.PageSize ≤ ps.numPagesInVM * c.PageSize :=
      Nat.mul_le_mul_right _ (Nat.sub_le _ _)
    omega
  · intro k self SharedSpaceSize fresh nd sp k1 ret hsp hnum hfit hmem hmem32 hmu hvp hptr
      hsized hrun
    obtain ⟨_, sp1, g1, g2, g3, g4, g5⟩ := AddSharedSpace_spec c k self SharedSpaceSize fresh nd
      sp k1 ret hsp hnum hfit hmem hmem32 hmu hvp hptr hrun
    obtain ⟨sp1b, b1, b2⟩ := AddSharedSpace_swap_length c k self SharedSpaceSize fresh nd sp
      k1 ret hsp hrun
    rw [g1] at b1
    simp only [Option.some.injEq] at b1
    subst b1
    have hsh : sharedPages sp1
        = sharedPages sp + (SharedSpaceSize + c.PageSize - 1) / c.PageSize :=
      sharedPages_append sp sp1 _ hnum g2 g3 g4 (fun i hlo hhi => by
        obtain ⟨f, hf, _⟩ := g5 i hlo hhi
        exact ⟨_, hf, rfl⟩)
    refine ⟨sp1, g1, g2, hsh, b2, ?_⟩
    unfold swapSized at hsized ⊢
    rw [b2, hsized, g2, hsh]
    congr 1
    omega
  · intro sp vpn hsized hvpn
    unfold swapSized at hsized
    rw [hsized]
    exact Nat.mul_le_mul_right _ (by omega)

/-- An instance: a shared region of six bytes is added to the three pages of
`prog`; the address space then has five pages, two of them shared, and its swap
array keeps its twelve bytes. -/
theorem swapMemory_has_slots_for_private_pages_witness :
    ∃ k1 ret sp1,
      AddSharedSpace (cfgSmall .NO_REPL) loadedState 0 6 freshZero (fun _ => ⟨0, 0, 0⟩)
        = .ok (k1, ret)
      ∧ k1.spaces[0]? = some sp1 ∧ sp1.numPagesInVM = 5 ∧ sharedPages sp1 = 2
      ∧ sp1.swapMemory.length = 12 :=
  have hex : ∃ k1 ret,
      AddSharedSpace (cfgSmall .NO_REPL) loadedState 0 6 freshZero (fun _ => ⟨0, 0, 0⟩)
        = .ok (k1, ret) := ⟨_, _, rfl⟩
  match hex with
  | ⟨k1, ret, hrun⟩ =>
    match (swapMemory_has_slots_for_private_pages (cfgSmall .NO_REPL)).2.2.1 loadedState 0 6
        freshZero (fun _ => ⟨0, 0, 0⟩) spaceSmall k1 ret rfl rfl (by decide) rfl (by decide)
        rfl rfl (by decide) rfl hrun with
    | ⟨sp1, h1, h2, h3, h4, _⟩ => ⟨k1, ret, sp1, hrun, h1, h2, h3, h4⟩

/-- C21 (counterexample).  Under `NO_REPL` a shared region of six bytes is
added to the three pages of `prog` and the address space is forked.  Parent
and child then have five pages of four bytes each and a swap array of twelve
bytes, not twenty: `AddSharedSpace` does not enlarge the swap array, and the
copy constructor allocates `(numPagesInVM - numSharedPages) * PageSize`
bytes. -/
theorem swapMemory_shorter_than_address_space :
    (loadedState.spaces.map (fun sp => (sp.numPagesInVM, sp.swapMemory.length))) = [(3, 12)]
      ∧ ((AddSharedSpace (cfgSmall .NO_REPL) loadedState 0 6 freshZero
              (fun _ => ⟨0, 0, 0⟩)).toOption.bind
          (fun r => (ProcessAddrSpace_fork (cfgSmall .NO_REPL) r.1 0 freshZero
                      ndZero).toOption.map
            (fun q => (r.1.spaces.map (fun sp => (sp.numPagesInVM, sp.swapMemory.length)),
                       q.1.spaces.map (fun sp => (sp.numPagesInVM, sp.swapMemory.length))))))
        = some ([(5, 12)], [(5, 12), (5, 12)]) := by
  refine ⟨by decide, ?_⟩
  rfl

/-! ## Termination of the clock scan -/

theorem clockScan_returns (N : Nat) (ntr : Int) (hN : N ≠ 0) :
    ∀ (fuel : Nat) (rb : List Bool) (ptr : Nat),
      rb.count true < fuel → ∃ r, clockScan N ntr fuel rb ptr = .ok r := by
  intro fuel
  induction fuel with
  | zero => intro rb ptr h; omega
  | succ n ih =>
    intro rb ptr h
    unfold clockScan
    split_ifs with hbit
    · apply ih
      have := count_clear rb ptr hbit
      omega
    · exact ⟨_, rfl⟩

theorem length_clockPassed (N : Nat) (ntr : Int) :
    ∀ (fuel : Nat) (rb : List Bool) (ptr : Nat),
      (clockPassed N ntr fuel rb ptr).length ≤ rb.count true := by
  intro fuel
  induction fuel with
  | zero => intro rb ptr; simp [clockPassed]
  | succ n ih =>
    intro rb ptr
    unfold clockPassed
    split_ifs with hbit hN
    · simp
    · have := count_clear rb ptr hbit
      have := ih (rb.set ptr false)
        (if (((ptr + 1) % N : Nat) : Int) = ntr then ((ptr + 1) % N + 1) % N else (ptr + 1) % N)
      simp only [List.length_cons]
      omega
    · simp

/-- C23.  The clock victim search terminates: for every pool of
`NumPhysPages ≥ 1` frames, every position of the hand inside the pool, every
assignment of the reference bits and every `notToReplace` (`-1` included), the
`while` loop exits within `NumPhysPages + 1` tests of its condition; its body
runs at most `NumPhysPages` times, and the hand is inside the pool when the
loop exits. -/
theorem clock_scan_terminates (N : Nat) (notToReplace : Int) (rb : List Bool) (ptr : Nat)
    (hN : 1 ≤ N) (hptr : ptr < N) (hlen : rb.length = N) :
    ∃ rb1 v, clockScan N notToReplace (N + 1) rb ptr = .ok (rb1, v)
      ∧ v < N
      ∧ (clockPassed N notToReplace (N + 1) rb ptr).length ≤ N := by
  have hcount : rb.count true ≤ N := by rw [← hlen]; exact List.count_le_length _ _
  obtain ⟨⟨rb1, v⟩, hr⟩ := clockScan_returns N notToReplace (by omega) (N + 1) rb ptr (by omega)
  exact ⟨rb1, v, hr, clockScan_lt _ _ _ _ _ _ _ hr hptr,
    Nat.le_trans (length_clockPassed _ _ _ _ _) hcount⟩

/-- An instance: three frames with every reference bit set and no frame
excluded; the hand goes round once and stops where it started. -/
theorem clock_scan_terminates_witness :
    ∃ rb1 v, clockScan 3 (-1) 4 [true, true, true] 0 = .ok (rb1, v) ∧ v < 3
      ∧ (clockPassed 3 (-1) 4 [true, true, true] 0).length ≤ 3 :=
  clock_scan_terminates 3 (-1) [true, true, true] 0 (by decide) (by decide) rfl

/-! ## The counter of frames in use -/

/-- C22 (evaluation).  From the state at start-up (`usedPages = 0`, every frame
free): an address space of three pages is created and destroyed; none of its
pages was ever resident, and the destructor lowers `usedPages` to -3.  Under
`RANDOM_REPL`: a program of two pages is created, takes a page fault on page 0
and forks; the child holds one frame (frame 1), its destructor decrements
`usedPages` once for each of its two entries, and the state ends with
`usedPages = 0` while frame 0 still belongs to the parent. -/
theorem usedPages_differs_from_frames_in_use :
    bootState.usedPages = 0 ∧ framesInUse bootState = 0
      ∧ ((ProcessAddrSpace_exec (cfgSmall .NO_REPL) id bootState hdrSmall "prog"
            (fun _ => 9)).toOption.bind
          (fun r => (ProcessAddrSpace_destroy r.1 r.2).toOption)).map
          (fun k => (k.usedPages, framesInUse k))
        = some (-3, 0)
      ∧ ((((ProcessAddrSpace_exec (cfgSmall .RANDOM_REPL) id bootState hdrTwo "prog"
              (fun _ => 9)).toOption.bind
            (fun r => (PageFaultHandler (cfgSmall .RANDOM_REPL) r.1 r.2 0 ⟨0, 0, 0⟩).toOption)).bind
            (fun k => (ProcessAddrSpace_fork (cfgSmall .RANDOM_REPL) k 0 freshEntry
                        ndZero).toOption)).bind
            (fun r => ((ProcessAddrSpace_destroy r.1 r.2).toOption).map
              (fun k => (residency (pageTableOf r.1 r.2), r.1.usedPages, r.1.memoryUsedBy,
                         k.usedPages, k.memoryUsedBy, framesInUse k))))
        = some ([(true, 1, false), (false, 1, false)], 2, [0, 0, -1, -1],
                0, [0, -1, -1, -1], 1) := by
  refine ⟨by decide, by decide, by decide, ?_⟩
  rfl

/-! ## Eviction of a clean page -/

theorem clean_refault_bytes (c : Config) (k : SystemState) (self vpn a : Nat) (nd : Indet)
    (k1 k2 : SystemState) (sp : ProcessAddrSpace)
    (hsp : k.spaces[self]? = some sp)
    (hps : 0 < c.PageSize)
    (hvpn : vpn < sp.NachOSpageTable.length)
    (hvalid : (sp.NachOSpageTable.getD vpn default).valid = true)
    (hused : (sp.NachOSpageTable.getD vpn default).ifUsed = true)
    (hclean : (sp.NachOSpageTable.getD vpn default).dirty = false)
    (hswap : (vpn + 1) * c.PageSize ≤ sp.swapMemory.length)
    (hswap32 : sp.swapMemory.length < 4294967296)
    (hmem : k.mainMemory.length = c.NumPhysPages * c.PageSize)
    (hmem32 : c.NumPhysPages * c.PageSize ≤ 4294967296)
    (hmu : k.memoryUsedBy.length = c.NumPhysPages)
    (hvp : k.virtualPageNo.length = c.NumPhysPages)
    (hptr : k.LRU_Clock_ptr < c.NumPhysPages)
    (ha : a / c.PageSize = vpn)
    (h1 : SaveToSwap c k self (vpn : Int) = .ok k1)
    (h2 : PageFaultHandler c k1 self a nd = .ok k2) :
    ∃ e, (pageTableOf k2 self)[vpn]? = some e ∧ e.valid = true
      ∧ 0 ≤ e.physicalPage ∧ e.physicalPage < (c.NumPhysPages : Int)
      ∧ frameBytes c k2 e.physicalPage
          = readBytes sp.swapMemory (vpn * c.PageSize) c.PageSize := by
  obtain ⟨sp0, hsp0, hv0, hk1⟩ := SaveToSwap_ok h1
  rw [hsp] at hsp0
  cases hsp0
  have hgetAt : getAt sp.NachOSpageTable (vpn : Int) = sp.NachOSpageTable.getD vpn default :=
    getAt_natCast _ _
  have hst1 := spaceStable_swapOut c k.mainMemory sp _ hv0
  have hsp1 : k1.spaces[self]? = some (swapOut c k.mainMemory sp (vpn : Int)) := by
    rw [hk1]
    exact getElem?_set_self_of_some _ _ _ _ hsp
  have hlen1 := hst1.2.2.2.1
  have hif1 := (hst1.2.2.2.2.2.1 vpn).1
  have hinv1 : ((swapOut c k.mainMemory sp (vpn : Int)).NachOSpageTable.getD
      vpn default).valid = false := by
    simp only [swapOut]
    rw [getD_setAt, if_pos ⟨Int.ofNat_nonneg _, Int.toNat_ofNat _, hvpn⟩]
  have hswap1 : (swapOut c k.mainMemory sp (vpn : Int)).swapMemory = sp.swapMemory := by
    simp only [swapOut, hgetAt, hclean, Bool.false_eq_true, if_false]
  obtain ⟨kA, f, spA, hgnp, hspA, hstA, hmem2, hspaces2⟩ :=
    PageFaultHandler_from_swap hsp1 hps (by rw [ha, hlen1]; exact hvpn)
      (by rw [ha, hif1]; exact hused) h2
  rw [ha] at hgnp hmem2 hspaces2
  have hk1mu : k1.memoryUsedBy = k.memoryUsedBy := by rw [hk1]
  have hk1vp : k1.virtualPageNo = k.virtualPageNo := by rw [hk1]
  have hk1ptr : k1.LRU_Clock_ptr = k.LRU_Clock_ptr := by rw [hk1]
  have hk1mem : k1.mainMemory = k.mainMemory := by rw [hk1]
  obtain ⟨_, _, _, hf0, hf1, _⟩ := GetNextPageToWrite_frame c _ self _ _ nd kA f
    (by simpa [hk1mu] using hmu) (by simpa [hk1vp] using hvp) (by simpa [hk1ptr] using hptr) hgnp
  have hmemA : kA.mainMemory = k.mainMemory := by
    rw [(GetNextPageToWrite_globals hgnp).1]
    exact hk1mem
  have hlenA := hstA.2.2.2.1
  have hfa : frameAddr c f = f.toNat * c.PageSize := by
    apply frameAddr_eq c f hf0
    have : f.toNat < c.NumPhysPages := by omega
    have := Nat.mul_lt_mul_of_pos_right this hps
    omega
  have hfin : f.toNat * c.PageSize + c.PageSize ≤ k.mainMemory.length := by
    have : f.toNat + 1 ≤ c.NumPhysPages := by omega
    have := Nat.mul_le_mul_right c.PageSize this
    rw [Nat.add_mul, Nat.one_mul] at this
    omega
  rw [Nat.add_mul, Nat.one_mul] at hswap
  have hu32 : u32 (vpn * c.PageSize) = vpn * c.PageSize := by
    unfold u32
    apply Nat.mod_eq_of_lt
    omega
  refine ⟨{ spA.NachOSpageTable.getD vpn default with physicalPage := f, valid := true },
    ?_, rfl, hf0, hf1, ?_⟩
  · unfold pageTableOf
    rw [hspaces2]
    simp only [setEntry]
    rw [List.getElem?_set]
    simp only [if_true]
    rw [if_pos (by rw [hlenA, hlen1]; exact hvpn)]
  · show frameBytes c k2 f = _
    unfold frameBytes
    apply readBytes_congr
    intro j hj
    rw [hmem2, hfa, hu32, getD_memcpy_in _ _ _ _ _ _ hj
      (by rw [length_bzero, hmemA]; omega)]
    rw [hstA.2.2.2.2.2.2 vpn hinv1 j hj, hswap1]

/-- C24 (as amended).  For a page `vpn` that is resident, used before and not
dirty, `SaveToSwap(vpn)` followed by `PageFaultHandler` on an address of page
`vpn` leaves the page valid in a frame of the pool whose `PageSize` bytes are
the bytes that the swap array held at offset `vpn * PageSize` before the
eviction; so the frame holds what the old frame held whenever the swap slot
held those bytes already.  Both calls return when the allocation needs no
clock scan.  The swap array covers the slot of the page, main memory has
`NumPhysPages` frames and both fit the 32-bit address range. -/
theorem clean_page_comes_back_from_swap_slot (c : Config) (k : SystemState)
    (self vpn a : Nat) (nd : Indet) (sp : ProcessAddrSpace)
    (hsp : k.spaces[self]? = some sp)
    (hps : 0 < c.PageSize)
    (hnum : sp.NachOSpageTable.length = sp.numPagesInVM)
    (hvpn : vpn < sp.NachOSpageTable.length)
    (hvalid : (sp.NachOSpageTable.getD vpn default).valid = true)
    (hused : (sp.NachOSpageTable.getD vpn default).ifUsed = true)
    (hclean : (sp.NachOSpageTable.getD vpn default).dirty = false)
    (hswap : (vpn + 1) * c.PageSize ≤ sp.swapMemory.length)
    (hswap32 : sp.swapMemory.length < 4294967296)
    (hmem : k.mainMemory.length = c.NumPhysPages * c.PageSize)
    (hmem32 : c.NumPhysPages * c.PageSize ≤ 4294967296)
    (hmu : k.memoryUsedBy.length = c.NumPhysPages)
    (hvp : k.virtualPageNo.length = c.NumPhysPages)
    (hptr : k.LRU_Clock_ptr < c.NumPhysPages)
    (ha : a / c.PageSize = vpn) :
    (∀ k1 k2, SaveToSwap c k self (vpn : Int) = .ok k1 →
        PageFaultHandler c k1 self a nd = .ok k2 →
        ∃ e, (pageTableOf k2 self)[vpn]? = some e ∧ e.valid = true
          ∧ 0 ≤ e.physicalPage ∧ e.physicalPage < (c.NumPhysPages : Int)
          ∧ frameBytes c k2 e.physicalPage
              = readBytes sp.swapMemory (vpn * c.PageSize) c.PageSize
          ∧ (readBytes sp.swapMemory (vpn * c.PageSize) c.PageSize
                = frameBytes c k (sp.NachOSpageTable.getD vpn default).physicalPage →
              frameBytes c k2 e.physicalPage
                = frameBytes c k (sp.NachOSpageTable.getD vpn default).physicalPage))
      ∧ (canAllocate c k →
          ∃ k1 k2, SaveToSwap c k self (vpn : Int) = .ok k1
            ∧ PageFaultHandler c k1 self a nd = .ok k2) := by
  refine ⟨fun k1 k2 h1 h2 => ?_, fun hcan => ?_⟩
  · obtain ⟨e, g1, g2, g3, g4, g5⟩ :=
      clean_refault_bytes c k self vpn a nd k1 k2 sp hsp hps hvpn hvalid hused hclean
        hswap hswap32 hmem hmem32 hmu hvp hptr ha h1 h2
    exact ⟨e, g1, g2, g3, g4, g5, fun h => g5.trans h⟩
  · have hv0 : (getAt sp.NachOSpageTable (vpn : Int)).valid = true := by
      rw [getAt_natCast]; exact hvalid
    have h1 : SaveToSwap c k self (vpn : Int)
        = .ok { k with spaces := k.spaces.set self (swapOut c k.mainMemory sp (vpn : Int)) } := by
      unfold SaveToSwap
      simp only [hsp, hv0, Bool.true_eq_false, if_false]
    have hst1 := spaceStable_swapOut c k.mainMemory sp _ hv0
    have hpf : ∃ k2, PageFaultHandler c
        { k with spaces := k.spaces.set self (swapOut c k.mainMemory sp (vpn : Int)) } self a nd
          = .ok k2 :=
      PageFaultHandler_returns_from_swap
        (getElem?_set_self_of_some _ _ _ (swapOut c k.mainMemory sp (vpn : Int)) hsp) hps
        (by rw [ha, hst1.2.2.2.1]; exact hvpn)
        (by rw [ha, hst1.1, ← hnum]; exact Nat.le_of_lt hvpn)
        (by rw [ha, (hst1.2.2.2.2.2.1 vpn).1]; exact hused) hcan
    obtain ⟨k2, hk2⟩ := hpf
    exact ⟨_, k2, h1, hk2⟩

/-- An instance: page 1, clean in frame 2, is evicted and faulted in again; its
new frame holds the four bytes 9 of its swap slot. -/
theorem clean_page_comes_back_from_swap_slot_witness :
    ∃ k1 k2, SaveToSwap (cfgSmall .LRU_CLOCK_REPL) cleanState 0 1 = .ok k1
      ∧ PageFaultHandler (cfgSmall .LRU_CLOCK_REPL) k1 0 5 ⟨0, 0, 0⟩ = .ok k2
      ∧ ∃ e, (pageTableOf k2 0)[1]? = some e ∧ e.valid = true
          ∧ frameBytes (cfgSmall .LRU_CLOCK_REPL) k2 e.physicalPage = [9, 9, 9, 9] :=
  have hcan : canAllocate (cfgSmall .LRU_CLOCK_REPL) cleanState := by
    show cleanState.usedPages ≠ ((cfgSmall .LRU_CLOCK_REPL).NumPhysPages : Int)
      ∧ (findFree cleanState.memoryUsedBy (cfgSmall .LRU_CLOCK_REPL).NumPhysPages).2 ≠ -1
    decide
  have h := clean_page_comes_back_from_swap_slot (cfgSmall .LRU_CLOCK_REPL) cleanState 0 1 5
    ⟨0, 0, 0⟩ spaceClean rfl (by decide) rfl (by decide) rfl rfl rfl (by decide) (by decide)
    rfl (by decide) rfl rfl (by decide) rfl
  match h.2 hcan with
  | ⟨k1, k2, h1, h2⟩ =>
    match h.1 k1 k2 h1 h2 with
    | ⟨e, g1, g2, _, _, g5, _⟩ => ⟨k1, k2, h1, h2, e, g1, g2, g5.trans (by decide)⟩

/-- C24 (counterexample).  Under `NO_REPL`, page 1 of `prog` is loaded from the
executable into frame 0 (bytes 144, 145, 146, 147) and is never written, so it
is resident, used before and not dirty.  `SaveToSwap(1)` copies nothing, and
the page fault that follows fills the new frame from the swap slot of the page,
which still holds what the swap array held when it was allocated (9 in every
byte): the page comes back with the bytes 9, 9, 9, 9. -/
theorem clean_page_loses_content :
    ((PageFaultHandler (cfgSmall .NO_REPL) loadedState 0 5 ⟨1, 0, 0⟩).toOption.bind
        (fun ka =>
          ((SaveToSwap (cfgSmall .NO_REPL) ka 0 1).toOption.bind
            (fun kb => (PageFaultHandler (cfgSmall .NO_REPL) kb 0 5 ⟨1, 0, 0⟩).toOption)).map
            (fun kc =>
              (mapping (pageTableOf ka 0), (pageTableOf ka 0).map (fun e => (e.ifUsed, e.dirty)),
               frameBytes (cfgSmall .NO_REPL) ka 0,
               mapping (pageTableOf kc 0), frameBytes (cfgSmall .NO_REPL) kc 1))))
      = some ([(false, -1), (true, 0), (false, -1)],
              [(false, false), (true, false), (false, false)],
              [144, 145, 146, 147],
              [(false, -1), (true, 1), (false, -1)],
              [9, 9, 9, 9]) := by
  rfl

end NachOS
